import Mathlib

/-! # Scanner and statement translator of `main2.cpp`

A shallow embedding of the `Lexer` and `Parser` classes of `src/main2.cpp`,
followed by theorems about them.

Conventions of the embedding:

* the input buffer (`std::string input`) is a list of characters and the
  cursor `current_pos` is a natural number indexing into it;
* `isspace`, `isdigit`, `isalpha`, `isalnum` are the predicates of the "C"
  locale on ASCII; every other character satisfies none of them;
* the two output streams of the parser (`output` and `cerr`) are lists of
  lines, in the order written; each `<< endl` ends one line;
* every `while` loop of the source is a recursive function on a fuel
  argument.  The scanner loops and the argument-skipping loop of a call are
  given the number of unread characters as fuel, which they cannot exhaust;
  the statement rules return `none` when the fuel runs out.
-/

namespace Compiler

/-! ## Tokens -/

/-- The enumeration `TokenType` (lines 9-12). -/
inductive TokenType where
  | INT | FLOAT | IDENTIFIER | PLUS | MINUS | MUL | DIV | ASSIGN | SEMICOLON
  | LPAREN | RPAREN | LBRACE | RBRACE | IF | ELSE | WHILE | PRINT | END | ERROR
  | GREATER_THAN
  deriving DecidableEq

/-- The struct `Token` (lines 14-17). -/
structure Token where
  type : TokenType
  lexeme : String
  deriving DecidableEq

/-! ## Character classes -/

/-- The function `isspace` of the "C" locale: space, `\t`, `\n`, `\v`, `\f`, `\r`. -/
def isspace (c : Char) : Bool :=
  c = ' ' || c = '\t' || c = '\n' || c = '\x0b' || c = '\x0c' || c = '\r'

/-- The function `isdigit`. -/
def isdigit (c : Char) : Bool := c.isDigit

/-- The function `isalpha` of the "C" locale. -/
def isalpha (c : Char) : Bool := c.isAlpha

/-- The function `isalnum` of the "C" locale. -/
def isalnum (c : Char) : Bool := c.isAlpha || c.isDigit

/-! ## The scanner -/

/-- The state of a `Lexer`: the buffer and the cursor (lines 106-107). -/
structure Lexer where
  input : List Char
  current_pos : Nat
  deriving DecidableEq

namespace Lexer

/-- The constructor `Lexer(string input)` (line 23). -/
def new (input : String) : Lexer := { input := input.data, current_pos := 0 }

/-- The character `input[current_pos]`. -/
def cur (l : Lexer) : Char := l.input.getD l.current_pos ' '

/-- The method `Lexer::advance` (lines 61-63). -/
def advance (l : Lexer) : Lexer := { l with current_pos := l.current_pos + 1 }

/-- The whitespace loop of `getNextToken` (lines 26-28). -/
def skipWhitespace : Nat → Lexer → Lexer
  | 0, l => l
  | fuel + 1, l =>
    if l.current_pos < l.input.length ∧ isspace l.cur = true then
      skipWhitespace fuel l.advance
    else l

/-- The loop of `getNumberToken` (lines 68-77) on the locals `num` and `is_float`. -/
def numberLoop : Nat → Lexer → String → Bool → Lexer × String × Bool
  | 0, l, num, is_float => (l, num, is_float)
  | fuel + 1, l, num, is_float =>
    if l.current_pos < l.input.length ∧ (isdigit l.cur = true ∨ l.cur = '.') then
      if l.cur = '.' then
        if is_float = true then (l, num, is_float)
        else numberLoop fuel l.advance (num.push l.cur) true
      else numberLoop fuel l.advance (num.push l.cur) is_float
    else (l, num, is_float)

/-- The method `Lexer::getNumberToken` (lines 65-82). -/
def getNumberToken (l : Lexer) : Token × Lexer :=
  let r := numberLoop (l.input.length - l.current_pos) l "" false
  if r.2.2 = true then (⟨TokenType.FLOAT, r.2.1⟩, r.1)
  else (⟨TokenType.INT, r.2.1⟩, r.1)

/-- The loop of `getIdentifierOrKeywordToken` (lines 86-89). -/
def identifierLoop : Nat → Lexer → String → Lexer × String
  | 0, l, identifier => (l, identifier)
  | fuel + 1, l, identifier =>
    if l.current_pos < l.input.length ∧ (isalnum l.cur = true ∨ l.cur = '_') then
      identifierLoop fuel l.advance (identifier.push l.cur)
    else (l, identifier)

/-- The method `Lexer::getIdentifierOrKeywordToken` (lines 84-104). -/
def getIdentifierOrKeywordToken (l : Lexer) : Token × Lexer :=
  let r := identifierLoop (l.input.length - l.current_pos) l ""
  let identifier := r.2
  if identifier = "if" then (⟨TokenType.IF, "if"⟩, r.1)
  else if identifier = "else" then (⟨TokenType.ELSE, "else"⟩, r.1)
  else if identifier = "while" then (⟨TokenType.WHILE, "while"⟩, r.1)
  else if identifier = "print" then (⟨TokenType.PRINT, "print"⟩, r.1)
  else if identifier = "int" then (⟨TokenType.INT, "int"⟩, r.1)
  else if identifier = "float" then (⟨TokenType.FLOAT, "float"⟩, r.1)
  else (⟨TokenType.IDENTIFIER, identifier⟩, r.1)

/-- The part of `getNextToken` after the whitespace loop (lines 30-57): the
classification of the character under the cursor. -/
def scanToken (l : Lexer) : Token × Lexer :=
  if l.current_pos ≥ l.input.length then (⟨TokenType.END, ""⟩, l)
  else if isdigit l.cur = true then getNumberToken l
  else if isalpha l.cur = true then getIdentifierOrKeywordToken l
  else if l.cur = '+' then (⟨TokenType.PLUS, "+"⟩, l.advance)
  else if l.cur = '-' then (⟨TokenType.MINUS, "-"⟩, l.advance)
  else if l.cur = '*' then (⟨TokenType.MUL, "*"⟩, l.advance)
  else if l.cur = '/' then (⟨TokenType.DIV, "/"⟩, l.advance)
  else if l.cur = '=' then (⟨TokenType.ASSIGN, "="⟩, l.advance)
  else if l.cur = ';' then (⟨TokenType.SEMICOLON, ";"⟩, l.advance)
  else if l.cur = '(' then (⟨TokenType.LPAREN, "("⟩, l.advance)
  else if l.cur = ')' then (⟨TokenType.RPAREN, ")"⟩, l.advance)
  else if l.cur = '\x7b' then (⟨TokenType.LBRACE, "\x7b"⟩, l.advance)
  else if l.cur = '\x7d' then (⟨TokenType.RBRACE, "\x7d"⟩, l.advance)
  else if l.cur = '>' then (⟨TokenType.GREATER_THAN, ">"⟩, l.advance)
  else (⟨TokenType.ERROR, String.singleton l.cur⟩, l.advance)

/-- The method `Lexer::getNextToken` (lines 25-58): the token returned and the
scanner afterwards. -/
def getNextToken (l : Lexer) : Token × Lexer :=
  scanToken (skipWhitespace (l.input.length - l.current_pos) l)

end Lexer

/-! ## The statement translator -/

/-- The state of a `Parser` (lines 317-319): the scanner it reads from, the
lookahead `current_token`, the lines written to `output` and the lines
written to `cerr`. -/
structure Parser where
  lexer : Lexer
  current_token : Token
  output : List String
  cerr : List String
  deriving DecidableEq

namespace Parser

/-- The constructor `Parser(Lexer&, ostream&)` (line 112). -/
def new (lexer : Lexer) : Parser :=
  { lexer := lexer.getNextToken.2, current_token := lexer.getNextToken.1,
    output := [], cerr := [] }

/-- The method `Parser::advance` (lines 313-315). -/
def advance (p : Parser) : Parser :=
  { p with lexer := p.lexer.getNextToken.2, current_token := p.lexer.getNextToken.1 }

/-- One line written to `output`. -/
def emit (p : Parser) (line : String) : Parser :=
  { p with output := p.output ++ [line] }

/-- One line written to `cerr`. -/
def report (p : Parser) (msg : String) : Parser :=
  { p with cerr := p.cerr ++ [msg] }

/-- The method `Parser::parseExpression` (lines 287-311). -/
def parseExpression (p0 : Parser) : Parser :=
  let p :=
    if p0.current_token.type = TokenType.IDENTIFIER ∨ p0.current_token.type = TokenType.INT
        ∨ p0.current_token.type = TokenType.FLOAT then
      (p0.emit ("load " ++ p0.current_token.lexeme ++ " into eax")).advance
    else p0
  if p.current_token.type = TokenType.GREATER_THAN then
    (p.advance.emit ("compare eax with " ++ p.advance.current_token.lexeme)).advance
  else if p.current_token.type = TokenType.MINUS then
    (p.advance.emit ("substract eax with " ++ p.advance.current_token.lexeme)).advance
  else if p.current_token.type = TokenType.PLUS then
    (p.advance.emit ("Add eax with " ++ p.advance.current_token.lexeme)).advance
  else p

/-- The method `Parser::parseVariableDeclaration` (lines 134-154). -/
def parseVariableDeclaration (p0 : Parser) : Parser :=
  let p1 := p0.advance
  if p1.current_token.type = TokenType.IDENTIFIER then
    let identifier_token := p1.current_token
    let p2 := p1.advance
    let p3 :=
      if p2.current_token.type = TokenType.ASSIGN then
        (parseExpression p2.advance).emit ("mov " ++ identifier_token.lexeme ++ ", eax")
      else if p2.current_token.type = TokenType.SEMICOLON then
        p2.emit ("var " ++ identifier_token.lexeme)
      else p2
    if p3.current_token.type = TokenType.SEMICOLON then p3.advance else p3
  else p1.report "Syntax error: Expected identifier after type"

/-- The loop of `parseAssignmentOrFunctionCall` that discards the arguments of
a call (lines 169-171). -/
def skipArguments : Nat → Parser → Parser
  | 0, p => p
  | fuel + 1, p =>
    if p.current_token.type ≠ TokenType.RPAREN ∧ p.current_token.type ≠ TokenType.END then
      skipArguments fuel p.advance
    else p

/-- The method `Parser::parseAssignmentOrFunctionCall` (lines 156-182). -/
def parseAssignmentOrFunctionCall (p0 : Parser) : Parser :=
  let identifier_token := p0.current_token
  let p1 := p0.advance
  if p1.current_token.type = TokenType.ASSIGN then
    let p2 := (parseExpression p1.advance).emit ("mov " ++ identifier_token.lexeme ++ ", eax")
    if p2.current_token.type = TokenType.SEMICOLON then p2.advance else p2
  else if p1.current_token.type = TokenType.LPAREN then
    let p2 := p1.advance
    let p3 := skipArguments (p2.lexer.input.length - p2.lexer.current_pos + 1) p2
    let p4 := if p3.current_token.type = TokenType.RPAREN then p3.advance else p3
    let p5 := p4.emit ("call " ++ identifier_token.lexeme)
    if p5.current_token.type = TokenType.SEMICOLON then p5.advance else p5
  else
    p1.report ("Syntax error: Unexpected token after identifier \x27"
      ++ identifier_token.lexeme ++ "\x27")

/-- The method `Parser::parsePrintStatement` (lines 226-243). -/
def parsePrintStatement (p0 : Parser) : Parser :=
  let p1 := p0.advance
  if p1.current_token.type ≠ TokenType.LPAREN then
    p1.report "Syntax error: Expected \x27(\x27 after \x27print\x27"
  else
    let p2 := (parseExpression p1.advance).emit "print eax"
    let p3 :=
      if p2.current_token.type ≠ TokenType.RPAREN then
        p2.report "Syntax error: Expected \x27)\x27 after print statement"
      else p2.advance
    if p3.current_token.type = TokenType.SEMICOLON then p3.advance else p3

/-- The diagnostic `Syntax error: Unexpected token '<lexeme>'` followed by
`advance()` (lines 127-128, 250-251, 269-270, 282-283). -/
def unexpectedToken (p : Parser) : Parser :=
  (p.report ("Syntax error: Unexpected token \x27" ++ p.current_token.lexeme ++ "\x27")).advance

mutual

/-- The method `Parser::parseIfStatement` (lines 184-204). -/
def parseIfStatement : Nat → Parser → Option Parser
  | 0, _ => none
  | fuel + 1, p0 =>
    let p1 := p0.advance
    if p1.current_token.type = TokenType.LPAREN then
      let p2 := parseExpression p1.advance
      if p2.current_token.type = TokenType.RPAREN then
        (parseBlock fuel (p2.advance.emit "if eax != 0 jump label")).bind fun p3 =>
          if p3.current_token.type = TokenType.ELSE then
            parseBlock fuel (p3.advance.emit "label:")
          else some p3
      else
        some (p2.report "Syntax error: Expected \x27)\x27 after condition in if statement")
    else some (p1.report "Syntax error: Expected \x27(\x27 after \x27if\x27")

/-- The method `Parser::parseWhileLoop` (lines 206-224). -/
def parseWhileLoop : Nat → Parser → Option Parser
  | 0, _ => none
  | fuel + 1, p0 =>
    let p1 := p0.advance.emit "label:"
    if p1.current_token.type = TokenType.LPAREN then
      let p2 := parseExpression p1.advance
      if p2.current_token.type = TokenType.RPAREN then
        (parseBlock fuel (p2.advance.emit "if eax == 0 jump end_label")).bind fun p3 =>
          some ((p3.emit "jump label").emit "end_label:")
      else
        some (p2.report "Syntax error: Expected \x27)\x27 after condition in while statement")
    else some (p1.report "Syntax error: Expected \x27(\x27 after \x27while\x27")

/-- The method `Parser::parseBlock` (lines 245-264). -/
def parseBlock : Nat → Parser → Option Parser
  | 0, _ => none
  | fuel + 1, p0 =>
    if p0.current_token.type = TokenType.LBRACE then
      (blockLoop fuel p0.advance).bind fun p1 =>
        if p1.current_token.type = TokenType.RBRACE then some p1.advance
        else some (p1.report "Syntax error: Expected \x27\x7d\x27 at end of block")
    else parseStatement fuel p0

/-- The loop of `parseBlock` (lines 248-255). -/
def blockLoop : Nat → Parser → Option Parser
  | 0, _ => none
  | fuel + 1, p =>
    if p.current_token.type ≠ TokenType.RBRACE ∧ p.current_token.type ≠ TokenType.END then
      (if p.current_token.type = TokenType.ERROR then some p.unexpectedToken
       else parseStatement fuel p).bind (blockLoop fuel)
    else some p

/-- The method `Parser::parseStatement` (lines 266-285). -/
def parseStatement : Nat → Parser → Option Parser
  | 0, _ => none
  | fuel + 1, p =>
    if p.current_token.type = TokenType.END then some p
    else if p.current_token.type = TokenType.ERROR then some p.unexpectedToken
    else if p.current_token.type = TokenType.INT ∨ p.current_token.type = TokenType.FLOAT then
      some (parseVariableDeclaration p)
    else if p.current_token.type = TokenType.IDENTIFIER then
      some (parseAssignmentOrFunctionCall p)
    else if p.current_token.type = TokenType.IF then parseIfStatement fuel p
    else if p.current_token.type = TokenType.WHILE then parseWhileLoop fuel p
    else if p.current_token.type = TokenType.PRINT then some (parsePrintStatement p)
    else some p.unexpectedToken

end

/-- The method `Parser::parse` (lines 114-131). -/
def parse : Nat → Parser → Option Parser
  | 0, _ => none
  | fuel + 1, p =>
    if p.current_token.type ≠ TokenType.END ∧ p.current_token.type ≠ TokenType.ERROR then
      (if p.current_token.type = TokenType.INT ∨ p.current_token.type = TokenType.FLOAT then
        some (parseVariableDeclaration p)
      else if p.current_token.type = TokenType.IDENTIFIER then
        some (parseAssignmentOrFunctionCall p)
      else if p.current_token.type = TokenType.IF then parseIfStatement fuel p
      else if p.current_token.type = TokenType.WHILE then parseWhileLoop fuel p
      else if p.current_token.type = TokenType.PRINT then some (parsePrintStatement p)
      else some p.unexpectedToken).bind (parse fuel)
    else some p

end Parser

/-- The fuel given to `Parser::parse` for a source of `n` characters. -/
def parseFuel (n : Nat) : Nat := 3 * n + 4

/-- The translation done by `main` (lines 339-342) for the source text `src`:
the final state of the parser, whose `output` is the instruction stream and
whose `cerr` is the diagnostic stream. -/
def translate (src : String) : Option Parser :=
  Parser.parse (parseFuel src.length) (Parser.new (Lexer.new src))

/-- The program text hard-coded in `main` (lines 323-335). -/
def input_code : String :=
  "" ++
  "   int x = 10;" ++
  "   int y = 20;" ++
  "   if (x > y) \x7b" ++
  "       print(x);" ++
  "   \x7d else \x7b" ++
  "       print(y);" ++
  "   \x7d" ++
  "   while (x > 0) \x7b" ++
  "       x = x - 1;" ++
  "   \x7d " ++
  ""

end Compiler

namespace Compiler

/-! ## The token stream of a scanner -/

namespace Lexer

/-- The scanner after `n` calls of `getNextToken`. -/
def calls : Nat → Lexer → Lexer
  | 0, l => l
  | n + 1, l => calls n (getNextToken l).2

/-- The token returned by call number `n + 1` of `getNextToken`. -/
def nthToken (n : Nat) (l : Lexer) : Token := (getNextToken (calls n l)).1

/-- The number of characters at or after position `pos` that are not whitespace. -/
def nonSpaceFrom (input : List Char) (pos : Nat) : Nat :=
  ((input.drop pos).filter fun c => !isspace c).length

/-- The result `r` of a scanning step from `l` that produced a token: the
token is not `END`, the buffer is kept, the cursor moved forward and is not
past the end. -/
def Progress (l : Lexer) (r : Token × Lexer) : Prop :=
  r.1.type ≠ TokenType.END ∧ r.2.input = l.input ∧ l.current_pos < r.2.current_pos
    ∧ r.2.current_pos ≤ l.input.length

/-- The tokens returned by at most `fuel` calls of `getNextToken`, up to the
first `END` excluded. -/
def tokensAux : Nat → Lexer → List Token
  | 0, _ => []
  | fuel + 1, l =>
    if (getNextToken l).1.type = TokenType.END then []
    else (getNextToken l).1 :: tokensAux fuel (getNextToken l).2

/-- The tokens that the scanner has yet to return, up to `END` excluded. Each
token takes at least one character, so one call per unread character and one
more reach `END`. -/
def tokens (l : Lexer) : List Token :=
  tokensAux (l.input.length - l.current_pos + 1) l

/-- The token made from the word `identifier` by the keyword comparisons of
`getIdentifierOrKeywordToken` (lines 90-103). -/
def wordToken (identifier : String) : Token :=
  if identifier = "if" then ⟨TokenType.IF, "if"⟩
  else if identifier = "else" then ⟨TokenType.ELSE, "else"⟩
  else if identifier = "while" then ⟨TokenType.WHILE, "while"⟩
  else if identifier = "print" then ⟨TokenType.PRINT, "print"⟩
  else if identifier = "int" then ⟨TokenType.INT, "int"⟩
  else if identifier = "float" then ⟨TokenType.FLOAT, "float"⟩
  else ⟨TokenType.IDENTIFIER, identifier⟩

end Lexer

/-- The token that every call returns at the end of the input. -/
def endToken : Token := ⟨TokenType.END, ""⟩

namespace Parser

/-- The parser `p` has the token sequence `ts` before it: its lookahead is the
first token of `ts` (the `END` token when `ts` is empty) and its scanner
returns the others. -/
def Reads (p : Parser) (ts : List Token) : Prop :=
  p.current_token = ts.headD endToken ∧ p.lexer.tokens = ts.tail

/-- The size of what is left to parse: the unread characters, and one more
while the lookahead is not `END`. -/
def measure (p : Parser) : Nat :=
  (p.lexer.input.length - p.lexer.current_pos)
    + (if p.current_token.type = TokenType.END then 0 else 1)

/-- The parser `q` is `p` some steps later: nothing is put back in front of the
scanner and both streams only grew. -/
def Extends (q p : Parser) : Prop :=
  q.measure ≤ p.measure ∧ p.output <+: q.output ∧ p.cerr <+: q.cerr

end Parser

/-! ## The grammar of section 4.2 as syntax trees -/

/-- The three operators of an expression. -/
inductive Op where
  | gt | minus | plus
  deriving DecidableEq

/-- The token of an operator. -/
def Op.token : Op → Token
  | .gt => ⟨TokenType.GREATER_THAN, ">"⟩
  | .minus => ⟨TokenType.MINUS, "-"⟩
  | .plus => ⟨TokenType.PLUS, "+"⟩

/-- The instruction line that `parseExpression` writes for an operator and the
lexeme of its right-hand operand (lines 295, 301, 307). -/
def Op.line : Op → String → String
  | .gt, lexeme => "compare eax with " ++ lexeme
  | .minus, lexeme => "substract eax with " ++ lexeme
  | .plus, lexeme => "Add eax with " ++ lexeme

/-- A token that starts an expression: an identifier or a token of kind `INT`
or `FLOAT`. -/
def isPrimary (t : Token) : Bool :=
  t.type = TokenType.IDENTIFIER || t.type = TokenType.INT || t.type = TokenType.FLOAT

/-- A token of the kind of a type keyword. -/
def isType (t : Token) : Bool :=
  t.type = TokenType.INT || t.type = TokenType.FLOAT

/-- An expression: one primary, or a primary, an operator and an operand. -/
inductive Expr where
  | prim (a : Token)
  | bin (a : Token) (op : Op) (b : Token)

mutual

/-- A statement of the grammar. -/
inductive Stmt where
  | decl (ty name : Token)
  | declInit (ty name : Token) (e : Expr)
  | assign (name : Token) (e : Expr)
  | call (name : Token) (args : List Token)
  | ifThen (e : Expr) (b : Block)
  | ifElse (e : Expr) (b1 b2 : Block)
  | whileLoop (e : Expr) (b : Block)
  | print (e : Expr)

/-- A block: statements between braces, or one statement. -/
inductive Block where
  | braced (ss : List Stmt)
  | single (s : Stmt)

end

namespace Expr

/-- The tokens of an expression. -/
def render : Expr → List Token
  | .prim a => [a]
  | .bin a op b => [a, op.token, b]

/-- The instruction lines of an expression. -/
def lines : Expr → List String
  | .prim a => ["load " ++ a.lexeme ++ " into eax"]
  | .bin a op b => ["load " ++ a.lexeme ++ " into eax", op.line b.lexeme]

/-- The operands of a well-formed expression are primaries. -/
def wf : Expr → Bool
  | .prim a => isPrimary a
  | .bin a _ b => isPrimary a && isPrimary b

end Expr

/-- The token `;`. -/
def semicolon : Token := ⟨TokenType.SEMICOLON, ";"⟩
/-- The token `=`. -/
def assignTok : Token := ⟨TokenType.ASSIGN, "="⟩
/-- The token `(`. -/
def lparen : Token := ⟨TokenType.LPAREN, "("⟩
/-- The token `)`. -/
def rparen : Token := ⟨TokenType.RPAREN, ")"⟩
/-- The token that opens a block. -/
def lbrace : Token := ⟨TokenType.LBRACE, "\x7b"⟩
/-- The token that closes a block. -/
def rbrace : Token := ⟨TokenType.RBRACE, "\x7d"⟩
/-- The token `if`. -/
def ifTok : Token := ⟨TokenType.IF, "if"⟩
/-- The token `else`. -/
def elseTok : Token := ⟨TokenType.ELSE, "else"⟩
/-- The token `while`. -/
def whileTok : Token := ⟨TokenType.WHILE, "while"⟩
/-- The token `print`. -/
def printTok : Token := ⟨TokenType.PRINT, "print"⟩

mutual

/-- The tokens of a statement. -/
def Stmt.render : Stmt → List Token
  | .decl ty name => [ty, name, semicolon]
  | .declInit ty name e => [ty, name, assignTok] ++ e.render ++ [semicolon]
  | .assign name e => [name, assignTok] ++ e.render ++ [semicolon]
  | .call name args => [name, lparen] ++ args ++ [rparen, semicolon]
  | .ifThen e b => [ifTok, lparen] ++ e.render ++ [rparen] ++ b.render
  | .ifElse e b1 b2 =>
    [ifTok, lparen] ++ e.render ++ [rparen] ++ b1.render ++ [elseTok] ++ b2.render
  | .whileLoop e b => [whileTok, lparen] ++ e.render ++ [rparen] ++ b.render
  | .print e => [printTok, lparen] ++ e.render ++ [rparen, semicolon]

/-- The tokens of a block. -/
def Block.render : Block → List Token
  | .braced ss => [lbrace] ++ renderStmts ss ++ [rbrace]
  | .single s => s.render

/-- The tokens of a sequence of statements. -/
def renderStmts : List Stmt → List Token
  | [] => []
  | s :: ss => s.render ++ renderStmts ss

end

mutual

/-- The instruction lines of a statement, rule by rule as in section 4.2. -/
def Stmt.lines : Stmt → List String
  | .decl _ name => ["var " ++ name.lexeme]
  | .declInit _ name e => e.lines ++ ["mov " ++ name.lexeme ++ ", eax"]
  | .assign name e => e.lines ++ ["mov " ++ name.lexeme ++ ", eax"]
  | .call name _ => ["call " ++ name.lexeme]
  | .ifThen e b => e.lines ++ ["if eax != 0 jump label"] ++ b.lines
  | .ifElse e b1 b2 =>
    e.lines ++ ["if eax != 0 jump label"] ++ b1.lines ++ ["label:"] ++ b2.lines
  | .whileLoop e b =>
    ["label:"] ++ e.lines ++ ["if eax == 0 jump end_label"] ++ b.lines
      ++ ["jump label", "end_label:"]
  | .print e => e.lines ++ ["print eax"]

/-- The instruction lines of a block. -/
def Block.lines : Block → List String
  | .braced ss => linesStmts ss
  | .single s => s.lines

/-- The instruction lines of a sequence of statements. -/
def linesStmts : List Stmt → List String
  | [] => []
  | s :: ss => s.lines ++ linesStmts ss

end

mutual

/-- A statement that can still take an `else`: its last rule is an `if`
without `else`. -/
def Stmt.isOpen : Stmt → Bool
  | .ifThen _ _ => true
  | .ifElse _ _ b2 => b2.isOpen
  | .whileLoop _ b => b.isOpen
  | _ => false

/-- A block that can still take an `else`. -/
def Block.isOpen : Block → Bool
  | .braced _ => false
  | .single s => s.isOpen

end

mutual

/-- The well-formed statements: a type keyword is of kind `INT` or `FLOAT`, a
name is an identifier, operands are primaries, the discarded arguments of a
call hold no `)`, and the block before an `else` cannot take that `else`
itself. -/
def Stmt.wf : Stmt → Bool
  | .decl ty name => isType ty && name.type = TokenType.IDENTIFIER
  | .declInit ty name e => isType ty && name.type = TokenType.IDENTIFIER && e.wf
  | .assign name e => name.type = TokenType.IDENTIFIER && e.wf
  | .call name args =>
    name.type = TokenType.IDENTIFIER
      && args.all fun t => t.type ≠ TokenType.RPAREN && t.type ≠ TokenType.END
  | .ifThen e b => e.wf && b.wf
  | .ifElse e b1 b2 => e.wf && b1.wf && !b1.isOpen && b2.wf
  | .whileLoop e b => e.wf && b.wf
  | .print e => e.wf

/-- The well-formed blocks. -/
def Block.wf : Block → Bool
  | .braced ss => wfStmts ss
  | .single s => s.wf

/-- The sequences of well-formed statements. -/
def wfStmts : List Stmt → Bool
  | [] => true
  | s :: ss => s.wf && wfStmts ss

end

end Compiler

namespace Compiler

namespace Parser

/-! ## Fuel that is enough for each rule -/

/-- With fuel `f`, `parseIfStatement` returns from every state whose measure is
at most a third of `f`. -/
def IfOk (f : Nat) : Prop :=
  ∀ p : Parser, p.current_token.type ≠ TokenType.END → 3 * p.measure ≤ f →
    ∃ q, parseIfStatement f p = some q ∧ q.Extends p.advance

/-- With fuel `f`, `parseWhileLoop` returns. -/
def WhileOk (f : Nat) : Prop :=
  ∀ p : Parser, p.current_token.type ≠ TokenType.END → 3 * p.measure ≤ f →
    ∃ q, parseWhileLoop f p = some q ∧ q.Extends p.advance

/-- With fuel `f`, `parseBlock` returns, having consumed a token unless the
lookahead was `END`. -/
def BlockOk (f : Nat) : Prop :=
  ∀ p : Parser, 3 * p.measure + 2 ≤ f →
    ∃ q, parseBlock f p = some q ∧ q.Extends p
      ∧ (p.current_token.type ≠ TokenType.END → q.measure < p.measure)

/-- With fuel `f`, the loop of `parseBlock` returns, on a closing brace or on
`END`. -/
def LoopOk (f : Nat) : Prop :=
  ∀ p : Parser, 3 * p.measure + 2 ≤ f →
    ∃ q, blockLoop f p = some q ∧ q.Extends p
      ∧ (q.current_token.type = TokenType.RBRACE ∨ q.current_token.type = TokenType.END)

/-- With fuel `f`, `parseStatement` returns, having consumed a token unless the
lookahead was `END`. -/
def StmtOk (f : Nat) : Prop :=
  ∀ p : Parser, 3 * p.measure + 1 ≤ f →
    ∃ q, parseStatement f p = some q ∧ q.Extends p
      ∧ (p.current_token.type ≠ TokenType.END → q.measure < p.measure)

end Parser

end Compiler

namespace Compiler

/-- A token of one of the three operator kinds. -/
def isOperator (t : Token) : Bool :=
  t.type = TokenType.GREATER_THAN || t.type = TokenType.MINUS || t.type = TokenType.PLUS

namespace Parser

/-- From `p` to `q` the rule wrote exactly `lines` to `output`, wrote nothing to
`cerr`, and left the tokens `rest` to read. -/
def Emits (p q : Parser) (lines : List String) (rest : List Token) : Prop :=
  q.Reads rest ∧ q.output = p.output ++ lines ∧ q.cerr = p.cerr

end Parser

end Compiler

namespace Compiler

/-- A token that starts a statement of the grammar. -/
def startsStmt (t : Token) : Bool :=
  t.type = TokenType.INT || t.type = TokenType.FLOAT || t.type = TokenType.IDENTIFIER
    || t.type = TokenType.IF || t.type = TokenType.WHILE || t.type = TokenType.PRINT

/-- The tokens `rest` after a statement `s` do not start with an `else` that
`s` would take. -/
def Stmt.closedBy (s : Stmt) (rest : List Token) : Prop :=
  s.isOpen = true → (rest.headD endToken).type ≠ TokenType.ELSE

/-- The tokens `rest` after a block `b` do not start with an `else` that `b`
would take. -/
def Block.closedBy (b : Block) (rest : List Token) : Prop :=
  b.isOpen = true → (rest.headD endToken).type ≠ TokenType.ELSE

namespace Parser

/-- With fuel `f`, `parseStatement` translates every well-formed statement. -/
def StmtSound (f : Nat) : Prop :=
  ∀ (s : Stmt) (p q : Parser) (rest : List Token), s.wf = true →
    p.Reads (s.render ++ rest) → s.closedBy rest →
    parseStatement f p = some q → Emits p q s.lines rest

/-- With fuel `f`, `parseBlock` translates every well-formed block. -/
def BlockSound (f : Nat) : Prop :=
  ∀ (b : Block) (p q : Parser) (rest : List Token), b.wf = true →
    p.Reads (b.render ++ rest) → b.closedBy rest →
    parseBlock f p = some q → Emits p q b.lines rest

/-- With fuel `f`, the loop of `parseBlock` translates every sequence of
well-formed statements up to the closing brace. -/
def LoopSound (f : Nat) : Prop :=
  ∀ (ss : List Stmt) (p q : Parser) (rest : List Token), wfStmts ss = true →
    p.Reads (renderStmts ss ++ rbrace :: rest) →
    blockLoop f p = some q → Emits p q (linesStmts ss) (rbrace :: rest)

/-- With fuel `f`, `parseIfStatement` translates every well-formed `if`. -/
def IfSound (f : Nat) : Prop :=
  (∀ (e : Expr) (b : Block) (p q : Parser) (rest : List Token), (Stmt.ifThen e b).wf = true →
    p.Reads ((Stmt.ifThen e b).render ++ rest) → (Stmt.ifThen e b).closedBy rest →
    parseIfStatement f p = some q → Emits p q (Stmt.ifThen e b).lines rest)
  ∧ (∀ (e : Expr) (b1 b2 : Block) (p q : Parser) (rest : List Token),
    (Stmt.ifElse e b1 b2).wf = true →
    p.Reads ((Stmt.ifElse e b1 b2).render ++ rest) → (Stmt.ifElse e b1 b2).closedBy rest →
    parseIfStatement f p = some q → Emits p q (Stmt.ifElse e b1 b2).lines rest)

/-- With fuel `f`, `parseWhileLoop` translates every well-formed `while`. -/
def WhileSound (f : Nat) : Prop :=
  ∀ (e : Expr) (b : Block) (p q : Parser) (rest : List Token), (Stmt.whileLoop e b).wf = true →
    p.Reads ((Stmt.whileLoop e b).render ++ rest) → (Stmt.whileLoop e b).closedBy rest →
    parseWhileLoop f p = some q → Emits p q (Stmt.whileLoop e b).lines rest

end Parser

end Compiler

namespace Compiler

/-- A character that continues a word: a letter, a digit or `_` (line 86). -/
def isIdChar (c : Char) : Bool := isalnum c || c = '_'

namespace Lexer

/-- The unread part of the buffer. -/
def rest (l : Lexer) : List Char := l.input.drop l.current_pos

/-- The scanner `k` characters further. -/
def skip (l : Lexer) (k : Nat) : Lexer := { l with current_pos := l.current_pos + k }

/-- The token made from one character that is neither whitespace, nor a digit,
nor a letter, by the `switch` of `getNextToken` (lines 41-56). -/
def charToken (c : Char) : Token :=
  if c = '+' then ⟨TokenType.PLUS, "+"⟩
  else if c = '-' then ⟨TokenType.MINUS, "-"⟩
  else if c = '*' then ⟨TokenType.MUL, "*"⟩
  else if c = '/' then ⟨TokenType.DIV, "/"⟩
  else if c = '=' then ⟨TokenType.ASSIGN, "="⟩
  else if c = ';' then ⟨TokenType.SEMICOLON, ";"⟩
  else if c = '(' then ⟨TokenType.LPAREN, "("⟩
  else if c = ')' then ⟨TokenType.RPAREN, ")"⟩
  else if c = '\x7b' then ⟨TokenType.LBRACE, "\x7b"⟩
  else if c = '\x7d' then ⟨TokenType.RBRACE, "\x7d"⟩
  else if c = '>' then ⟨TokenType.GREATER_THAN, ">"⟩
  else ⟨TokenType.ERROR, String.singleton c⟩

end Lexer

end Compiler

namespace Compiler

/-- A string of digits. -/
def isDigits (s : String) : Bool := s.data.all isdigit

/-- A word: a letter followed by letters, digits and `_`. -/
def isWord (s : String) : Bool :=
  match s.data with
  | [] => false
  | c :: cs => isalpha c && cs.all isIdChar

/-- An identifier: a word that is not one of the six keywords. -/
def isIdentifier (s : String) : Bool :=
  isWord s && decide ((Lexer.wordToken s).type = TokenType.IDENTIFIER)

/-- A numeric literal: digits, then possibly one dot and digits. -/
def isNumber (s : String) : Bool :=
  match s.data with
  | [] => false
  | c :: cs =>
    isdigit c && (decide (cs.dropWhile isdigit = [])
      || (decide ((cs.dropWhile isdigit).head? = some '.')
          && (cs.dropWhile isdigit).tail.all isdigit))

end Compiler

namespace Compiler

/-- The tokens `rest` after the statements `ss` do not start with an `else`
that the last statement would take. -/
def stmtsClosedBy : List Stmt → List Token → Prop
  | [], _ => True
  | [s], rest => s.closedBy rest
  | _ :: s :: ss, rest => stmtsClosedBy (s :: ss) rest

/-- The tokens left by `parseExpression` (lines 287-311) when it starts on the
tokens `ts`: a primary is taken if there is one, then an operator and the
token after it if there is one. -/
def afterExpression (ts : List Token) : List Token :=
  let ts1 := if isPrimary (ts.headD endToken) = true then ts.tail else ts
  if isOperator (ts1.headD endToken) = true then ts1.tail.tail else ts1

end Compiler

namespace Compiler

/-- The kind of a word as the specification gives it: the keyword kind for
`if`, `else`, `while`, `print`, `int` and `float`, and `IDENTIFIER` for any
other word. -/
def specWordKind (w : String) : TokenType :=
  if w = "if" then TokenType.IF
  else if w = "else" then TokenType.ELSE
  else if w = "while" then TokenType.WHILE
  else if w = "print" then TokenType.PRINT
  else if w = "int" then TokenType.INT
  else if w = "float" then TokenType.FLOAT
  else TokenType.IDENTIFIER

/-- The line that `parseExpression` writes for the token `op` when it is an
operator, with the lexeme of the token after it (lines 292-309); nothing for
any other token. -/
def operatorLines (op : Token) (lexeme : String) : List String :=
  if op.type = TokenType.GREATER_THAN then ["compare eax with " ++ lexeme]
  else if op.type = TokenType.MINUS then ["substract eax with " ++ lexeme]
  else if op.type = TokenType.PLUS then ["Add eax with " ++ lexeme]
  else []

/-- The line that `parseExpression` writes for the token `t` when it is a
primary (lines 288-291); nothing for any other token. -/
def loadLines (t : Token) : List String :=
  if isPrimary t = true then ["load " ++ t.lexeme ++ " into eax"] else []

/-- The tokens left after the optional primary of an expression. -/
def afterPrimary (ts : List Token) : List Token :=
  if isPrimary (ts.headD endToken) = true then ts.tail else ts

/-- The lines that `parseExpression` (lines 287-311) writes when it starts on
the tokens `ts`: the `load` line of a primary, then the line of an operator
with the lexeme of the token after it. -/
def expressionLines (ts : List Token) : List String :=
  loadLines (ts.headD endToken)
    ++ operatorLines ((afterPrimary ts).headD endToken)
        ((afterPrimary ts).tail.headD endToken).lexeme

end Compiler

namespace Compiler

/-! ## Parentheses in balance (section 4.2, function calls) -/

/-- The tokens `ts` close the `depth` parentheses that are open and every one
they open themselves, and close no other. -/
def balancedFrom : Nat → List Token → Bool
  | depth, [] => depth = 0
  | depth, t :: ts =>
    if t.type = TokenType.LPAREN then balancedFrom (depth + 1) ts
    else if t.type = TokenType.RPAREN then depth ≠ 0 && balancedFrom (depth - 1) ts
    else balancedFrom depth ts

/-- A token sequence whose parentheses are balanced. -/
def balanced (ts : List Token) : Bool := balancedFrom 0 ts

end Compiler

namespace Compiler

/-! ## The text of a token sequence (section 4.1) -/

/-- The lexemes of the tokens, one after another. -/
def concatLexemes : List Token → String
  | [] => ""
  | t :: ts => t.lexeme ++ concatLexemes ts

/-- The text `s` without its whitespace characters. -/
def withoutWhitespace (s : List Char) : List Char := s.filter fun c => !isspace c

end Compiler

namespace Compiler

/-! ## Tokens that the parser cannot tell apart -/

/-- Two tokens that stand for each other: the same token, or two tokens of
kind `INT` or `FLOAT`, each a type keyword or a numeric literal. -/
def alike (t t' : Token) : Prop := t = t' ∨ (isType t = true ∧ isType t' = true)

instance alike.decidable (t t' : Token) : Decidable (alike t t') :=
  inferInstanceAs (Decidable (t = t' ∨ (isType t = true ∧ isType t' = true)))

/-- Two instruction lines, one of the translation of the tokens `ts` and one of
the translation of the tokens `ts'`, that are the same line, or are the two
`load` lines, or the two operand lines of the same operator, that print the
lexemes of the tokens of kind `INT` or `FLOAT` found at one and the same
position `j` of `ts` and of `ts'`: a replaced token and its replacement. -/
def lineAlike (ts ts' : List Token) (a b : String) : Prop :=
  a = b ∨ ∃ (j : Nat) (t t' : Token), ts[j]? = some t ∧ ts'[j]? = some t'
    ∧ isType t = true ∧ isType t' = true
    ∧ ((a = "load " ++ t.lexeme ++ " into eax" ∧ b = "load " ++ t'.lexeme ++ " into eax")
      ∨ ∃ op : Op, a = op.line t.lexeme ∧ b = op.line t'.lexeme)

/-- The statement rules among which `parseStatement` chooses (lines 266-285). -/
inductive Rule where
  | nothing
  | unexpected
  | declaration
  | assignmentOrCall
  | ifStatement
  | whileLoop
  | printStatement
  deriving DecidableEq

namespace Parser

/-- The rule that `parseStatement` takes in the state `p` (lines 266-285). -/
def rule (p : Parser) : Rule :=
  if p.current_token.type = TokenType.END then Rule.nothing
  else if p.current_token.type = TokenType.ERROR then Rule.unexpected
  else if p.current_token.type = TokenType.INT ∨ p.current_token.type = TokenType.FLOAT then
    Rule.declaration
  else if p.current_token.type = TokenType.IDENTIFIER then Rule.assignmentOrCall
  else if p.current_token.type = TokenType.IF then Rule.ifStatement
  else if p.current_token.type = TokenType.WHILE then Rule.whileLoop
  else if p.current_token.type = TokenType.PRINT then Rule.printStatement
  else Rule.unexpected

/-- What `parseStatement` runs for each rule (lines 266-285), with the fuel
left for the rules that recurse. -/
def run : Rule → Nat → Parser → Option Parser
  | .nothing, _, p => some p
  | .unexpected, _, p => some p.unexpectedToken
  | .declaration, _, p => some (parseVariableDeclaration p)
  | .assignmentOrCall, _, p => some (parseAssignmentOrFunctionCall p)
  | .ifStatement, fuel, p => parseIfStatement fuel p
  | .whileLoop, fuel, p => parseWhileLoop fuel p
  | .printStatement, _, p => some (parsePrintStatement p)

/-- The rules that the top-level loop (lines 114-131) takes, in order, from the
state `p`. -/
def rulesTaken : Nat → Parser → List Rule
  | 0, _ => []
  | fuel + 1, p =>
    if p.current_token.type ≠ TokenType.END ∧ p.current_token.type ≠ TokenType.ERROR then
      p.rule :: (match parseStatement (fuel + 1) p with
        | some q => rulesTaken fuel q
        | none => [])
    else []

/-- Two states of the parser met at the same point of the translations of the
tokens `all` and of the tokens `all'`, which differ only by tokens that stand
for each other: both have read the same number `n` of tokens, the lines written
differ only by the lexeme of such a token, taken at the same position of `all`
and `all'`, and the diagnostics are the same. -/
def Sim (all all' : List Token) (p p' : Parser) : Prop :=
  ∃ n : Nat, p.Reads (all.drop n) ∧ p'.Reads (all'.drop n) ∧ List.Forall₂ alike all all'
    ∧ List.Forall₂ (lineAlike all all') p.output p'.output ∧ p.cerr = p'.cerr

/-- Two results that are both missing, or are two states related by `Sim`. -/
def OptSim (all all' : List Token) : Option Parser → Option Parser → Prop
  | some q, some q' => Sim all all' q q'
  | none, none => True
  | _, _ => False

end Parser

end Compiler

namespace Compiler

/-! ## What a braced block holds -/

/-- What the loop of `parseBlock` (lines 248-255) reads at each turn: a
statement, or an `ERROR` token. -/
inductive Item where
  | stmt (s : Stmt)
  | error (c : Token)

/-- The tokens of an item. -/
def Item.render : Item → List Token
  | .stmt s => s.render
  | .error c => [c]

/-- The instruction lines of an item: an `ERROR` token gives none. -/
def Item.lines : Item → List String
  | .stmt s => s.lines
  | .error _ => []

/-- The diagnostics of an item: a well-formed statement gives none, an `ERROR`
token gives the one message of lines 250-251. -/
def Item.diagnostics : Item → List String
  | .stmt _ => []
  | .error c => ["Syntax error: Unexpected token \x27" ++ c.lexeme ++ "\x27"]

/-- An item is a well-formed statement or a token of kind `ERROR`. -/
def Item.wf : Item → Bool
  | .stmt s => s.wf
  | .error c => c.type = TokenType.ERROR

/-- The tokens of a sequence of items. -/
def renderItems : List Item → List Token
  | [] => []
  | i :: is => i.render ++ renderItems is

/-- The instruction lines of a sequence of items. -/
def linesItems : List Item → List String
  | [] => []
  | i :: is => i.lines ++ linesItems is

/-- The diagnostics of a sequence of items: one for each `ERROR` token, in
order. -/
def diagnosticsItems : List Item → List String
  | [] => []
  | i :: is => i.diagnostics ++ diagnosticsItems is

/-- The sequences of well-formed items. -/
def wfItems : List Item → Bool
  | [] => true
  | i :: is => i.wf && wfItems is

end Compiler

namespace Compiler

/-! ## The diagnostics as a function of the tokens -/

/-- The parser seen from the tokens alone: the tokens from the lookahead on,
and the diagnostics written so far. The instruction lines are left out, no
rule reads them. -/
structure TokenRun where
  toks : List Token
  cerr : List String
  deriving DecidableEq

namespace TokenRun

/-- The lookahead: the first token left, `END` when none is left. -/
def current_token (r : TokenRun) : Token := r.toks.headD endToken

/-- The method `Parser::advance` (lines 313-315) on the tokens. -/
def advance (r : TokenRun) : TokenRun := { r with toks := r.toks.tail }

/-- One line written to `cerr`. -/
def report (r : TokenRun) (msg : String) : TokenRun := { r with cerr := r.cerr ++ [msg] }

/-- The tokens that `Parser::parseExpression` (lines 287-311) consumes: a
primary if there is one, then an operator and the token after it if there is
one; no diagnostic. -/
def parseExpression (r : TokenRun) : TokenRun := { r with toks := afterExpression r.toks }

/-- The optional `;` that ends a statement. -/
def optionalSemicolon (r : TokenRun) : TokenRun :=
  if r.current_token.type = TokenType.SEMICOLON then r.advance else r

/-- The method `Parser::parseVariableDeclaration` (lines 134-154) on the
tokens. -/
def parseVariableDeclaration (r0 : TokenRun) : TokenRun :=
  let r1 := r0.advance
  if r1.current_token.type = TokenType.IDENTIFIER then
    let r2 := r1.advance
    let r3 := if r2.current_token.type = TokenType.ASSIGN then parseExpression r2.advance else r2
    r3.optionalSemicolon
  else r1.report "Syntax error: Expected identifier after type"

/-- The loop of lines 169-171 on the tokens: everything before the first `)`
is dropped. -/
def skipArguments (r : TokenRun) : TokenRun :=
  { r with toks := r.toks.dropWhile fun t =>
      t.type ≠ TokenType.RPAREN ∧ t.type ≠ TokenType.END }

/-- The method `Parser::parseAssignmentOrFunctionCall` (lines 156-182) on the
tokens. -/
def parseAssignmentOrFunctionCall (r0 : TokenRun) : TokenRun :=
  let r1 := r0.advance
  if r1.current_token.type = TokenType.ASSIGN then
    (parseExpression r1.advance).optionalSemicolon
  else if r1.current_token.type = TokenType.LPAREN then
    let r3 := skipArguments r1.advance
    let r4 := if r3.current_token.type = TokenType.RPAREN then r3.advance else r3
    r4.optionalSemicolon
  else
    r1.report ("Syntax error: Unexpected token after identifier \x27"
      ++ r0.current_token.lexeme ++ "\x27")

/-- The method `Parser::parsePrintStatement` (lines 226-243) on the tokens. -/
def parsePrintStatement (r0 : TokenRun) : TokenRun :=
  let r1 := r0.advance
  if r1.current_token.type ≠ TokenType.LPAREN then
    r1.report "Syntax error: Expected \x27(\x27 after \x27print\x27"
  else
    let r2 := parseExpression r1.advance
    let r3 :=
      if r2.current_token.type ≠ TokenType.RPAREN then
        r2.report "Syntax error: Expected \x27)\x27 after print statement"
      else r2.advance
    r3.optionalSemicolon

/-- The diagnostic `Syntax error: Unexpected token '<lexeme>'` followed by
`advance()` (lines 127-128, 250-251, 269-270, 282-283). -/
def unexpectedToken (r : TokenRun) : TokenRun :=
  (r.report ("Syntax error: Unexpected token \x27" ++ r.current_token.lexeme ++ "\x27")).advance

mutual

/-- The method `Parser::parseIfStatement` (lines 184-204) on the tokens. -/
def parseIfStatement : Nat → TokenRun → Option TokenRun
  | 0, _ => none
  | fuel + 1, r0 =>
    let r1 := r0.advance
    if r1.current_token.type = TokenType.LPAREN then
      let r2 := parseExpression r1.advance
      if r2.current_token.type = TokenType.RPAREN then
        (parseBlock fuel r2.advance).bind fun r3 =>
          if r3.current_token.type = TokenType.ELSE then parseBlock fuel r3.advance
          else some r3
      else
        some (r2.report "Syntax error: Expected \x27)\x27 after condition in if statement")
    else some (r1.report "Syntax error: Expected \x27(\x27 after \x27if\x27")

/-- The method `Parser::parseWhileLoop` (lines 206-224) on the tokens. -/
def parseWhileLoop : Nat → TokenRun → Option TokenRun
  | 0, _ => none
  | fuel + 1, r0 =>
    let r1 := r0.advance
    if r1.current_token.type = TokenType.LPAREN then
      let r2 := parseExpression r1.advance
      if r2.current_token.type = TokenType.RPAREN then parseBlock fuel r2.advance
      else
        some (r2.report "Syntax error: Expected \x27)\x27 after condition in while statement")
    else some (r1.report "Syntax error: Expected \x27(\x27 after \x27while\x27")

/-- The method `Parser::parseBlock` (lines 245-264) on the tokens. -/
def parseBlock : Nat → TokenRun → Option TokenRun
  | 0, _ => none
  | fuel + 1, r0 =>
    if r0.current_token.type = TokenType.LBRACE then
      (blockLoop fuel r0.advance).bind fun r1 =>
        if r1.current_token.type = TokenType.RBRACE then some r1.advance
        else some (r1.report "Syntax error: Expected \x27\x7d\x27 at end of block")
    else parseStatement fuel r0

/-- The loop of `parseBlock` (lines 248-255) on the tokens. -/
def blockLoop : Nat → TokenRun → Option TokenRun
  | 0, _ => none
  | fuel + 1, r =>
    if r.current_token.type ≠ TokenType.RBRACE ∧ r.current_token.type ≠ TokenType.END then
      (if r.current_token.type = TokenType.ERROR then some r.unexpectedToken
       else parseStatement fuel r).bind (blockLoop fuel)
    else some r

/-- The method `Parser::parseStatement` (lines 266-285) on the tokens. -/
def parseStatement : Nat → TokenRun → Option TokenRun
  | 0, _ => none
  | fuel + 1, r =>
    if r.current_token.type = TokenType.END then some r
    else if r.current_token.type = TokenType.ERROR then some r.unexpectedToken
    else if r.current_token.type = TokenType.INT ∨ r.current_token.type = TokenType.FLOAT then
      some (parseVariableDeclaration r)
    else if r.current_token.type = TokenType.IDENTIFIER then
      some (parseAssignmentOrFunctionCall r)
    else if r.current_token.type = TokenType.IF then parseIfStatement fuel r
    else if r.current_token.type = TokenType.WHILE then parseWhileLoop fuel r
    else if r.current_token.type = TokenType.PRINT then some (parsePrintStatement r)
    else some r.unexpectedToken

end

/-- The method `Parser::parse` (lines 114-131) on the tokens: the loop stops on
`END` and, without a diagnostic, on an `ERROR` token. -/
def parse : Nat → TokenRun → Option TokenRun
  | 0, _ => none
  | fuel + 1, r =>
    if r.current_token.type ≠ TokenType.END ∧ r.current_token.type ≠ TokenType.ERROR then
      (parseStatement (fuel + 1) r).bind (parse fuel)
    else some r

end TokenRun

namespace Parser

end Parser

end Compiler

/-! # Theorems -/

namespace Compiler

/-! ## Facts about the scanner loops -/

namespace Lexer

theorem skipWhitespace_input (fuel : Nat) (l : Lexer) :
    (skipWhitespace fuel l).input = l.input := by
  induction fuel generalizing l with
  | zero => rfl
  | succ n ih =>
    unfold skipWhitespace
    split
    · rw [ih]; rfl
    · rfl

theorem skipWhitespace_pos_ge (fuel : Nat) (l : Lexer) :
    l.current_pos ≤ (skipWhitespace fuel l).current_pos := by
  induction fuel generalizing l with
  | zero => exact Nat.le_refl _
  | succ n ih =>
    unfold skipWhitespace
    split
    · exact Nat.le_trans (Nat.le_succ _) (ih l.advance)
    · exact Nat.le_refl _

theorem skipWhitespace_pos_le (fuel : Nat) (l : Lexer) (h : l.current_pos ≤ l.input.length) :
    (skipWhitespace fuel l).current_pos ≤ l.input.length := by
  induction fuel generalizing l with
  | zero => exact h
  | succ n ih =>
    unfold skipWhitespace
    split
    · next hc => exact ih l.advance (Nat.succ_le_of_lt hc.1)
    · exact h

theorem skipWhitespace_of_ge (fuel : Nat) (l : Lexer) (h : l.input.length ≤ l.current_pos) :
    skipWhitespace fuel l = l := by
  cases fuel with
  | zero => rfl
  | succ n =>
    unfold skipWhitespace
    rw [if_neg]
    intro hc
    exact absurd hc.1 (Nat.not_lt.mpr h)

/-- The whitespace loop is never cut short by its fuel: on exit the cursor is at
the end of the buffer or on a character that is not whitespace. -/
theorem skipWhitespace_exit (fuel : Nat) (l : Lexer)
    (hf : l.input.length - l.current_pos ≤ fuel) :
    ¬ ((skipWhitespace fuel l).current_pos < (skipWhitespace fuel l).input.length
        ∧ isspace (skipWhitespace fuel l).cur = true) := by
  induction fuel generalizing l with
  | zero =>
    intro hc
    have h1 : l.current_pos < l.input.length := hc.1
    omega
  | succ n ih =>
    unfold skipWhitespace
    split
    · next hc =>
      apply ih
      show l.input.length - (l.current_pos + 1) ≤ n
      omega
    · next hc => exact hc

theorem numberLoop_input (fuel : Nat) (l : Lexer) (num : String) (f : Bool) :
    (numberLoop fuel l num f).1.input = l.input := by
  induction fuel generalizing l num f with
  | zero => rfl
  | succ n ih =>
    unfold numberLoop
    split
    · split
      · split
        · rfl
        · rw [ih]; rfl
      · rw [ih]; rfl
    · rfl

theorem numberLoop_pos_ge (fuel : Nat) (l : Lexer) (num : String) (f : Bool) :
    l.current_pos ≤ (numberLoop fuel l num f).1.current_pos := by
  induction fuel generalizing l num f with
  | zero => exact Nat.le_refl _
  | succ n ih =>
    unfold numberLoop
    split
    · split
      · split
        · exact Nat.le_refl _
        · exact Nat.le_trans (Nat.le_succ _) (ih l.advance _ _)
      · exact Nat.le_trans (Nat.le_succ _) (ih l.advance _ _)
    · exact Nat.le_refl _

theorem numberLoop_pos_le (fuel : Nat) (l : Lexer) (num : String) (f : Bool)
    (h : l.current_pos ≤ l.input.length) :
    (numberLoop fuel l num f).1.current_pos ≤ l.input.length := by
  induction fuel generalizing l num f with
  | zero => exact h
  | succ n ih =>
    unfold numberLoop
    split
    · next hc =>
      split
      · split
        · exact h
        · exact ih l.advance _ _ (Nat.succ_le_of_lt hc.1)
      · exact ih l.advance _ _ (Nat.succ_le_of_lt hc.1)
    · exact h

/-- The number loop is never cut short by its fuel: on exit its condition is
false or it stands on a second dot. -/
theorem numberLoop_exit (fuel : Nat) (l : Lexer) (num : String) (f : Bool)
    (hf : l.input.length - l.current_pos ≤ fuel) :
    ¬ ((numberLoop fuel l num f).1.current_pos < (numberLoop fuel l num f).1.input.length
        ∧ (isdigit (numberLoop fuel l num f).1.cur = true
            ∨ (numberLoop fuel l num f).1.cur = '.'))
      ∨ ((numberLoop fuel l num f).1.cur = '.' ∧ (numberLoop fuel l num f).2.2 = true) := by
  induction fuel generalizing l num f with
  | zero =>
    left
    intro hc
    have h1 : l.current_pos < l.input.length := hc.1
    omega
  | succ n ih =>
    have hadv : l.advance.input.length - l.advance.current_pos ≤ n := by
      show l.input.length - (l.current_pos + 1) ≤ n
      omega
    unfold numberLoop
    split
    · split
      · next hdot =>
        split
        · next hfl => right; exact ⟨hdot, hfl⟩
        · exact ih _ _ _ hadv
      · exact ih _ _ _ hadv
    · next hc => left; exact hc

theorem identifierLoop_input (fuel : Nat) (l : Lexer) (acc : String) :
    (identifierLoop fuel l acc).1.input = l.input := by
  induction fuel generalizing l acc with
  | zero => rfl
  | succ n ih =>
    unfold identifierLoop
    split
    · rw [ih]; rfl
    · rfl

theorem identifierLoop_pos_ge (fuel : Nat) (l : Lexer) (acc : String) :
    l.current_pos ≤ (identifierLoop fuel l acc).1.current_pos := by
  induction fuel generalizing l acc with
  | zero => exact Nat.le_refl _
  | succ n ih =>
    unfold identifierLoop
    split
    · exact Nat.le_trans (Nat.le_succ _) (ih l.advance _)
    · exact Nat.le_refl _

theorem identifierLoop_pos_le (fuel : Nat) (l : Lexer) (acc : String)
    (h : l.current_pos ≤ l.input.length) :
    (identifierLoop fuel l acc).1.current_pos ≤ l.input.length := by
  induction fuel generalizing l acc with
  | zero => exact h
  | succ n ih =>
    unfold identifierLoop
    split
    · next hc => exact ih l.advance _ (Nat.succ_le_of_lt hc.1)
    · exact h

/-- The identifier loop is never cut short by its fuel. -/
theorem identifierLoop_exit (fuel : Nat) (l : Lexer) (acc : String)
    (hf : l.input.length - l.current_pos ≤ fuel) :
    ¬ ((identifierLoop fuel l acc).1.current_pos < (identifierLoop fuel l acc).1.input.length
        ∧ (isalnum (identifierLoop fuel l acc).1.cur = true
            ∨ (identifierLoop fuel l acc).1.cur = '_')) := by
  induction fuel generalizing l acc with
  | zero =>
    intro hc
    have h1 : l.current_pos < l.input.length := hc.1
    omega
  | succ n ih =>
    unfold identifierLoop
    split
    · apply ih
      show l.input.length - (l.current_pos + 1) ≤ n
      omega
    · next hc => exact hc

end Lexer

end Compiler

namespace Compiler

namespace Lexer

theorem digit_ne_dot {c : Char} (h : isdigit c = true) : c ≠ '.' := by
  intro hc
  rw [hc] at h
  exact absurd h (by decide)

theorem numberLoop_pos_gt (l : Lexer) (num : String) (f : Bool)
    (h : l.current_pos < l.input.length) (hd : isdigit l.cur = true) :
    l.current_pos < (numberLoop (l.input.length - l.current_pos) l num f).1.current_pos := by
  obtain ⟨n, hn⟩ : ∃ n, l.input.length - l.current_pos = n + 1 := ⟨_, (Nat.succ_pred_eq_of_pos (Nat.sub_pos_of_lt h)).symm⟩
  rw [hn]
  unfold numberLoop
  rw [if_pos ⟨h, Or.inl hd⟩, if_neg (digit_ne_dot hd)]
  exact Nat.lt_of_lt_of_le (Nat.lt_succ_self _) (numberLoop_pos_ge n l.advance _ _)

theorem identifierLoop_pos_gt (l : Lexer) (acc : String)
    (h : l.current_pos < l.input.length) (hd : isalpha l.cur = true) :
    l.current_pos < (identifierLoop (l.input.length - l.current_pos) l acc).1.current_pos := by
  obtain ⟨n, hn⟩ : ∃ n, l.input.length - l.current_pos = n + 1 := ⟨_, (Nat.succ_pred_eq_of_pos (Nat.sub_pos_of_lt h)).symm⟩
  rw [hn]
  unfold identifierLoop
  have hal : isalnum l.cur = true := by
    unfold isalnum; unfold isalpha at hd; rw [hd]; rfl
  rw [if_pos ⟨h, Or.inl hal⟩]
  exact Nat.lt_of_lt_of_le (Nat.lt_succ_self _) (identifierLoop_pos_ge n l.advance _)

/-- What a number token is: kind `INT` or `FLOAT`, the buffer kept, the cursor
moved forward and not past the end. -/
theorem getNumberToken_spec (l : Lexer) (h : l.current_pos < l.input.length)
    (hd : isdigit l.cur = true) :
    ((getNumberToken l).1.type = TokenType.INT ∨ (getNumberToken l).1.type = TokenType.FLOAT)
      ∧ (getNumberToken l).2.input = l.input
      ∧ l.current_pos < (getNumberToken l).2.current_pos
      ∧ (getNumberToken l).2.current_pos ≤ l.input.length := by
  unfold getNumberToken
  simp only []
  split
  · exact ⟨Or.inr rfl, numberLoop_input _ _ _ _, numberLoop_pos_gt l _ _ h hd,
      numberLoop_pos_le _ _ _ _ (Nat.le_of_lt h)⟩
  · exact ⟨Or.inl rfl, numberLoop_input _ _ _ _, numberLoop_pos_gt l _ _ h hd,
      numberLoop_pos_le _ _ _ _ (Nat.le_of_lt h)⟩

/-- What a word token is: never `END` nor `ERROR`, the buffer kept, the cursor
moved forward and not past the end. -/
theorem getIdentifierOrKeywordToken_spec (l : Lexer) (h : l.current_pos < l.input.length)
    (hd : isalpha l.cur = true) :
    (getIdentifierOrKeywordToken l).1.type ≠ TokenType.END
      ∧ (getIdentifierOrKeywordToken l).1.type ≠ TokenType.ERROR
      ∧ (getIdentifierOrKeywordToken l).2.input = l.input
      ∧ l.current_pos < (getIdentifierOrKeywordToken l).2.current_pos
      ∧ (getIdentifierOrKeywordToken l).2.current_pos ≤ l.input.length := by
  have h1 := identifierLoop_input (l.input.length - l.current_pos) l ""
  have h2 := identifierLoop_pos_gt l "" h hd
  have h3 := identifierLoop_pos_le (l.input.length - l.current_pos) l "" (Nat.le_of_lt h)
  unfold getIdentifierOrKeywordToken
  simp only []
  split_ifs <;> exact ⟨by simp, by simp, h1, h2, h3⟩

theorem ite_prop {α : Type} {P : α → Prop} {c : Prop} [Decidable c] {a b : α}
    (ha : P a) (hb : P b) : P (if c then a else b) := by
  by_cases h : c
  · rw [if_pos h]; exact ha
  · rw [if_neg h]; exact hb

theorem progress_single (l : Lexer) (hlt : l.current_pos < l.input.length)
    (ty : TokenType) (lex : String) (hty : ty ≠ TokenType.END) :
    Progress l (⟨ty, lex⟩, l.advance) :=
  ⟨hty, rfl, Nat.lt_succ_self _, Nat.succ_le_of_lt hlt⟩

/-- The classification step, by cases on the cursor: at the end of the buffer
the token is `END` with the empty lexeme and nothing moves; before the end the
token is not `END` and at least one character is consumed. -/
theorem scanToken_cases (l : Lexer) :
    (l.input.length ≤ l.current_pos ∧ scanToken l = (⟨TokenType.END, ""⟩, l))
      ∨ (l.current_pos < l.input.length ∧ Progress l (scanToken l)) := by
  by_cases hend : l.input.length ≤ l.current_pos
  · left
    refine ⟨hend, ?_⟩
    unfold scanToken
    rw [if_pos hend]
  · right
    have hlt := Nat.lt_of_not_le hend
    refine ⟨hlt, ?_⟩
    unfold scanToken
    rw [if_neg hend]
    by_cases hd : isdigit l.cur = true
    · rw [if_pos hd]
      have := getNumberToken_spec _ hlt hd
      refine ⟨?_, this.2.1, this.2.2.1, this.2.2.2⟩
      rcases this.1 with h | h <;> rw [h] <;> decide
    · rw [if_neg hd]
      by_cases ha : isalpha l.cur = true
      · rw [if_pos ha]
        have := getIdentifierOrKeywordToken_spec _ hlt ha
        exact ⟨this.1, this.2.2.1, this.2.2.2.1, this.2.2.2.2⟩
      · rw [if_neg ha]
        repeat' (first
          | exact progress_single l hlt _ _ (by decide)
          | apply ite_prop)

/-- The result of `getNextToken`, by cases on where the whitespace loop stops. -/
theorem getNextToken_cases (l : Lexer) :
    (l.input.length ≤ (skipWhitespace (l.input.length - l.current_pos) l).current_pos
        ∧ getNextToken l
            = (⟨TokenType.END, ""⟩, skipWhitespace (l.input.length - l.current_pos) l))
      ∨ ((skipWhitespace (l.input.length - l.current_pos) l).current_pos < l.input.length
        ∧ (getNextToken l).1.type ≠ TokenType.END
        ∧ (getNextToken l).2.input = l.input
        ∧ (skipWhitespace (l.input.length - l.current_pos) l).current_pos
            < (getNextToken l).2.current_pos
        ∧ (getNextToken l).2.current_pos ≤ l.input.length) := by
  have hin := skipWhitespace_input (l.input.length - l.current_pos) l
  have := scanToken_cases (skipWhitespace (l.input.length - l.current_pos) l)
  unfold Progress at this
  rw [hin] at this
  exact this

theorem getNextToken_input (l : Lexer) : (getNextToken l).2.input = l.input := by
  rcases getNextToken_cases l with h | h
  · rw [h.2]; exact skipWhitespace_input _ _
  · exact h.2.2.1

theorem getNextToken_pos_ge (l : Lexer) :
    l.current_pos ≤ (getNextToken l).2.current_pos := by
  rcases getNextToken_cases l with h | h
  · rw [h.2]; exact skipWhitespace_pos_ge _ _
  · exact Nat.le_trans (skipWhitespace_pos_ge _ _) (Nat.le_of_lt h.2.2.2.1)

theorem getNextToken_pos_gt (l : Lexer) (hl : l.current_pos < l.input.length) :
    l.current_pos < (getNextToken l).2.current_pos := by
  rcases getNextToken_cases l with h | h
  · rw [h.2]; exact Nat.lt_of_lt_of_le hl h.1
  · exact Nat.lt_of_le_of_lt (skipWhitespace_pos_ge _ _) h.2.2.2.1

theorem getNextToken_pos_le (l : Lexer) (hl : l.current_pos ≤ l.input.length) :
    (getNextToken l).2.current_pos ≤ l.input.length := by
  rcases getNextToken_cases l with h | h
  · rw [h.2]; exact skipWhitespace_pos_le _ _ hl
  · exact h.2.2.2.2

theorem getNextToken_at_end (l : Lexer) (hl : l.input.length ≤ l.current_pos) :
    getNextToken l = (⟨TokenType.END, ""⟩, l) := by
  rcases getNextToken_cases l with h | h
  · rw [h.2, skipWhitespace_of_ge _ _ hl]
  · rw [skipWhitespace_of_ge _ _ hl] at h
    exact absurd h.1 (Nat.not_lt.mpr hl)

/-- A token of kind `END` is the token with the empty lexeme, and the cursor is
then at the end of the buffer or beyond. -/
theorem getNextToken_END (l : Lexer) (h : (getNextToken l).1.type = TokenType.END) :
    (getNextToken l).1 = ⟨TokenType.END, ""⟩
      ∧ l.input.length ≤ (getNextToken l).2.current_pos := by
  rcases getNextToken_cases l with hc | hc
  · rw [hc.2]; exact ⟨rfl, hc.1⟩
  · exact absurd h hc.2.1

/-- A token that is not `END` consumed at least one character. -/
theorem getNextToken_not_END (l : Lexer) (h : (getNextToken l).1.type ≠ TokenType.END) :
    l.current_pos < (getNextToken l).2.current_pos
      ∧ (getNextToken l).2.current_pos ≤ l.input.length := by
  rcases getNextToken_cases l with hc | hc
  · rw [hc.2] at h; exact absurd rfl h
  · exact ⟨Nat.lt_of_le_of_lt (skipWhitespace_pos_ge _ _) hc.2.2.2.1, hc.2.2.2.2⟩

end Lexer

end Compiler

namespace Compiler

namespace Lexer

/-! ## Repeated calls of `getNextToken` -/

theorem calls_succ (n : Nat) (l : Lexer) :
    calls (n + 1) l = (getNextToken (calls n l)).2 := by
  induction n generalizing l with
  | zero => rfl
  | succ n ih =>
    show calls (n + 1) (getNextToken l).2 = _
    rw [ih]
    rfl

theorem nthToken_succ (n : Nat) (l : Lexer) :
    nthToken (n + 1) l = nthToken n (getNextToken l).2 := rfl

theorem calls_at_end (n : Nat) (l : Lexer) (hl : l.input.length ≤ l.current_pos) :
    calls n l = l := by
  induction n with
  | zero => rfl
  | succ n ih =>
    show calls n (getNextToken l).2 = l
    rw [getNextToken_at_end l hl]
    exact ih

theorem nonSpaceFrom_succ_le (input : List Char) (pos : Nat) :
    nonSpaceFrom input (pos + 1) ≤ nonSpaceFrom input pos := by
  unfold nonSpaceFrom
  by_cases h : pos < input.length
  · rw [List.drop_eq_getElem_cons h, List.filter_cons]
    split
    · exact Nat.le_succ _
    · exact Nat.le_refl _
  · rw [List.drop_eq_nil_of_le (Nat.le_of_not_lt h),
      List.drop_eq_nil_of_le (Nat.le_succ_of_le (Nat.le_of_not_lt h))]

theorem nonSpaceFrom_mono (input : List Char) {a b : Nat} (h : a ≤ b) :
    nonSpaceFrom input b ≤ nonSpaceFrom input a := by
  induction h with
  | refl => exact Nat.le_refl _
  | step _ ih => exact Nat.le_trans (nonSpaceFrom_succ_le _ _) ih

theorem nonSpaceFrom_succ_lt (input : List Char) (pos : Nat) (h : pos < input.length)
    (hc : isspace (input.getD pos ' ') = false) :
    nonSpaceFrom input (pos + 1) < nonSpaceFrom input pos := by
  unfold nonSpaceFrom
  rw [List.drop_eq_getElem_cons h, List.filter_cons]
  rw [List.getD_eq_getElem _ _ h] at hc
  rw [hc]
  exact Nat.lt_succ_self _

theorem nonSpaceFrom_zero (input : List Char) :
    nonSpaceFrom input 0 = (input.filter fun c => !isspace c).length := rfl

/-- A call that returns a token other than `END` consumes at least one
character that is not whitespace. -/
theorem getNextToken_nonSpace_lt (l : Lexer) (h : (getNextToken l).1.type ≠ TokenType.END) :
    nonSpaceFrom (getNextToken l).2.input (getNextToken l).2.current_pos
      < nonSpaceFrom l.input l.current_pos := by
  rcases getNextToken_cases l with hc | hc
  · rw [hc.2] at h; exact absurd rfl h
  · rw [hc.2.2.1]
    have hex := skipWhitespace_exit (l.input.length - l.current_pos) l (Nat.le_refl _)
    have hin := skipWhitespace_input (l.input.length - l.current_pos) l
    have hsp : isspace (l.input.getD
        (skipWhitespace (l.input.length - l.current_pos) l).current_pos ' ') = false := by
      cases hq : isspace (l.input.getD
        (skipWhitespace (l.input.length - l.current_pos) l).current_pos ' ') with
      | false => rfl
      | true =>
        exfalso
        apply hex
        refine ⟨by rw [hin]; exact hc.1, ?_⟩
        unfold cur
        rw [hin]
        exact hq
    calc nonSpaceFrom l.input (getNextToken l).2.current_pos
        ≤ nonSpaceFrom l.input
            ((skipWhitespace (l.input.length - l.current_pos) l).current_pos + 1) :=
          nonSpaceFrom_mono _ (Nat.succ_le_of_lt hc.2.2.2.1)
      _ < nonSpaceFrom l.input (skipWhitespace (l.input.length - l.current_pos) l).current_pos :=
          nonSpaceFrom_succ_lt _ _ hc.1 hsp
      _ ≤ nonSpaceFrom l.input l.current_pos :=
          nonSpaceFrom_mono _ (skipWhitespace_pos_ge _ _)

/-- Once a call returned `END`, every later call returns `END` with the empty
lexeme and the cursor no longer moves. -/
theorem after_END (l : Lexer) (h : (getNextToken l).1.type = TokenType.END) (i : Nat) :
    nthToken i l = ⟨TokenType.END, ""⟩
      ∧ calls (i + 1) l = (getNextToken l).2 := by
  have hE := getNextToken_END l h
  have hin := getNextToken_input l
  have hend : (getNextToken l).2.input.length ≤ (getNextToken l).2.current_pos := by
    rw [hin]; exact hE.2
  cases i with
  | zero => exact ⟨hE.1, rfl⟩
  | succ i =>
    have hc : calls i (getNextToken l).2 = (getNextToken l).2 := calls_at_end i _ hend
    constructor
    · show (getNextToken (calls i (getNextToken l).2)).1 = _
      rw [hc, getNextToken_at_end _ hend]
    · show calls (i + 1) (getNextToken l).2 = _
      exact calls_at_end _ _ hend

/-- Repeated calls return finitely many tokens other than `END`, at most one per
character that is not whitespace, and `END` from then on. -/
theorem tokens_then_END (n : Nat) (l : Lexer) (hn : nonSpaceFrom l.input l.current_pos ≤ n) :
    ∃ k, k ≤ nonSpaceFrom l.input l.current_pos
      ∧ (∀ i, i < k → (nthToken i l).type ≠ TokenType.END)
      ∧ (∀ i, k ≤ i → nthToken i l = ⟨TokenType.END, ""⟩)
      ∧ (∀ i, k < i → (calls (i + 1) l).current_pos = (calls i l).current_pos) := by
  induction n generalizing l with
  | zero =>
    have hE : (getNextToken l).1.type = TokenType.END := by
      by_contra hne
      have := getNextToken_nonSpace_lt l hne
      omega
    refine ⟨0, Nat.zero_le _, ?_, ?_, ?_⟩
    · intro i hi; exact absurd hi (Nat.not_lt_zero _)
    · intro i _; exact (after_END l hE i).1
    · intro i hi
      obtain ⟨j, rfl⟩ : ∃ j, i = j + 1 := ⟨i - 1, by omega⟩
      rw [(after_END l hE (j + 1)).2, (after_END l hE j).2]
  | succ n ih =>
    by_cases hE : (getNextToken l).1.type = TokenType.END
    · refine ⟨0, Nat.zero_le _, ?_, ?_, ?_⟩
      · intro i hi; exact absurd hi (Nat.not_lt_zero _)
      · intro i _; exact (after_END l hE i).1
      · intro i hi
        obtain ⟨j, rfl⟩ : ∃ j, i = j + 1 := ⟨i - 1, by omega⟩
        rw [(after_END l hE (j + 1)).2, (after_END l hE j).2]
    · have hlt := getNextToken_nonSpace_lt l hE
      obtain ⟨k, hk, h1, h2, h3⟩ := ih (getNextToken l).2 (by omega)
      refine ⟨k + 1, by omega, ?_, ?_, ?_⟩
      · intro i hi
        cases i with
        | zero => exact hE
        | succ i => rw [nthToken_succ]; exact h1 i (by omega)
      · intro i hi
        obtain ⟨j, rfl⟩ : ∃ j, i = j + 1 := ⟨i - 1, by omega⟩
        rw [nthToken_succ]; exact h2 j (by omega)
      · intro i hi
        obtain ⟨j, rfl⟩ : ∃ j, i = j + 1 := ⟨i - 1, by omega⟩
        exact h3 j (by omega)

end Lexer

end Compiler

namespace Compiler

/-! ## The token stream -/

namespace Lexer

theorem tokensAux_fuel (f : Nat) : ∀ (f' : Nat) (l : Lexer),
    l.input.length - l.current_pos < f → l.input.length - l.current_pos < f' →
    tokensAux f l = tokensAux f' l := by
  induction f with
  | zero => intro f' l h; exact absurd h (Nat.not_lt_zero _)
  | succ n ih =>
    intro f' l h h'
    obtain ⟨m, rfl⟩ : ∃ m, f' = m + 1 := ⟨f' - 1, by omega⟩
    unfold tokensAux
    by_cases hE : (getNextToken l).1.type = TokenType.END
    · rw [if_pos hE, if_pos hE]
    · rw [if_neg hE, if_neg hE]
      have hp := getNextToken_not_END l hE
      have hin := getNextToken_input l
      rw [ih m (getNextToken l).2 (by rw [hin]; omega) (by rw [hin]; omega)]

/-- The token stream, one call at a time. -/
theorem tokens_eq (l : Lexer) :
    tokens l = if (getNextToken l).1.type = TokenType.END then []
      else (getNextToken l).1 :: tokens (getNextToken l).2 := by
  unfold tokens
  rw [tokensAux]
  by_cases hE : (getNextToken l).1.type = TokenType.END
  · rw [if_pos hE, if_pos hE]
  · rw [if_neg hE, if_neg hE]
    have hp := getNextToken_not_END l hE
    have hin := getNextToken_input l
    rw [tokensAux_fuel (l.input.length - l.current_pos)
      ((getNextToken l).2.input.length - (getNextToken l).2.current_pos + 1) (getNextToken l).2
      (by rw [hin]; omega) (by omega)]

theorem tokens_at_end (l : Lexer) (h : l.input.length ≤ l.current_pos) : tokens l = [] := by
  rw [tokens_eq, getNextToken_at_end l h]
  rfl

/-- No token of the stream is `END`. -/
theorem tokens_not_END (n : Nat) : ∀ (l : Lexer), l.input.length - l.current_pos ≤ n →
    ∀ t ∈ tokens l, t.type ≠ TokenType.END := by
  induction n with
  | zero =>
    intro l h t ht
    rw [tokens_at_end l (by omega)] at ht
    exact absurd ht (List.not_mem_nil _)
  | succ n ih =>
    intro l h t ht
    rw [tokens_eq] at ht
    by_cases hE : (getNextToken l).1.type = TokenType.END
    · rw [if_pos hE] at ht
      exact absurd ht (List.not_mem_nil _)
    · rw [if_neg hE] at ht
      rcases List.mem_cons.mp ht with rfl | ht
      · exact hE
      · have hp := getNextToken_not_END l hE
        have hin := getNextToken_input l
        exact ih _ (by rw [hin]; omega) t ht

end Lexer

namespace Parser

theorem reads_new (l : Lexer) : (Parser.new l).Reads l.tokens := by
  unfold Reads Parser.new
  rw [Lexer.tokens_eq l]
  by_cases hE : (Lexer.getNextToken l).1.type = TokenType.END
  · rw [if_pos hE]
    have h := Lexer.getNextToken_END l hE
    have hin := Lexer.getNextToken_input l
    exact ⟨h.1, Lexer.tokens_at_end _ (by rw [hin]; exact h.2)⟩
  · rw [if_neg hE]
    exact ⟨rfl, rfl⟩

/-- Advancing drops the first token of what the parser reads. -/
theorem reads_advance {p : Parser} {ts : List Token} (h : p.Reads ts) :
    p.advance.Reads ts.tail := by
  have h2 : p.lexer.tokens = ts.tail := h.2
  rw [← h2]
  exact reads_new p.lexer

theorem reads_advance_cons {p : Parser} {t : Token} {ts : List Token}
    (h : p.Reads (t :: ts)) : p.advance.Reads ts :=
  reads_advance h

theorem reads_emit {p : Parser} {ts : List Token} (line : String) (h : p.Reads ts) :
    (p.emit line).Reads ts := h

theorem reads_report {p : Parser} {ts : List Token} (msg : String) (h : p.Reads ts) :
    (p.report msg).Reads ts := h

theorem reads_head {p : Parser} {t : Token} {ts : List Token} (h : p.Reads (t :: ts)) :
    p.current_token = t := h.1

theorem reads_nil {p : Parser} (h : p.Reads []) : p.current_token = endToken := h.1

@[simp]
theorem advance_output (p : Parser) : p.advance.output = p.output := rfl
@[simp]
theorem advance_cerr (p : Parser) : p.advance.cerr = p.cerr := rfl
@[simp]
theorem emit_output (p : Parser) (s : String) : (p.emit s).output = p.output ++ [s] := rfl
@[simp]
theorem emit_cerr (p : Parser) (s : String) : (p.emit s).cerr = p.cerr := rfl
@[simp]
theorem emit_current_token (p : Parser) (s : String) :
    (p.emit s).current_token = p.current_token := rfl
@[simp]
theorem emit_lexer (p : Parser) (s : String) : (p.emit s).lexer = p.lexer := rfl
@[simp]
theorem report_output (p : Parser) (s : String) : (p.report s).output = p.output := rfl
@[simp]
theorem report_cerr (p : Parser) (s : String) :
    (p.report s).cerr = p.cerr ++ [s] := rfl
@[simp]
theorem report_current_token (p : Parser) (s : String) :
    (p.report s).current_token = p.current_token := rfl
@[simp]
theorem report_lexer (p : Parser) (s : String) : (p.report s).lexer = p.lexer := rfl

/-! ## The measure of what is left to parse -/

theorem measure_emit (p : Parser) (s : String) : (p.emit s).measure = p.measure := rfl

theorem measure_report (p : Parser) (s : String) : (p.report s).measure = p.measure := rfl

theorem measure_advance_le (p : Parser) : p.advance.measure ≤ p.measure := by
  unfold measure advance
  show ((Lexer.getNextToken p.lexer).2.input.length - (Lexer.getNextToken p.lexer).2.current_pos)
      + (if (Lexer.getNextToken p.lexer).1.type = TokenType.END then 0 else 1) ≤ _
  have hin := Lexer.getNextToken_input p.lexer
  have hge := Lexer.getNextToken_pos_ge p.lexer
  by_cases hE : (Lexer.getNextToken p.lexer).1.type = TokenType.END
  · rw [if_pos hE, hin]; omega
  · rw [if_neg hE, hin]
    have hp := Lexer.getNextToken_not_END p.lexer hE
    omega

theorem measure_advance_lt (p : Parser) (h : p.current_token.type ≠ TokenType.END) :
    p.advance.measure < p.measure := by
  unfold measure advance
  show ((Lexer.getNextToken p.lexer).2.input.length - (Lexer.getNextToken p.lexer).2.current_pos)
      + (if (Lexer.getNextToken p.lexer).1.type = TokenType.END then 0 else 1) < _
  have hin := Lexer.getNextToken_input p.lexer
  have hge := Lexer.getNextToken_pos_ge p.lexer
  rw [if_neg h]
  by_cases hE : (Lexer.getNextToken p.lexer).1.type = TokenType.END
  · rw [if_pos hE, hin]; omega
  · rw [if_neg hE, hin]
    have hp := Lexer.getNextToken_not_END p.lexer hE
    omega

theorem measure_pos {p : Parser} (h : p.current_token.type ≠ TokenType.END) :
    0 < p.measure := by
  unfold measure
  rw [if_neg h]
  omega

theorem Extends.refl (p : Parser) : p.Extends p :=
  ⟨Nat.le_refl _, List.prefix_refl _, List.prefix_refl _⟩

theorem Extends.trans {r q p : Parser} (h1 : r.Extends q) (h2 : q.Extends p) : r.Extends p :=
  ⟨Nat.le_trans h1.1 h2.1, List.IsPrefix.trans h2.2.1 h1.2.1, List.IsPrefix.trans h2.2.2 h1.2.2⟩

theorem extends_advance (p : Parser) : p.advance.Extends p :=
  ⟨measure_advance_le p, List.prefix_refl _, List.prefix_refl _⟩

theorem extends_emit (p : Parser) (s : String) : (p.emit s).Extends p :=
  ⟨Nat.le_refl _, List.prefix_append _ _, List.prefix_refl _⟩

theorem extends_report (p : Parser) (s : String) : (p.report s).Extends p :=
  ⟨Nat.le_refl _, List.prefix_refl _, List.prefix_append _ _⟩

end Parser

end Compiler

namespace Compiler

namespace Parser

/-! ## The rules without recursion only move forward -/

theorem ext_advance {q p : Parser} (h : q.Extends p) : q.advance.Extends p :=
  (extends_advance q).trans h

theorem ext_emit {q p : Parser} (s : String) (h : q.Extends p) : (q.emit s).Extends p :=
  (extends_emit q s).trans h

theorem ext_report {q p : Parser} (s : String) (h : q.Extends p) : (q.report s).Extends p :=
  (extends_report q s).trans h

theorem ext_ite {q r p : Parser} {c : Prop} [Decidable c] (h1 : q.Extends p) (h2 : r.Extends p) :
    (if c then q else r).Extends p := by
  by_cases h : c
  · rw [if_pos h]; exact h1
  · rw [if_neg h]; exact h2

theorem extends_parseExpression (p : Parser) : (parseExpression p).Extends p := by
  unfold parseExpression
  have h0 : (if p.current_token.type = TokenType.IDENTIFIER ∨ p.current_token.type = TokenType.INT
        ∨ p.current_token.type = TokenType.FLOAT then
      (p.emit ("load " ++ p.current_token.lexeme ++ " into eax")).advance
    else p).Extends p := ext_ite (ext_advance (ext_emit _ (Extends.refl _))) (Extends.refl _)
  exact ext_ite (ext_advance (ext_emit _ (ext_advance h0)))
    (ext_ite (ext_advance (ext_emit _ (ext_advance h0)))
      (ext_ite (ext_advance (ext_emit _ (ext_advance h0))) h0))

theorem ext_parseExpression {q p : Parser} (h : q.Extends p) : (parseExpression q).Extends p :=
  (extends_parseExpression q).trans h

theorem extends_parseVariableDeclaration (p : Parser) :
    (parseVariableDeclaration p).Extends p.advance := by
  unfold parseVariableDeclaration
  refine ext_ite (ext_ite (ext_advance ?_) ?_) (ext_report _ (Extends.refl _))
  all_goals
    exact ext_ite (ext_emit _ (ext_parseExpression (ext_advance (ext_advance (Extends.refl _)))))
      (ext_ite (ext_emit _ (ext_advance (Extends.refl _))) (ext_advance (Extends.refl _)))

theorem extends_skipArguments (fuel : Nat) (p : Parser) : (skipArguments fuel p).Extends p := by
  induction fuel generalizing p with
  | zero => exact Extends.refl _
  | succ n ih =>
    unfold skipArguments
    exact ext_ite ((ih p.advance).trans (extends_advance p)) (Extends.refl _)

theorem extends_parseAssignmentOrFunctionCall (p : Parser) :
    (parseAssignmentOrFunctionCall p).Extends p.advance := by
  unfold parseAssignmentOrFunctionCall
  refine ext_ite (ext_ite (ext_advance ?_) ?_) (ext_ite (ext_ite (ext_advance ?_) ?_)
    (ext_report _ (Extends.refl _)))
  · exact ext_emit _ (ext_parseExpression (ext_advance (Extends.refl _)))
  · exact ext_emit _ (ext_parseExpression (ext_advance (Extends.refl _)))
  · exact ext_emit _ (ext_ite (ext_advance ((extends_skipArguments _ _).trans
      (ext_advance (Extends.refl _)))) ((extends_skipArguments _ _).trans
      (ext_advance (Extends.refl _))))
  · exact ext_emit _ (ext_ite (ext_advance ((extends_skipArguments _ _).trans
      (ext_advance (Extends.refl _)))) ((extends_skipArguments _ _).trans
      (ext_advance (Extends.refl _))))

theorem extends_parsePrintStatement (p : Parser) :
    (parsePrintStatement p).Extends p.advance := by
  unfold parsePrintStatement
  refine ext_ite (ext_report _ (Extends.refl _)) (ext_ite (ext_advance ?_) ?_)
  all_goals
    exact ext_ite
      (ext_report _ (ext_emit _ (ext_parseExpression (ext_advance (Extends.refl _)))))
      (ext_advance (ext_emit _ (ext_parseExpression (ext_advance (Extends.refl _)))))

theorem extends_unexpectedToken (p : Parser) : p.unexpectedToken.Extends p.advance := by
  unfold unexpectedToken
  exact ⟨Nat.le_refl _, List.prefix_refl _, List.prefix_append _ _⟩

/-- A step that starts by advancing over a token other than `END` makes the
measure smaller. -/
theorem measure_lt_of_extends_advance {q p : Parser} (h : q.Extends p.advance)
    (hp : p.current_token.type ≠ TokenType.END) : q.measure < p.measure :=
  Nat.lt_of_le_of_lt h.1 (measure_advance_lt p hp)

theorem extends_of_extends_advance {q p : Parser} (h : q.Extends p.advance) : q.Extends p :=
  h.trans (extends_advance p)

end Parser

end Compiler

namespace Compiler

namespace Parser

/-! ## Termination of the statement rules -/

theorem ifOk_succ {f : Nat} (hB : BlockOk f) : IfOk (f + 1) := by
  intro p hp hf
  have hlt := measure_advance_lt p hp
  rw [parseIfStatement]
  by_cases h1 : p.advance.current_token.type = TokenType.LPAREN
  · rw [if_pos h1]
    by_cases h2 : (parseExpression p.advance.advance).current_token.type = TokenType.RPAREN
    · rw [if_pos h2]
      have e3 : ((parseExpression p.advance.advance).advance.emit
          "if eax != 0 jump label").Extends p.advance :=
        ext_emit _ (ext_advance (ext_parseExpression (ext_advance (Extends.refl _))))
      obtain ⟨q3, hq3, hx3, -⟩ := hB ((parseExpression p.advance.advance).advance.emit
          "if eax != 0 jump label") (by have := e3.1; omega)
      rw [hq3]
      show ∃ q, (if q3.current_token.type = TokenType.ELSE then
          parseBlock f (q3.advance.emit "label:") else some q3) = some q ∧ _
      by_cases h3 : q3.current_token.type = TokenType.ELSE
      · rw [if_pos h3]
        have e4 : (q3.advance.emit "label:").Extends p.advance :=
          ext_emit _ (ext_advance (hx3.trans e3))
        obtain ⟨q4, hq4, hx4, -⟩ := hB (q3.advance.emit "label:") (by have := e4.1; omega)
        exact ⟨q4, hq4, hx4.trans e4⟩
      · rw [if_neg h3]
        exact ⟨q3, rfl, hx3.trans e3⟩
    · rw [if_neg h2]
      exact ⟨_, rfl, ext_report _ (ext_parseExpression (ext_advance (Extends.refl _)))⟩
  · rw [if_neg h1]
    exact ⟨_, rfl, ext_report _ (Extends.refl _)⟩

theorem whileOk_succ {f : Nat} (hB : BlockOk f) : WhileOk (f + 1) := by
  intro p hp hf
  have hlt := measure_advance_lt p hp
  rw [parseWhileLoop]
  by_cases h1 : (p.advance.emit "label:").current_token.type = TokenType.LPAREN
  · rw [if_pos h1]
    by_cases h2 : (parseExpression (p.advance.emit "label:").advance).current_token.type
        = TokenType.RPAREN
    · rw [if_pos h2]
      have e3 : ((parseExpression (p.advance.emit "label:").advance).advance.emit
          "if eax == 0 jump end_label").Extends p.advance :=
        ext_emit _ (ext_advance (ext_parseExpression (ext_advance (ext_emit _ (Extends.refl _)))))
      obtain ⟨q3, hq3, hx3, -⟩ := hB ((parseExpression (p.advance.emit "label:").advance).advance.emit
          "if eax == 0 jump end_label") (by have := e3.1; omega)
      rw [hq3]
      exact ⟨_, rfl, ext_emit _ (ext_emit _ (hx3.trans e3))⟩
    · rw [if_neg h2]
      exact ⟨_, rfl, ext_report _ (ext_parseExpression (ext_advance
        (ext_emit _ (Extends.refl _))))⟩
  · rw [if_neg h1]
    exact ⟨_, rfl, ext_report _ (ext_emit _ (Extends.refl _))⟩

theorem stmtOk_succ {f : Nat} (hI : IfOk f) (hW : WhileOk f) : StmtOk (f + 1) := by
  intro p hf
  rw [parseStatement]
  by_cases h0 : p.current_token.type = TokenType.END
  · rw [if_pos h0]
    exact ⟨p, rfl, Extends.refl _, fun h => absurd h0 h⟩
  rw [if_neg h0]
  have key : ∀ q : Parser, q.Extends p.advance →
      q.Extends p ∧ (p.current_token.type ≠ TokenType.END → q.measure < p.measure) :=
    fun q hq => ⟨extends_of_extends_advance hq, fun _ => measure_lt_of_extends_advance hq h0⟩
  by_cases h1 : p.current_token.type = TokenType.ERROR
  · rw [if_pos h1]; exact ⟨_, rfl, key _ (extends_unexpectedToken p)⟩
  rw [if_neg h1]
  by_cases h2 : p.current_token.type = TokenType.INT ∨ p.current_token.type = TokenType.FLOAT
  · rw [if_pos h2]; exact ⟨_, rfl, key _ (extends_parseVariableDeclaration p)⟩
  rw [if_neg h2]
  by_cases h3 : p.current_token.type = TokenType.IDENTIFIER
  · rw [if_pos h3]; exact ⟨_, rfl, key _ (extends_parseAssignmentOrFunctionCall p)⟩
  rw [if_neg h3]
  by_cases h4 : p.current_token.type = TokenType.IF
  · rw [if_pos h4]
    obtain ⟨q, hq, hx⟩ := hI p h0 (by omega)
    exact ⟨q, hq, key q hx⟩
  rw [if_neg h4]
  by_cases h5 : p.current_token.type = TokenType.WHILE
  · rw [if_pos h5]
    obtain ⟨q, hq, hx⟩ := hW p h0 (by omega)
    exact ⟨q, hq, key q hx⟩
  rw [if_neg h5]
  by_cases h6 : p.current_token.type = TokenType.PRINT
  · rw [if_pos h6]; exact ⟨_, rfl, key _ (extends_parsePrintStatement p)⟩
  rw [if_neg h6]
  exact ⟨_, rfl, key _ (extends_unexpectedToken p)⟩

theorem loopOk_succ {f : Nat} (hS : StmtOk f) (hL : LoopOk f) : LoopOk (f + 1) := by
  intro p hf
  rw [blockLoop]
  by_cases hc : p.current_token.type ≠ TokenType.RBRACE ∧ p.current_token.type ≠ TokenType.END
  · rw [if_pos hc]
    have hbody : ∃ q1, (if p.current_token.type = TokenType.ERROR then some p.unexpectedToken
        else parseStatement f p) = some q1 ∧ q1.Extends p ∧ q1.measure < p.measure := by
      by_cases h1 : p.current_token.type = TokenType.ERROR
      · rw [if_pos h1]
        exact ⟨_, rfl, extends_of_extends_advance (extends_unexpectedToken p),
          measure_lt_of_extends_advance (extends_unexpectedToken p) hc.2⟩
      · rw [if_neg h1]
        obtain ⟨q, hq, hx, hlt⟩ := hS p (by omega)
        exact ⟨q, hq, hx, hlt hc.2⟩
    obtain ⟨q1, hq1, hx1, hlt1⟩ := hbody
    rw [hq1]
    obtain ⟨q2, hq2, hx2, hend⟩ := hL q1 (by omega)
    exact ⟨q2, hq2, hx2.trans hx1, hend⟩
  · rw [if_neg hc]
    refine ⟨p, rfl, Extends.refl _, ?_⟩
    by_cases hr : p.current_token.type = TokenType.RBRACE
    · exact Or.inl hr
    · right
      by_contra he
      exact hc ⟨hr, he⟩

theorem blockOk_succ {f : Nat} (hL : LoopOk f) (hS : StmtOk f) : BlockOk (f + 1) := by
  intro p hf
  rw [parseBlock]
  by_cases h1 : p.current_token.type = TokenType.LBRACE
  · rw [if_pos h1]
    have h0 : p.current_token.type ≠ TokenType.END := by rw [h1]; decide
    have hlt := measure_advance_lt p h0
    obtain ⟨q1, hq1, hx1, -⟩ := hL p.advance (by omega)
    rw [hq1]
    have hx : q1.Extends p := extends_of_extends_advance hx1
    have hm : q1.measure < p.measure := Nat.lt_of_le_of_lt hx1.1 hlt
    show ∃ q, (if q1.current_token.type = TokenType.RBRACE then some q1.advance
      else some (q1.report "Syntax error: Expected \x27\x7d\x27 at end of block")) = some q ∧ _
    by_cases h2 : q1.current_token.type = TokenType.RBRACE
    · rw [if_pos h2]
      exact ⟨_, rfl, ext_advance hx, fun _ => Nat.lt_of_le_of_lt (measure_advance_le q1) hm⟩
    · rw [if_neg h2]
      exact ⟨_, rfl, ext_report _ hx, fun _ => hm⟩
  · rw [if_neg h1]
    exact hS p (by omega)

/-- Every statement rule returns when its fuel is three times the measure of
the state, and two more. -/
theorem rules_terminate (f : Nat) : IfOk f ∧ WhileOk f ∧ BlockOk f ∧ LoopOk f ∧ StmtOk f := by
  induction f with
  | zero =>
    refine ⟨?_, ?_, ?_, ?_, ?_⟩
    · intro p hp hf; have := measure_pos hp; omega
    · intro p hp hf; have := measure_pos hp; omega
    · intro p hf; omega
    · intro p hf; omega
    · intro p hf; omega
  | succ f ih =>
    obtain ⟨hI, hW, hB, hL, hS⟩ := ih
    exact ⟨ifOk_succ hB, whileOk_succ hB, blockOk_succ hL hS, loopOk_succ hS hL,
      stmtOk_succ hI hW⟩

/-- The top-level loop returns when its fuel is three times the measure of the
state, and one more; it stops on `END` or on an `ERROR` token. -/
theorem parse_terminates (f : Nat) : ∀ p : Parser, 3 * p.measure + 1 ≤ f →
    ∃ q, parse f p = some q ∧ q.Extends p
      ∧ (q.current_token.type = TokenType.END ∨ q.current_token.type = TokenType.ERROR) := by
  induction f with
  | zero => intro p hf; omega
  | succ f ih =>
    intro p hf
    rw [parse]
    by_cases hc : p.current_token.type ≠ TokenType.END ∧ p.current_token.type ≠ TokenType.ERROR
    · rw [if_pos hc]
      have hbody : ∃ q1, (if p.current_token.type = TokenType.INT
            ∨ p.current_token.type = TokenType.FLOAT then
          some (parseVariableDeclaration p)
        else if p.current_token.type = TokenType.IDENTIFIER then
          some (parseAssignmentOrFunctionCall p)
        else if p.current_token.type = TokenType.IF then parseIfStatement f p
        else if p.current_token.type = TokenType.WHILE then parseWhileLoop f p
        else if p.current_token.type = TokenType.PRINT then some (parsePrintStatement p)
        else some p.unexpectedToken) = some q1 ∧ q1.Extends p.advance := by
        obtain ⟨hI, hW, -, -, -⟩ := rules_terminate f
        by_cases h2 : p.current_token.type = TokenType.INT ∨ p.current_token.type = TokenType.FLOAT
        · rw [if_pos h2]; exact ⟨_, rfl, extends_parseVariableDeclaration p⟩
        rw [if_neg h2]
        by_cases h3 : p.current_token.type = TokenType.IDENTIFIER
        · rw [if_pos h3]; exact ⟨_, rfl, extends_parseAssignmentOrFunctionCall p⟩
        rw [if_neg h3]
        by_cases h4 : p.current_token.type = TokenType.IF
        · rw [if_pos h4]; exact hI p hc.1 (by omega)
        rw [if_neg h4]
        by_cases h5 : p.current_token.type = TokenType.WHILE
        · rw [if_pos h5]; exact hW p hc.1 (by omega)
        rw [if_neg h5]
        by_cases h6 : p.current_token.type = TokenType.PRINT
        · rw [if_pos h6]; exact ⟨_, rfl, extends_parsePrintStatement p⟩
        rw [if_neg h6]
        exact ⟨_, rfl, extends_unexpectedToken p⟩
      obtain ⟨q1, hq1, hx1⟩ := hbody
      rw [hq1]
      have hlt := measure_lt_of_extends_advance hx1 hc.1
      obtain ⟨q2, hq2, hx2, hend⟩ := ih q1 (by omega)
      exact ⟨q2, hq2, hx2.trans (extends_of_extends_advance hx1), hend⟩
    · rw [if_neg hc]
      refine ⟨p, rfl, Extends.refl _, ?_⟩
      by_cases hr : p.current_token.type = TokenType.END
      · exact Or.inl hr
      · right
        by_contra he
        exact hc ⟨hr, he⟩

theorem measure_new (l : Lexer) (h : l.current_pos = 0) :
    (Parser.new l).measure ≤ l.input.length := by
  unfold measure Parser.new
  show ((Lexer.getNextToken l).2.input.length - (Lexer.getNextToken l).2.current_pos)
      + (if (Lexer.getNextToken l).1.type = TokenType.END then 0 else 1) ≤ _
  have hin := Lexer.getNextToken_input l
  by_cases hE : (Lexer.getNextToken l).1.type = TokenType.END
  · rw [if_pos hE, hin]; omega
  · rw [if_neg hE, hin]
    have hp := Lexer.getNextToken_not_END l hE
    omega

end Parser

/-- The translation of every source text returns, with the lookahead on `END`
or on an `ERROR` token. -/
theorem translate_terminates (src : String) :
    ∃ q, translate src = some q
      ∧ q.Extends (Parser.new (Lexer.new src))
      ∧ (q.current_token.type = TokenType.END ∨ q.current_token.type = TokenType.ERROR) := by
  unfold translate
  apply Parser.parse_terminates
  have := Parser.measure_new (Lexer.new src) rfl
  have hl : (Lexer.new src).input.length = src.length := rfl
  unfold parseFuel
  omega

end Compiler

namespace Compiler

namespace Parser

/-! ## The rules on well-formed input -/

theorem Emits.append {p q r : Parser} {l1 l2 : List String} {ts1 ts2 : List Token}
    (h1 : Emits p q l1 ts1) (h2 : Emits q r l2 ts2) : Emits p r (l1 ++ l2) ts2 :=
  ⟨h2.1, by rw [h2.2.1, h1.2.1, List.append_assoc], by rw [h2.2.2, h1.2.2]⟩

theorem emits_refl {p : Parser} {ts : List Token} (h : p.Reads ts) : Emits p p [] ts :=
  ⟨h, (List.append_nil _).symm, rfl⟩

theorem emits_advance {p : Parser} {t : Token} {ts : List Token} (h : p.Reads (t :: ts)) :
    Emits p p.advance [] ts :=
  ⟨reads_advance_cons h, (List.append_nil _).symm, rfl⟩

theorem emits_emit {p : Parser} {ts : List Token} (line : String) (h : p.Reads ts) :
    Emits p (p.emit line) [line] ts :=
  ⟨h, rfl, rfl⟩

theorem isPrimary_iff (t : Token) : isPrimary t = true ↔
    (t.type = TokenType.IDENTIFIER ∨ t.type = TokenType.INT ∨ t.type = TokenType.FLOAT) := by
  unfold isPrimary
  simp [Bool.or_eq_true, or_assoc]

theorem isOperator_false (t : Token) (h : isOperator t = false) :
    t.type ≠ TokenType.GREATER_THAN ∧ t.type ≠ TokenType.MINUS ∧ t.type ≠ TokenType.PLUS := by
  unfold isOperator at h
  simp [Bool.or_eq_false_iff] at h
  exact ⟨h.1.1, h.1.2, h.2⟩

/-- The expression rule on a well-formed expression that is not followed by an
operator. -/
theorem parseExpression_sound (e : Expr) (p : Parser) (rest : List Token) (hwf : e.wf = true)
    (hr : p.Reads (e.render ++ rest)) (hop : isOperator (rest.headD endToken) = false) :
    Emits p (parseExpression p) e.lines rest := by
  cases e with
  | prim a =>
    have ha : p.current_token = a := hr.1
    have hprim := (isPrimary_iff a).mp hwf
    have h1 : ((p.emit ("load " ++ a.lexeme ++ " into eax")).advance).Reads rest :=
      reads_advance_cons (reads_emit _ hr)
    have ht : ((p.emit ("load " ++ a.lexeme ++ " into eax")).advance).current_token
        = rest.headD endToken := h1.1
    obtain ⟨n1, n2, n3⟩ := isOperator_false _ hop
    unfold parseExpression
    rw [ha, if_pos hprim]
    simp only []
    rw [ht, if_neg n1, if_neg n2, if_neg n3]
    exact ⟨h1, rfl, rfl⟩
  | bin a op b =>
    have ha : p.current_token = a := hr.1
    have hwf2 : isPrimary a = true ∧ isPrimary b = true := by
      simpa [Expr.wf] using hwf
    have hprim := (isPrimary_iff a).mp hwf2.1
    have h1 : ((p.emit ("load " ++ a.lexeme ++ " into eax")).advance).Reads
        (op.token :: b :: rest) := reads_advance_cons (reads_emit _ hr)
    have ht : ((p.emit ("load " ++ a.lexeme ++ " into eax")).advance).current_token
        = op.token := h1.1
    have h2 := reads_advance_cons h1
    have hb : ((p.emit ("load " ++ a.lexeme ++ " into eax")).advance).advance.current_token
        = b := h2.1
    unfold parseExpression
    rw [ha, if_pos hprim]
    simp only []
    rw [ht, hb]
    cases op <;> simp only [Op.token, reduceCtorEq, ↓reduceIte] <;>
      exact ⟨reads_advance_cons (reads_emit _ h2),
        by simp only [advance_output, emit_output, Expr.lines, Op.line, List.append_assoc,
          List.singleton_append],
        by simp only [advance_cerr, emit_cerr]⟩

end Parser

end Compiler

namespace Compiler

namespace Lexer

theorem tokens_length_le (n : Nat) : ∀ (l : Lexer), l.input.length - l.current_pos ≤ n →
    (tokens l).length ≤ l.input.length - l.current_pos := by
  induction n with
  | zero =>
    intro l h
    rw [tokens_at_end l (by omega)]
    exact Nat.zero_le _
  | succ n ih =>
    intro l h
    rw [tokens_eq]
    by_cases hE : (getNextToken l).1.type = TokenType.END
    · rw [if_pos hE]; exact Nat.zero_le _
    · rw [if_neg hE]
      have hp := getNextToken_not_END l hE
      have hin := getNextToken_input l
      have := ih (getNextToken l).2 (by rw [hin]; omega)
      rw [hin] at this
      rw [List.length_cons]
      omega

end Lexer

namespace Parser

theorem reads_length_le {p : Parser} {ts : List Token} (h : p.Reads ts) :
    ts.length ≤ p.lexer.input.length - p.lexer.current_pos + 1 := by
  have h1 := Lexer.tokens_length_le _ p.lexer (Nat.le_refl _)
  rw [h.2, List.length_tail] at h1
  omega

/-- The argument loop of a call stops on the first `)`. -/
theorem skipArguments_sound (args : List Token) : ∀ (fuel : Nat) (p : Parser) (rest : List Token),
    args.length ≤ fuel →
    (∀ t ∈ args, t.type ≠ TokenType.RPAREN ∧ t.type ≠ TokenType.END) →
    p.Reads (args ++ rparen :: rest) →
    Emits p (skipArguments fuel p) [] (rparen :: rest) := by
  induction args with
  | nil =>
    intro fuel p rest _ _ hr
    have ht : p.current_token = rparen := hr.1
    cases fuel with
    | zero => exact emits_refl hr
    | succ n =>
      rw [skipArguments, ht, if_neg (fun h => h.1 rfl)]
      exact emits_refl hr
  | cons a args ih =>
    intro fuel p rest hf hall hr
    obtain ⟨n, rfl⟩ : ∃ n, fuel = n + 1 := ⟨fuel - 1, by simp at hf; omega⟩
    have ht : p.current_token = a := hr.1
    rw [skipArguments, ht, if_pos (hall a (List.mem_cons_self _ _))]
    have h1 : p.advance.Reads (args ++ rparen :: rest) := reads_advance_cons hr
    have := ih n p.advance rest (by simp at hf; omega)
      (fun t ht => hall t (List.mem_cons_of_mem _ ht)) h1
    exact ⟨this.1, this.2.1, this.2.2⟩

/-- The declaration rule on `TYPE IDENT ;`. -/
theorem parseVariableDeclaration_decl (ty name : Token) (p : Parser) (rest : List Token)
    (hname : name.type = TokenType.IDENTIFIER)
    (hr : p.Reads (ty :: name :: semicolon :: rest)) :
    Emits p (parseVariableDeclaration p) ["var " ++ name.lexeme] rest := by
  have r1 := reads_advance_cons hr
  have r2 := reads_advance_cons r1
  have r3 := reads_advance_cons (reads_emit ("var " ++ name.lexeme) r2)
  have t1 : p.advance.current_token = name := r1.1
  have t2 : p.advance.advance.current_token = semicolon := r2.1
  simp only [parseVariableDeclaration, t1, t2, hname, semicolon, reduceCtorEq, ↓reduceIte,
    emit_current_token]
  exact ⟨r3, by simp only [advance_output, emit_output], by simp only [advance_cerr, emit_cerr]⟩

/-- The declaration rule on `TYPE IDENT = expression ;`. -/
theorem parseVariableDeclaration_declInit (ty name : Token) (e : Expr) (p : Parser)
    (rest : List Token) (hname : name.type = TokenType.IDENTIFIER) (he : e.wf = true)
    (hr : p.Reads (ty :: name :: assignTok :: (e.render ++ semicolon :: rest))) :
    Emits p (parseVariableDeclaration p) (e.lines ++ ["mov " ++ name.lexeme ++ ", eax"]) rest := by
  have r1 := reads_advance_cons hr
  have r2 := reads_advance_cons r1
  have r3 := reads_advance_cons r2
  have t1 : p.advance.current_token = name := r1.1
  have t2 : p.advance.advance.current_token = assignTok := r2.1
  obtain ⟨hR, hO, hC⟩ := parseExpression_sound e p.advance.advance.advance (semicolon :: rest) he r3
    rfl
  have t3 : (parseExpression p.advance.advance.advance).current_token = semicolon := hR.1
  have r4 := reads_advance_cons (reads_emit ("mov " ++ name.lexeme ++ ", eax") hR)
  simp only [parseVariableDeclaration, t1, t2, t3, hname, semicolon, assignTok, reduceCtorEq,
    ↓reduceIte, emit_current_token]
  exact ⟨r4, by simp only [advance_output, emit_output, hO, List.append_assoc],
    by simp only [advance_cerr, emit_cerr, hC]⟩

/-- The assignment rule on `IDENT = expression ;`. -/
theorem parseAssignment_sound (name : Token) (e : Expr) (p : Parser)
    (rest : List Token) (he : e.wf = true)
    (hr : p.Reads (name :: assignTok :: (e.render ++ semicolon :: rest))) :
    Emits p (parseAssignmentOrFunctionCall p)
      (e.lines ++ ["mov " ++ name.lexeme ++ ", eax"]) rest := by
  have r1 := reads_advance_cons hr
  have r2 := reads_advance_cons r1
  have t0 : p.current_token = name := hr.1
  have t1 : p.advance.current_token = assignTok := r1.1
  obtain ⟨hR, hO, hC⟩ := parseExpression_sound e p.advance.advance (semicolon :: rest) he r2
    rfl
  have t3 : (parseExpression p.advance.advance).current_token = semicolon := hR.1
  have r4 := reads_advance_cons (reads_emit ("mov " ++ name.lexeme ++ ", eax") hR)
  simp only [parseAssignmentOrFunctionCall, t0, t1, t3, semicolon, assignTok, reduceCtorEq,
    ↓reduceIte, emit_current_token]
  exact ⟨r4, by simp only [advance_output, emit_output, hO, List.append_assoc],
    by simp only [advance_cerr, emit_cerr, hC]⟩

/-- The call rule on `IDENT ( tokens ) ;` when no token between the parentheses
is a `)`. -/
theorem parseFunctionCall_sound (name : Token) (args : List Token) (p : Parser)
    (rest : List Token)
    (hargs : ∀ t ∈ args, t.type ≠ TokenType.RPAREN ∧ t.type ≠ TokenType.END)
    (hr : p.Reads (name :: lparen :: (args ++ rparen :: semicolon :: rest))) :
    Emits p (parseAssignmentOrFunctionCall p) ["call " ++ name.lexeme] rest := by
  have r1 := reads_advance_cons hr
  have r2 := reads_advance_cons r1
  have t0 : p.current_token = name := hr.1
  have t1 : p.advance.current_token = lparen := r1.1
  have hlen := reads_length_le r2
  obtain ⟨hR, hO, hC⟩ := skipArguments_sound args
    (p.advance.advance.lexer.input.length - p.advance.advance.lexer.current_pos + 1)
    p.advance.advance (semicolon :: rest)
    (by rw [List.length_append] at hlen; omega) hargs r2
  have t3 : (skipArguments
    (p.advance.advance.lexer.input.length - p.advance.advance.lexer.current_pos + 1)
    p.advance.advance).current_token = rparen := hR.1
  have r4 := reads_advance_cons hR
  have t4 : (skipArguments
    (p.advance.advance.lexer.input.length - p.advance.advance.lexer.current_pos + 1)
    p.advance.advance).advance.current_token = semicolon := r4.1
  have r5 := reads_advance_cons (reads_emit ("call " ++ name.lexeme) r4)
  simp only [parseAssignmentOrFunctionCall, t0, t1, t3, t4, semicolon, lparen, rparen,
    reduceCtorEq, ↓reduceIte, emit_current_token]
  exact ⟨r5, by simp only [advance_output, emit_output, hO, List.append_nil],
    by simp only [advance_cerr, emit_cerr, hC]⟩

/-- The print rule on `print ( expression ) ;`. -/
theorem parsePrintStatement_sound (e : Expr) (p : Parser) (rest : List Token)
    (he : e.wf = true)
    (hr : p.Reads (printTok :: lparen :: (e.render ++ rparen :: semicolon :: rest))) :
    Emits p (parsePrintStatement p) (e.lines ++ ["print eax"]) rest := by
  have r1 := reads_advance_cons hr
  have r2 := reads_advance_cons r1
  have t1 : p.advance.current_token = lparen := r1.1
  obtain ⟨hR, hO, hC⟩ := parseExpression_sound e p.advance.advance (rparen :: semicolon :: rest)
    he r2 rfl
  have t3 : (parseExpression p.advance.advance).current_token = rparen := hR.1
  have r4 := reads_advance_cons (reads_emit "print eax" hR)
  have t4 : ((parseExpression p.advance.advance).emit "print eax").advance.current_token
      = semicolon := r4.1
  have r5 := reads_advance_cons r4
  simp only [parsePrintStatement, t1, t3, t4, semicolon, lparen, rparen, reduceCtorEq,
    ↓reduceIte, emit_current_token, ne_eq, not_true_eq_false, not_false_eq_true]
  exact ⟨r5, by simp only [advance_output, emit_output, hO, List.append_assoc],
    by simp only [advance_cerr, emit_cerr, hC]⟩

end Parser

end Compiler

namespace Compiler

theorem isType_iff (t : Token) : isType t = true ↔
    (t.type = TokenType.INT ∨ t.type = TokenType.FLOAT) := by
  unfold isType
  simp [Bool.or_eq_true]

theorem Expr.render_ne_nil (e : Expr) : ∃ t ts, e.render = t :: ts := by
  cases e with
  | prim a => exact ⟨a, [], rfl⟩
  | bin a op b => exact ⟨a, [op.token, b], rfl⟩

/-- A well-formed statement starts with a type keyword, an identifier, `if`,
`while` or `print`. -/
theorem Stmt.render_head (s : Stmt) (hwf : s.wf = true) :
    ∃ t ts, s.render = t :: ts ∧ startsStmt t = true := by
  cases s with
  | decl ty name =>
    simp only [Stmt.wf, Bool.and_eq_true, decide_eq_true_eq] at hwf
    refine ⟨ty, _, rfl, ?_⟩
    rcases (isType_iff ty).mp hwf.1 with h | h <;> simp [startsStmt, h]
  | declInit ty name e =>
    simp only [Stmt.wf, Bool.and_eq_true, decide_eq_true_eq] at hwf
    refine ⟨ty, _, by simp only [Stmt.render, List.cons_append, List.nil_append]; rfl, ?_⟩
    rcases (isType_iff ty).mp hwf.1.1 with h | h <;> simp [startsStmt, h]
  | assign name e =>
    simp only [Stmt.wf, Bool.and_eq_true, decide_eq_true_eq] at hwf
    exact ⟨name, _, by simp only [Stmt.render, List.cons_append, List.nil_append]; rfl, by simp [startsStmt, hwf.1]⟩
  | call name args =>
    simp only [Stmt.wf, Bool.and_eq_true, decide_eq_true_eq] at hwf
    exact ⟨name, _, by simp only [Stmt.render, List.cons_append, List.nil_append]; rfl, by simp [startsStmt, hwf.1]⟩
  | ifThen e b => exact ⟨ifTok, _, by simp only [Stmt.render, List.cons_append, List.nil_append]; rfl, rfl⟩
  | ifElse e b1 b2 => exact ⟨ifTok, _, by simp only [Stmt.render, List.cons_append, List.nil_append]; rfl, rfl⟩
  | whileLoop e b => exact ⟨whileTok, _, by simp only [Stmt.render, List.cons_append, List.nil_append]; rfl, rfl⟩
  | print e => exact ⟨printTok, _, by simp only [Stmt.render, List.cons_append, List.nil_append]; rfl, rfl⟩

theorem startsStmt_type {t : Token} (h : startsStmt t = true) :
    t.type ≠ TokenType.END ∧ t.type ≠ TokenType.ERROR ∧ t.type ≠ TokenType.RBRACE
      ∧ t.type ≠ TokenType.LBRACE ∧ t.type ≠ TokenType.ELSE := by
  unfold startsStmt at h
  simp only [Bool.or_eq_true, decide_eq_true_eq] at h
  rcases h with ((((h | h) | h) | h) | h) | h <;> rw [h] <;> decide

/-- What follows a statement inside a sequence is never an `else`. -/
theorem head_renderStmts_ne_else (ss : List Stmt) (hwf : wfStmts ss = true) (t : Token)
    (rest : List Token) (ht : t.type ≠ TokenType.ELSE) :
    ((renderStmts ss ++ t :: rest).headD endToken).type ≠ TokenType.ELSE := by
  cases ss with
  | nil => simpa [renderStmts] using ht
  | cons s ss =>
    simp only [wfStmts, Bool.and_eq_true] at hwf
    obtain ⟨t0, ts, hts, hst⟩ := s.render_head hwf.1
    rw [renderStmts, hts]
    exact (startsStmt_type hst).2.2.2.2

namespace Parser

/-! ## The recursive rules on well-formed input -/

theorem ifSound_succ {f : Nat} (hB : BlockSound f) : IfSound (f + 1) := by
  constructor
  · intro e b p q rest hwf hr hcl h
    simp only [Stmt.wf, Bool.and_eq_true] at hwf
    simp only [Stmt.render, List.cons_append, List.nil_append, List.append_assoc] at hr
    have r1 := reads_advance_cons hr
    have r2 := reads_advance_cons r1
    have t1 : p.advance.current_token = lparen := r1.1
    obtain ⟨hR, hO, hC⟩ := parseExpression_sound e p.advance.advance
      (rparen :: (b.render ++ rest)) hwf.1 r2 rfl
    have t3 : (parseExpression p.advance.advance).current_token = rparen := hR.1
    have r4 : ((parseExpression p.advance.advance).advance.emit
        "if eax != 0 jump label").Reads (b.render ++ rest) :=
      reads_emit _ (reads_advance_cons hR)
    rw [parseIfStatement] at h
    simp only [t1, t3, lparen, rparen, ↓reduceIte] at h
    obtain ⟨q3, hq3, h⟩ := Option.bind_eq_some.mp h
    have hb := hB b _ q3 rest hwf.2 r4 (fun _ => hcl rfl) hq3
    have t5 : q3.current_token = rest.headD endToken := hb.1.1
    rw [t5, if_neg (hcl rfl)] at h
    cases h
    exact ⟨hb.1, by simp only [hb.2.1, emit_output, advance_output, hO, Stmt.lines,
      List.append_assoc], by simp only [hb.2.2, emit_cerr, advance_cerr, hC]⟩
  · intro e b1 b2 p q rest hwf hr hcl h
    simp only [Stmt.wf, Bool.and_eq_true, Bool.not_eq_true'] at hwf
    simp only [Stmt.render, List.cons_append, List.nil_append, List.append_assoc] at hr
    have r1 := reads_advance_cons hr
    have r2 := reads_advance_cons r1
    have t1 : p.advance.current_token = lparen := r1.1
    obtain ⟨hR, hO, hC⟩ := parseExpression_sound e p.advance.advance
      (rparen :: (b1.render ++ elseTok :: (b2.render ++ rest))) hwf.1.1.1 r2 rfl
    have t3 : (parseExpression p.advance.advance).current_token = rparen := hR.1
    have r4 : ((parseExpression p.advance.advance).advance.emit
        "if eax != 0 jump label").Reads (b1.render ++ elseTok :: (b2.render ++ rest)) :=
      reads_emit _ (reads_advance_cons hR)
    rw [parseIfStatement] at h
    simp only [t1, t3, lparen, rparen, ↓reduceIte] at h
    obtain ⟨q3, hq3, h⟩ := Option.bind_eq_some.mp h
    have hb := hB b1 _ q3 _ hwf.1.1.2 r4
      (fun ho => by rw [hwf.1.2] at ho; exact absurd ho (by decide)) hq3
    have t5 : q3.current_token = elseTok := hb.1.1
    simp only [t5, elseTok, ↓reduceIte] at h
    have r6 : (q3.advance.emit "label:").Reads (b2.render ++ rest) :=
      reads_emit _ (reads_advance_cons hb.1)
    have hb2 := hB b2 _ q rest hwf.2 r6 hcl h
    exact ⟨hb2.1, by simp only [hb2.2.1, hb.2.1, emit_output, advance_output, hO, Stmt.lines,
      List.append_assoc], by simp only [hb2.2.2, hb.2.2, emit_cerr, advance_cerr, hC]⟩

theorem whileSound_succ {f : Nat} (hB : BlockSound f) : WhileSound (f + 1) := by
  intro e b p q rest hwf hr hcl h
  simp only [Stmt.wf, Bool.and_eq_true] at hwf
  simp only [Stmt.render, List.cons_append, List.nil_append, List.append_assoc] at hr
  have r1 : (p.advance.emit "label:").Reads _ := reads_emit _ (reads_advance_cons hr)
  have r2 := reads_advance_cons r1
  have t1 : (p.advance.emit "label:").current_token = lparen := r1.1
  obtain ⟨hR, hO, hC⟩ := parseExpression_sound e (p.advance.emit "label:").advance
    (rparen :: (b.render ++ rest)) hwf.1 r2 rfl
  have t3 : (parseExpression (p.advance.emit "label:").advance).current_token = rparen := hR.1
  have r4 : ((parseExpression (p.advance.emit "label:").advance).advance.emit
      "if eax == 0 jump end_label").Reads (b.render ++ rest) :=
    reads_emit _ (reads_advance_cons hR)
  rw [parseWhileLoop] at h
  simp only [t1, t3, lparen, rparen, ↓reduceIte] at h
  obtain ⟨q3, hq3, h⟩ := Option.bind_eq_some.mp h
  have hb := hB b _ q3 rest hwf.2 r4 hcl hq3
  cases h
  exact ⟨reads_emit _ (reads_emit _ hb.1),
    by simp only [hb.2.1, emit_output, advance_output, hO, Stmt.lines, List.append_assoc,
      List.cons_append, List.nil_append],
    by simp only [hb.2.2, emit_cerr, advance_cerr, hC]⟩

end Parser

end Compiler

namespace Compiler

namespace Parser

theorem stmtSound_succ {f : Nat} (hI : IfSound f) (hW : WhileSound f) : StmtSound (f + 1) := by
  intro s p q rest hwf hr hcl h
  rw [parseStatement] at h
  cases s with
  | decl ty name =>
    simp only [Stmt.wf, Bool.and_eq_true, decide_eq_true_eq] at hwf
    simp only [Stmt.render, List.cons_append, List.nil_append] at hr
    have t0 : p.current_token = ty := hr.1
    have hty := (isType_iff ty).mp hwf.1
    have h1 : ty.type ≠ TokenType.END := by rcases hty with h | h <;> rw [h] <;> decide
    have h2 : ty.type ≠ TokenType.ERROR := by rcases hty with h | h <;> rw [h] <;> decide
    rw [t0, if_neg h1, if_neg h2, if_pos hty] at h
    cases h
    exact parseVariableDeclaration_decl ty name p rest hwf.2 hr
  | declInit ty name e =>
    simp only [Stmt.wf, Bool.and_eq_true, decide_eq_true_eq] at hwf
    simp only [Stmt.render, List.cons_append, List.nil_append, List.append_assoc] at hr
    have t0 : p.current_token = ty := hr.1
    have hty := (isType_iff ty).mp hwf.1.1
    have h1 : ty.type ≠ TokenType.END := by rcases hty with h | h <;> rw [h] <;> decide
    have h2 : ty.type ≠ TokenType.ERROR := by rcases hty with h | h <;> rw [h] <;> decide
    rw [t0, if_neg h1, if_neg h2, if_pos hty] at h
    cases h
    exact parseVariableDeclaration_declInit ty name e p rest hwf.1.2 hwf.2 hr
  | assign name e =>
    simp only [Stmt.wf, Bool.and_eq_true, decide_eq_true_eq] at hwf
    simp only [Stmt.render, List.cons_append, List.nil_append, List.append_assoc] at hr
    have t0 : p.current_token = name := hr.1
    simp only [t0, hwf.1, reduceCtorEq, ↓reduceIte, or_self] at h
    cases h
    exact parseAssignment_sound name e p rest hwf.2 hr
  | call name args =>
    simp only [Stmt.wf, Bool.and_eq_true, decide_eq_true_eq, List.all_eq_true, ne_eq,
      decide_not, Bool.not_eq_true', decide_eq_false_iff_not] at hwf
    simp only [Stmt.render, List.cons_append, List.nil_append, List.append_assoc] at hr
    have t0 : p.current_token = name := hr.1
    simp only [t0, hwf.1, reduceCtorEq, ↓reduceIte, or_self] at h
    cases h
    exact parseFunctionCall_sound name args p rest hwf.2 hr
  | ifThen e b =>
    have t0 : p.current_token = ifTok := by
      have := hr.1
      simpa only [Stmt.render, List.cons_append, List.nil_append, List.append_assoc,
        List.headD_cons] using this
    simp only [t0, ifTok, reduceCtorEq, ↓reduceIte, or_self] at h
    exact hI.1 e b p q rest hwf hr hcl h
  | ifElse e b1 b2 =>
    have t0 : p.current_token = ifTok := by
      have := hr.1
      simpa only [Stmt.render, List.cons_append, List.nil_append, List.append_assoc,
        List.headD_cons] using this
    simp only [t0, ifTok, reduceCtorEq, ↓reduceIte, or_self] at h
    exact hI.2 e b1 b2 p q rest hwf hr hcl h
  | whileLoop e b =>
    have t0 : p.current_token = whileTok := by
      have := hr.1
      simpa only [Stmt.render, List.cons_append, List.nil_append, List.append_assoc,
        List.headD_cons] using this
    simp only [t0, whileTok, reduceCtorEq, ↓reduceIte, or_self] at h
    exact hW e b p q rest hwf hr hcl h
  | print e =>
    simp only [Stmt.wf] at hwf
    simp only [Stmt.render, List.cons_append, List.nil_append, List.append_assoc] at hr
    have t0 : p.current_token = printTok := hr.1
    simp only [t0, printTok, reduceCtorEq, ↓reduceIte, or_self] at h
    cases h
    exact parsePrintStatement_sound e p rest hwf hr

theorem loopSound_succ {f : Nat} (hS : StmtSound f) (hL : LoopSound f) : LoopSound (f + 1) := by
  intro ss p q rest hwf hr h
  rw [blockLoop] at h
  cases ss with
  | nil =>
    have t0 : p.current_token = rbrace := hr.1
    simp only [t0, rbrace, ne_eq, not_true_eq_false, false_and, ↓reduceIte] at h
    cases h
    exact emits_refl hr
  | cons s ss =>
    simp only [wfStmts, Bool.and_eq_true] at hwf
    rw [renderStmts, List.append_assoc] at hr
    obtain ⟨t, ts, hts, hst⟩ := s.render_head hwf.1
    have t0 : p.current_token = t := by
      have := hr.1
      rw [hts] at this
      exact this
    obtain ⟨n1, n2, n3, -, -⟩ := startsStmt_type hst
    rw [t0, if_pos ⟨n3, n1⟩, if_neg n2] at h
    obtain ⟨q1, hq1, h⟩ := Option.bind_eq_some.mp h
    have h1 := hS s p q1 _ hwf.1 hr
      (fun _ => head_renderStmts_ne_else ss hwf.2 rbrace rest (by decide)) hq1
    have h2 := hL ss q1 q rest hwf.2 h1.1 h
    have := h1.append h2
    rw [linesStmts]
    exact this

theorem blockSound_succ {f : Nat} (hL : LoopSound f) (hS : StmtSound f) :
    BlockSound (f + 1) := by
  intro b p q rest hwf hr hcl h
  rw [parseBlock] at h
  cases b with
  | braced ss =>
    simp only [Block.wf] at hwf
    simp only [Block.render, List.cons_append, List.nil_append, List.append_assoc] at hr
    have t0 : p.current_token = lbrace := hr.1
    simp only [t0, lbrace, ↓reduceIte] at h
    obtain ⟨q1, hq1, h⟩ := Option.bind_eq_some.mp h
    have h1 := hL ss p.advance q1 rest hwf (reads_advance_cons hr) hq1
    have t1 : q1.current_token = rbrace := h1.1.1
    simp only [t1, rbrace, ↓reduceIte] at h
    cases h
    exact ⟨reads_advance_cons h1.1, by simp only [advance_output, h1.2.1, Block.lines],
      by simp only [advance_cerr, h1.2.2]⟩
  | single s =>
    simp only [Block.wf] at hwf
    simp only [Block.render] at hr
    obtain ⟨t, ts, hts, hst⟩ := s.render_head hwf
    have t0 : p.current_token = t := by
      have := hr.1
      rw [hts] at this
      exact this
    rw [t0, if_neg (startsStmt_type hst).2.2.2.1] at h
    exact hS s p q rest hwf hr hcl h

/-- Every statement rule translates the well-formed statements, whatever its
fuel, when it returns. -/
theorem rules_sound (f : Nat) :
    IfSound f ∧ WhileSound f ∧ BlockSound f ∧ LoopSound f ∧ StmtSound f := by
  induction f with
  | zero =>
    refine ⟨⟨?_, ?_⟩, ?_, ?_, ?_, ?_⟩
    · intro e b p q rest _ _ _ h; rw [parseIfStatement] at h; cases h
    · intro e b1 b2 p q rest _ _ _ h; rw [parseIfStatement] at h; cases h
    · intro e b p q rest _ _ _ h; rw [parseWhileLoop] at h; cases h
    · intro b p q rest _ _ _ h; rw [parseBlock] at h; cases h
    · intro ss p q rest _ _ h; rw [blockLoop] at h; cases h
    · intro s p q rest _ _ _ h; rw [parseStatement] at h; cases h
  | succ f ih =>
    obtain ⟨hI, hW, hB, hL, hS⟩ := ih
    exact ⟨ifSound_succ hB, whileSound_succ hB, blockSound_succ hL hS, loopSound_succ hS hL,
      stmtSound_succ hI hW⟩

/-- The body of the top-level loop is `parseStatement` when the lookahead is
neither `END` nor `ERROR`. -/
theorem parse_succ (f : Nat) (p : Parser) :
    parse (f + 1) p =
      if p.current_token.type ≠ TokenType.END ∧ p.current_token.type ≠ TokenType.ERROR then
        (parseStatement (f + 1) p).bind (parse f)
      else some p := by
  rw [parse]
  by_cases hc : p.current_token.type ≠ TokenType.END ∧ p.current_token.type ≠ TokenType.ERROR
  · rw [if_pos hc, if_pos hc, parseStatement, if_neg hc.1, if_neg hc.2]
  · rw [if_neg hc, if_neg hc]

/-- The top-level loop translates a sequence of well-formed statements that is
followed by the end of the input or by an `ERROR` token. -/
theorem parse_sound (f : Nat) : ∀ (ss : List Stmt) (p q : Parser) (rest : List Token),
    wfStmts ss = true → p.Reads (renderStmts ss ++ rest) →
    ((rest.headD endToken).type = TokenType.END ∨ (rest.headD endToken).type = TokenType.ERROR) →
    parse f p = some q → Emits p q (linesStmts ss) rest := by
  induction f with
  | zero => intro ss p q rest _ _ _ h; rw [parse] at h; cases h
  | succ f ih =>
    intro ss p q rest hwf hr hstop h
    rw [parse_succ] at h
    cases ss with
    | nil =>
      have t0 : p.current_token = rest.headD endToken := hr.1
      rw [t0, if_neg (by
        intro hc
        rcases hstop with h1 | h1
        · exact hc.1 h1
        · exact hc.2 h1)] at h
      cases h
      exact emits_refl hr
    | cons s ss =>
      simp only [wfStmts, Bool.and_eq_true] at hwf
      rw [renderStmts, List.append_assoc] at hr
      obtain ⟨t, ts, hts, hst⟩ := s.render_head hwf.1
      have t0 : p.current_token = t := by
        have := hr.1
        rw [hts] at this
        exact this
      obtain ⟨n1, n2, -, -, -⟩ := startsStmt_type hst
      rw [t0, if_pos ⟨n1, n2⟩] at h
      obtain ⟨q1, hq1, h⟩ := Option.bind_eq_some.mp h
      have hne : ((renderStmts ss ++ rest).headD endToken).type ≠ TokenType.ELSE := by
        cases ss with
        | nil =>
          rw [renderStmts, List.nil_append]
          rcases hstop with h1 | h1 <;> rw [h1] <;> decide
        | cons s2 ss2 =>
          simp only [wfStmts, Bool.and_eq_true] at hwf
          obtain ⟨t2, ts2, hts2, hst2⟩ := s2.render_head hwf.2.1
          rw [renderStmts, hts2]
          exact (startsStmt_type hst2).2.2.2.2
      have h1 := (rules_sound (f + 1)).2.2.2.2 s p q1 _ hwf.1 hr (fun _ => hne) hq1
      have h2 := ih ss q1 q rest hwf.2 h1.1 hstop h
      have := h1.append h2
      rw [linesStmts]
      exact this

end Parser

/-- The translation of a source whose tokens are a sequence of well-formed
statements, possibly followed by an `ERROR` token and anything else: the
instruction stream is the lines of the statements and the diagnostic stream is
empty. -/
theorem translate_sound (src : String) (ss : List Stmt) (rest : List Token)
    (hwf : wfStmts ss = true) (htoks : (Lexer.new src).tokens = renderStmts ss ++ rest)
    (hstop : (rest.headD endToken).type = TokenType.END
      ∨ (rest.headD endToken).type = TokenType.ERROR) :
    ∃ q, translate src = some q ∧ q.output = linesStmts ss ∧ q.cerr = []
      ∧ q.Reads rest := by
  obtain ⟨q, hq, -, -⟩ := translate_terminates src
  refine ⟨q, hq, ?_⟩
  have hr : (Parser.new (Lexer.new src)).Reads (renderStmts ss ++ rest) := by
    rw [← htoks]; exact Parser.reads_new _
  have := Parser.parse_sound _ ss _ q rest hwf hr hstop hq
  exact ⟨by rw [this.2.1]; rfl, by rw [this.2.2]; rfl, this.1⟩

end Compiler

namespace Compiler

/-! ## Character classes are disjoint -/

theorem alpha_not_digit {c : Char} (h : isalpha c = true) : isdigit c = false := by
  unfold isalpha Char.isAlpha Char.isUpper Char.isLower at h
  unfold isdigit Char.isDigit
  simp only [Bool.or_eq_true, Bool.and_eq_true, decide_eq_true_eq, ge_iff_le, Bool.and_eq_false_imp] at h ⊢
  simp only [UInt32.le_def, BitVec.le_def] at h ⊢
  intro h1
  have e1 : (UInt32.toBitVec 48).toNat = 48 := rfl
  have e2 : (UInt32.toBitVec 57).toNat = 57 := rfl
  have e3 : (UInt32.toBitVec 65).toNat = 65 := rfl
  have e4 : (UInt32.toBitVec 90).toNat = 90 := rfl
  have e5 : (UInt32.toBitVec 97).toNat = 97 := rfl
  have e6 : (UInt32.toBitVec 122).toNat = 122 := rfl
  rw [e1] at h1
  rw [e3, e4, e5, e6] at h
  rw [e2]
  simp only [decide_eq_false_iff_not]
  omega

theorem isspace_cases {c : Char} (h : isspace c = true) :
    c = ' ' ∨ c = '\t' ∨ c = '\n' ∨ c = '\x0b' ∨ c = '\x0c' ∨ c = '\r' := by
  simpa only [isspace, Bool.or_eq_true, decide_eq_true_eq, or_assoc] using h

theorem space_not_alpha {c : Char} (h : isspace c = true) : isalpha c = false := by
  rcases isspace_cases h with rfl | rfl | rfl | rfl | rfl | rfl <;> decide

theorem space_not_digit {c : Char} (h : isspace c = true) : isdigit c = false := by
  rcases isspace_cases h with rfl | rfl | rfl | rfl | rfl | rfl <;> decide

theorem digit_not_space {c : Char} (h : isdigit c = true) : isspace c = false := by
  cases hs : isspace c with
  | false => rfl
  | true => rw [space_not_digit hs] at h; exact absurd h (by decide)

theorem alpha_not_space {c : Char} (h : isalpha c = true) : isspace c = false := by
  cases hs : isspace c with
  | false => rfl
  | true => rw [space_not_alpha hs] at h; exact absurd h (by decide)

theorem alpha_isIdChar {c : Char} (h : isalpha c = true) : isIdChar c = true := by
  unfold isIdChar isalnum
  unfold isalpha at h
  rw [h]
  rfl

theorem digit_isIdChar {c : Char} (h : isdigit c = true) : isIdChar c = true := by
  unfold isIdChar isalnum
  unfold isdigit at h
  rw [h, Bool.or_true]
  rfl

namespace Lexer

/-! ## The scanner seen from the unread characters -/

theorem rest_length (l : Lexer) : l.rest.length = l.input.length - l.current_pos := by
  unfold rest
  exact List.length_drop _ _

theorem rest_nil {l : Lexer} (h : l.rest = []) : l.input.length ≤ l.current_pos := by
  have := rest_length l
  rw [h] at this
  simp only [List.length_nil] at this
  omega

theorem rest_cons {l : Lexer} {c : Char} {r : List Char} (h : l.rest = c :: r) :
    l.current_pos < l.input.length ∧ l.cur = c ∧ l.advance.rest = r := by
  have hlen := rest_length l
  rw [h] at hlen
  simp only [List.length_cons] at hlen
  have hlt : l.current_pos < l.input.length := by omega
  unfold rest at h
  rw [List.drop_eq_getElem_cons hlt] at h
  injection h with h1 h2
  refine ⟨hlt, ?_, h2⟩
  unfold cur
  rw [List.getD_eq_getElem _ _ hlt]
  exact h1

theorem skip_zero (l : Lexer) : l.skip 0 = l := rfl

theorem advance_skip (l : Lexer) (k : Nat) : l.advance.skip k = l.skip (k + 1) := by
  unfold advance skip
  simp only [Lexer.mk.injEq, true_and]
  omega

theorem skip_input (l : Lexer) (k : Nat) : (l.skip k).input = l.input := rfl

theorem skip_rest (l : Lexer) (k : Nat) : (l.skip k).rest = l.rest.drop k := by
  unfold rest skip
  simp only [List.drop_drop]

theorem skip_rest_append {l : Lexer} {a r : List Char} (h : l.rest = a ++ r) :
    (l.skip a.length).rest = r := by
  rw [skip_rest, h, List.drop_left]

theorem skip_skip (l : Lexer) (a b : Nat) : (l.skip a).skip b = l.skip (a + b) := by
  unfold skip
  simp only [Lexer.mk.injEq, true_and]
  omega

/-- One whitespace character before the token is skipped. -/
theorem getNextToken_space {l : Lexer} {c : Char} {r : List Char} (h : l.rest = c :: r)
    (hc : isspace c = true) : getNextToken l = getNextToken l.advance := by
  obtain ⟨hlt, hcur, -⟩ := rest_cons h
  unfold getNextToken
  obtain ⟨n, hn⟩ : ∃ n, l.input.length - l.current_pos = n + 1 := ⟨_, (Nat.succ_pred_eq_of_pos (Nat.sub_pos_of_lt hlt)).symm⟩
  have hn2 : l.advance.input.length - l.advance.current_pos = n := by
    show l.input.length - (l.current_pos + 1) = n
    omega
  rw [hn, hn2, skipWhitespace, if_pos ⟨hlt, by rw [hcur]; exact hc⟩]

/-- Without whitespace before it, the token is classified where the cursor is. -/
theorem getNextToken_scan {l : Lexer}
    (h : l.rest = [] ∨ ∃ c r, l.rest = c :: r ∧ isspace c = false) :
    getNextToken l = scanToken l := by
  unfold getNextToken
  have : skipWhitespace (l.input.length - l.current_pos) l = l := by
    rcases h with h | ⟨c, r, h, hc⟩
    · exact skipWhitespace_of_ge _ _ (rest_nil h)
    · obtain ⟨hlt, hcur, -⟩ := rest_cons h
      cases hf : l.input.length - l.current_pos with
      | zero => rfl
      | succ n =>
        rw [skipWhitespace, if_neg]
        rw [hcur, hc]
        intro hx
        exact absurd hx.2 (by decide)
  rw [this]

theorem scanToken_nil {l : Lexer} (h : l.rest = []) : scanToken l = (⟨TokenType.END, ""⟩, l) := by
  unfold scanToken
  rw [if_pos (rest_nil h)]

theorem ite_pair {α β : Type} {c : Prop} [Decidable c] (a b : α) (x : β) :
    (if c then (a, x) else (b, x)) = ((if c then a else b), x) := by
  by_cases h : c
  · rw [if_pos h, if_pos h]
  · rw [if_neg h, if_neg h]

/-- A character that is neither a digit nor a letter makes a token by itself. -/
theorem scanToken_char {l : Lexer} {c : Char} {r : List Char} (h : l.rest = c :: r)
    (hd : isdigit c = false) (ha : isalpha c = false) :
    scanToken l = (charToken c, l.advance) := by
  obtain ⟨hlt, hcur, -⟩ := rest_cons h
  unfold scanToken charToken
  rw [if_neg (Nat.not_le.mpr hlt), hcur, hd, ha, if_neg (by decide), if_neg (by decide)]
  simp only [ite_pair]

end Lexer

end Compiler

namespace Compiler

namespace Lexer

/-! ## The scanner loops on a run of characters -/

theorem string_mk_data_nil (s : String) : (⟨s.data ++ []⟩ : String) = s := by
  rw [List.append_nil]

theorem identifierLoop_run (cs : List Char) : ∀ (l : Lexer) (acc : String) (r : List Char)
    (fuel : Nat), l.rest = cs ++ r → (∀ c ∈ cs, isIdChar c = true) →
    identifierLoop (fuel + cs.length) l acc
      = identifierLoop fuel (l.skip cs.length) ⟨acc.data ++ cs⟩ := by
  induction cs with
  | nil => intro l acc r fuel _ _; rw [string_mk_data_nil]; rfl
  | cons c cs ih =>
    intro l acc r fuel h hall
    obtain ⟨hlt, hcur, hadv⟩ := rest_cons h
    have hc := hall c (List.mem_cons_self _ _)
    unfold isIdChar at hc
    simp only [Bool.or_eq_true, decide_eq_true_eq] at hc
    show identifierLoop (fuel + cs.length + 1) l acc = _
    rw [identifierLoop, hcur, if_pos ⟨hlt, hc⟩,
      ih l.advance (acc.push c) r fuel hadv (fun x hx => hall x (List.mem_cons_of_mem _ hx)),
      advance_skip]
    simp only [String.data_push, List.append_assoc, List.singleton_append, List.length_cons]

theorem identifierLoop_stop {l : Lexer} (acc : String) (fuel : Nat)
    (h : ∀ c ∈ l.rest.head?, isIdChar c = false) : identifierLoop fuel l acc = (l, acc) := by
  cases fuel with
  | zero => rfl
  | succ n =>
    rw [identifierLoop, if_neg]
    intro hc
    cases hr : l.rest with
    | nil => exact absurd hc.1 (Nat.not_lt.mpr (rest_nil hr))
    | cons c r =>
      obtain ⟨-, hcur, -⟩ := rest_cons hr
      have := h c (by rw [hr]; rfl)
      unfold isIdChar at this
      rw [hcur] at hc
      simp only [Bool.or_eq_false_iff, decide_eq_false_iff_not] at this
      rcases hc.2 with h1 | h1
      · rw [this.1] at h1; exact absurd h1 (by decide)
      · exact this.2 h1

theorem numberLoop_run (ds : List Char) : ∀ (l : Lexer) (num : String) (f : Bool)
    (r : List Char) (fuel : Nat), l.rest = ds ++ r → (∀ c ∈ ds, isdigit c = true) →
    numberLoop (fuel + ds.length) l num f
      = numberLoop fuel (l.skip ds.length) ⟨num.data ++ ds⟩ f := by
  induction ds with
  | nil => intro l num f r fuel _ _; rw [string_mk_data_nil]; rfl
  | cons c ds ih =>
    intro l num f r fuel h hall
    obtain ⟨hlt, hcur, hadv⟩ := rest_cons h
    have hc := hall c (List.mem_cons_self _ _)
    show numberLoop (fuel + ds.length + 1) l num f = _
    rw [numberLoop, hcur, if_pos ⟨hlt, Or.inl hc⟩, if_neg (digit_ne_dot hc),
      ih l.advance (num.push c) f r fuel hadv (fun x hx => hall x (List.mem_cons_of_mem _ hx)),
      advance_skip]
    simp only [String.data_push, List.append_assoc, List.singleton_append, List.length_cons]

/-- The first dot of a number is taken. -/
theorem numberLoop_dot {l : Lexer} {r : List Char} (num : String) (fuel : Nat)
    (h : l.rest = '.' :: r) :
    numberLoop (fuel + 1) l num false = numberLoop fuel l.advance (num.push '.') true := by
  obtain ⟨hlt, hcur, -⟩ := rest_cons h
  rw [numberLoop, hcur, if_pos ⟨hlt, Or.inr rfl⟩, if_pos rfl, if_neg (by decide)]

/-- A second dot ends the number and is not taken (lines 70-72). -/
theorem numberLoop_second_dot {l : Lexer} {r : List Char} (num : String) (fuel : Nat)
    (h : l.rest = '.' :: r) : numberLoop fuel l num true = (l, num, true) := by
  obtain ⟨hlt, hcur, -⟩ := rest_cons h
  cases fuel with
  | zero => rfl
  | succ n => rw [numberLoop, hcur, if_pos ⟨hlt, Or.inr rfl⟩, if_pos rfl, if_pos rfl]

theorem numberLoop_stop {l : Lexer} (num : String) (f : Bool) (fuel : Nat)
    (h : ∀ c ∈ l.rest.head?, isdigit c = false ∧ c ≠ '.') :
    numberLoop fuel l num f = (l, num, f) := by
  cases fuel with
  | zero => rfl
  | succ n =>
    rw [numberLoop, if_neg]
    intro hc
    cases hr : l.rest with
    | nil => exact absurd hc.1 (Nat.not_lt.mpr (rest_nil hr))
    | cons c r =>
      obtain ⟨-, hcur, -⟩ := rest_cons hr
      have := h c (by rw [hr]; rfl)
      rw [hcur] at hc
      rcases hc.2 with h1 | h1
      · rw [this.1] at h1; exact absurd h1 (by decide)
      · exact this.2 h1

/-! ## One token from the unread characters -/

theorem getIdentifierOrKeywordToken_eq (l : Lexer) :
    getIdentifierOrKeywordToken l
      = (wordToken (identifierLoop (l.input.length - l.current_pos) l "").2,
          (identifierLoop (l.input.length - l.current_pos) l "").1) := by
  unfold getIdentifierOrKeywordToken wordToken
  simp only [ite_pair]

/-- A word is scanned whole: a letter, then every letter, digit and `_` that
follows. -/
theorem scanToken_word {l : Lexer} {c : Char} {cs r : List Char} (h : l.rest = c :: cs ++ r)
    (hc : isalpha c = true) (hcs : ∀ x ∈ cs, isIdChar x = true)
    (hr : ∀ x ∈ r.head?, isIdChar x = false) :
    scanToken l = (wordToken ⟨c :: cs⟩, l.skip (cs.length + 1)) := by
  obtain ⟨hlt, hcur, -⟩ := rest_cons h
  have hall : ∀ x ∈ c :: cs, isIdChar x = true := by
    intro x hx
    rcases List.mem_cons.mp hx with rfl | hx
    · exact alpha_isIdChar hc
    · exact hcs x hx
  have hfuel : l.input.length - l.current_pos = r.length + (c :: cs).length := by
    rw [← rest_length, h]
    simp only [List.cons_append, List.length_cons, List.length_append]
    omega
  have hrest : (l.skip (c :: cs).length).rest = r := skip_rest_append h
  unfold scanToken
  rw [if_neg (Nat.not_le.mpr hlt), hcur, alpha_not_digit hc, if_neg (by decide), if_pos hc,
    getIdentifierOrKeywordToken_eq, hfuel, identifierLoop_run (c :: cs) l "" r _ h hall,
    identifierLoop_stop _ _ (by rw [hrest]; exact hr)]
  rfl

/-- Digits without a dot are scanned as one `INT` token. -/
theorem scanToken_int {l : Lexer} {d : Char} {ds r : List Char} (h : l.rest = d :: ds ++ r)
    (hd : isdigit d = true) (hds : ∀ x ∈ ds, isdigit x = true)
    (hr : ∀ x ∈ r.head?, isdigit x = false ∧ x ≠ '.') :
    scanToken l = (⟨TokenType.INT, ⟨d :: ds⟩⟩, l.skip (ds.length + 1)) := by
  obtain ⟨hlt, hcur, -⟩ := rest_cons h
  have hall : ∀ x ∈ d :: ds, isdigit x = true := by
    intro x hx
    rcases List.mem_cons.mp hx with rfl | hx
    · exact hd
    · exact hds x hx
  have hfuel : l.input.length - l.current_pos = r.length + (d :: ds).length := by
    rw [← rest_length, h]
    simp only [List.cons_append, List.length_cons, List.length_append]
    omega
  have hrest : (l.skip (d :: ds).length).rest = r := skip_rest_append h
  unfold scanToken
  rw [if_neg (Nat.not_le.mpr hlt), hcur, if_pos hd]
  unfold getNumberToken
  simp only []
  rw [hfuel, numberLoop_run (d :: ds) l "" false r _ h hall,
    numberLoop_stop _ _ _ (by rw [hrest]; exact hr)]
  rfl

/-- Digits, one dot and digits are scanned as one `FLOAT` token, which ends
before a second dot. -/
theorem scanToken_float {l : Lexer} {d : Char} {d1 d2 r : List Char}
    (h : l.rest = d :: d1 ++ '.' :: (d2 ++ r))
    (hd : isdigit d = true) (hd1 : ∀ x ∈ d1, isdigit x = true)
    (hd2 : ∀ x ∈ d2, isdigit x = true)
    (hr : ∀ x ∈ r.head?, isdigit x = false) :
    scanToken l = (⟨TokenType.FLOAT, ⟨d :: d1 ++ '.' :: d2⟩⟩,
      l.skip ((d :: d1).length + 1 + d2.length)) := by
  obtain ⟨hlt, hcur, -⟩ := rest_cons h
  have hall : ∀ x ∈ d :: d1, isdigit x = true := by
    intro x hx
    rcases List.mem_cons.mp hx with rfl | hx
    · exact hd
    · exact hd1 x hx
  have hfuel : l.input.length - l.current_pos
      = ((r.length + d2.length) + 1) + (d :: d1).length := by
    rw [← rest_length, h]
    simp only [List.cons_append, List.length_cons, List.length_append]
    omega
  have hrest1 : (l.skip (d :: d1).length).rest = '.' :: (d2 ++ r) := skip_rest_append h
  have hrest2 : (l.skip (d :: d1).length).advance.rest = d2 ++ r := (rest_cons hrest1).2.2
  have hrest3 : ((l.skip (d :: d1).length).advance.skip d2.length).rest = r :=
    skip_rest_append hrest2
  unfold scanToken
  rw [if_neg (Nat.not_le.mpr hlt), hcur, if_pos hd]
  unfold getNumberToken
  simp only []
  rw [hfuel, numberLoop_run (d :: d1) l "" false _ _ h hall, numberLoop_dot _ _ hrest1,
    numberLoop_run d2 _ _ true r _ hrest2 hd2]
  have hstop : numberLoop r.length ((l.skip (d :: d1).length).advance.skip d2.length)
      ⟨(String.push ⟨"".data ++ (d :: d1)⟩ '.').data ++ d2⟩ true
      = ((l.skip (d :: d1).length).advance.skip d2.length,
          ⟨(String.push ⟨"".data ++ (d :: d1)⟩ '.').data ++ d2⟩, true) := by
    cases r with
    | nil => exact numberLoop_stop _ _ _ (by rw [hrest3]; intro x hx; cases hx)
    | cons x r' =>
      by_cases hx : x = '.'
      · subst hx
        exact numberLoop_second_dot _ _ hrest3
      · exact numberLoop_stop _ _ _ (by
          rw [hrest3]
          intro y hy
          cases hy
          exact ⟨hr x rfl, hx⟩)
  rw [hstop]
  simp only [↓reduceIte, advance_skip, skip_skip, String.data_push, List.append_assoc,
    List.singleton_append, List.cons_append, List.nil_append, List.length_cons]
  rw [show d1.length + 1 + (d2.length + 1) = d1.length + 1 + 1 + d2.length by omega]

end Lexer

end Compiler

namespace Compiler

namespace Lexer

/-! ## The token stream from the unread characters -/

theorem tokens_cons_of {l l1 : Lexer} {t : Token} (h : getNextToken l = (t, l1))
    (ht : t.type ≠ TokenType.END) : tokens l = t :: tokens l1 := by
  rw [tokens_eq, h, if_neg ht]

theorem tokens_nil {l : Lexer} (h : l.rest = []) : tokens l = [] :=
  tokens_at_end l (rest_nil h)

theorem tokens_space {l : Lexer} {c : Char} {r : List Char} (h : l.rest = c :: r)
    (hc : isspace c = true) : tokens l = tokens l.advance := by
  rw [tokens_eq l, tokens_eq l.advance, getNextToken_space h hc]

theorem wordToken_type (w : String) :
    (wordToken w).type ≠ TokenType.END ∧ (wordToken w).type ≠ TokenType.ERROR := by
  unfold wordToken
  split_ifs <;> exact ⟨fun h => TokenType.noConfusion h, fun h => TokenType.noConfusion h⟩

theorem wordToken_lexeme (w : String) : (wordToken w).lexeme = w := by
  unfold wordToken
  split_ifs with h1 h2 h3 h4 h5 h6
  · exact h1.symm
  · exact h2.symm
  · exact h3.symm
  · exact h4.symm
  · exact h5.symm
  · exact h6.symm
  · rfl

theorem wordToken_identifier {w : String} (h : (wordToken w).type = TokenType.IDENTIFIER) :
    wordToken w = ⟨TokenType.IDENTIFIER, w⟩ := by
  have hl := wordToken_lexeme w
  cases hw : wordToken w with
  | mk ty lex =>
    rw [hw] at h hl
    simp only at h hl
    rw [h, hl]

theorem tokens_word {l : Lexer} {c : Char} {cs r : List Char} (h : l.rest = c :: cs ++ r)
    (hc : isalpha c = true) (hcs : ∀ x ∈ cs, isIdChar x = true)
    (hr : ∀ x ∈ r.head?, isIdChar x = false) :
    tokens l = wordToken ⟨c :: cs⟩ :: tokens (l.skip (cs.length + 1)) := by
  apply tokens_cons_of _ (wordToken_type _).1
  rw [getNextToken_scan (Or.inr ⟨c, cs ++ r, h, alpha_not_space hc⟩)]
  exact scanToken_word h hc hcs hr

theorem tokens_int {l : Lexer} {d : Char} {ds r : List Char} (h : l.rest = d :: ds ++ r)
    (hd : isdigit d = true) (hds : ∀ x ∈ ds, isdigit x = true)
    (hr : ∀ x ∈ r.head?, isdigit x = false ∧ x ≠ '.') :
    tokens l = ⟨TokenType.INT, ⟨d :: ds⟩⟩ :: tokens (l.skip (ds.length + 1)) := by
  apply tokens_cons_of _ (fun h => TokenType.noConfusion h)
  rw [getNextToken_scan (Or.inr ⟨d, ds ++ r, h, digit_not_space hd⟩)]
  exact scanToken_int h hd hds hr

theorem tokens_float {l : Lexer} {d : Char} {d1 d2 r : List Char}
    (h : l.rest = d :: d1 ++ '.' :: (d2 ++ r))
    (hd : isdigit d = true) (hd1 : ∀ x ∈ d1, isdigit x = true)
    (hd2 : ∀ x ∈ d2, isdigit x = true)
    (hr : ∀ x ∈ r.head?, isdigit x = false) :
    tokens l = ⟨TokenType.FLOAT, ⟨d :: d1 ++ '.' :: d2⟩⟩
      :: tokens (l.skip ((d :: d1).length + 1 + d2.length)) := by
  apply tokens_cons_of _ (fun h => TokenType.noConfusion h)
  rw [getNextToken_scan (Or.inr ⟨d, d1 ++ '.' :: (d2 ++ r), h, digit_not_space hd⟩)]
  exact scanToken_float h hd hd1 hd2 hr

theorem rest_after_float {l : Lexer} {d : Char} {d1 d2 r : List Char}
    (h : l.rest = d :: d1 ++ '.' :: (d2 ++ r)) :
    (l.skip ((d :: d1).length + 1 + d2.length)).rest = r := by
  have h' : l.rest = (d :: d1 ++ '.' :: d2) ++ r := by
    rw [h]
    simp only [List.cons_append, List.append_assoc]
  have := skip_rest_append h'
  rw [show (d :: d1 ++ '.' :: d2).length = (d :: d1).length + 1 + d2.length by
    simp only [List.cons_append, List.length_cons, List.length_append]; omega] at this
  exact this

theorem charToken_type (c : Char) : (charToken c).type ≠ TokenType.END := by
  unfold charToken
  have key : ∀ (ty : TokenType) (lex : String), ty ≠ TokenType.END →
      (fun t : Token => t.type ≠ TokenType.END) ⟨ty, lex⟩ := fun _ _ h => h
  show (fun t : Token => t.type ≠ TokenType.END) _
  repeat' (first
    | exact key _ _ (by decide)
    | apply ite_prop (P := fun t : Token => t.type ≠ TokenType.END))

theorem tokens_char {l : Lexer} {c : Char} {r : List Char} (h : l.rest = c :: r)
    (hs : isspace c = false) (hd : isdigit c = false) (ha : isalpha c = false) :
    tokens l = charToken c :: tokens l.advance := by
  apply tokens_cons_of _ (charToken_type c)
  rw [getNextToken_scan (Or.inr ⟨c, r, h, hs⟩)]
  exact scanToken_char h hd ha

end Lexer

end Compiler

namespace Compiler

/-! ## Words and numbers as strings -/

theorem isWord_shape {w : String} (h : isWord w = true) :
    ∃ c cs, w.data = c :: cs ∧ isalpha c = true ∧ ∀ x ∈ cs, isIdChar x = true := by
  unfold isWord at h
  cases hw : w.data with
  | nil => rw [hw] at h; exact absurd h (by decide)
  | cons c cs =>
    rw [hw] at h
    simp only [Bool.and_eq_true, List.all_eq_true] at h
    exact ⟨c, cs, rfl, h.1, h.2⟩

theorem isDigits_shape {d : String} (h : isDigits d = true) (hne : d ≠ "") :
    ∃ c cs, d.data = c :: cs ∧ isdigit c = true ∧ ∀ x ∈ cs, isdigit x = true := by
  unfold isDigits at h
  cases hw : d.data with
  | nil =>
    exfalso
    apply hne
    cases d
    simp only at hw
    rw [hw]
  | cons c cs =>
    rw [hw] at h
    simp only [List.all_cons, Bool.and_eq_true, List.all_eq_true] at h
    exact ⟨c, cs, rfl, h.1, h.2⟩

theorem isDigits_all {d : String} (h : isDigits d = true) : ∀ x ∈ d.data, isdigit x = true := by
  unfold isDigits at h
  simpa only [List.all_eq_true] using h

theorem isNumber_shape {v : String} (h : isNumber v = true) :
    ∃ d ds, v.data = d :: ds ∧ isdigit d = true ∧
      ((∀ x ∈ ds, isdigit x = true) ∨
        ∃ d1 d2, ds = d1 ++ '.' :: d2 ∧ (∀ x ∈ d1, isdigit x = true)
          ∧ ∀ x ∈ d2, isdigit x = true) := by
  unfold isNumber at h
  cases hw : v.data with
  | nil => rw [hw] at h; exact absurd h (by decide)
  | cons d ds =>
    rw [hw] at h
    simp only [Bool.and_eq_true, Bool.or_eq_true, decide_eq_true_eq, List.all_eq_true] at h
    refine ⟨d, ds, rfl, h.1, ?_⟩
    have hsplit := List.takeWhile_append_dropWhile isdigit ds
    have htake : ∀ x ∈ ds.takeWhile isdigit, isdigit x = true :=
      fun x hx => List.mem_takeWhile_imp hx
    rcases h.2 with h2 | ⟨h2, h3⟩
    · left
      rw [h2, List.append_nil] at hsplit
      rw [← hsplit]
      exact htake
    · right
      cases hdw : ds.dropWhile isdigit with
      | nil => rw [hdw] at h2; exact absurd h2 (by simp)
      | cons y ys =>
        rw [hdw] at h2 h3 hsplit
        simp only [List.head?_cons, Option.some.injEq] at h2
        subst h2
        exact ⟨ds.takeWhile isdigit, ys, hsplit.symm, htake, h3⟩

theorem notIdChar_notDigit {x : Char} (h : isIdChar x = false) : isdigit x = false := by
  cases hd : isdigit x with
  | false => rfl
  | true => rw [digit_isIdChar hd] at h; exact absurd h (by decide)

namespace Lexer

theorem string_eta (s : String) : (⟨s.data⟩ : String) = s := rfl

/-- A word in front of the scanner, followed by a character that cannot
continue it, is the next token. -/
theorem tokens_isWord {l : Lexer} (w : String) {r : List Char} (hw : isWord w = true)
    (h : l.rest = w.data ++ r) (hr : ∀ x ∈ r.head?, isIdChar x = false) :
    tokens l = wordToken w :: tokens (l.skip w.length) := by
  obtain ⟨c, cs, hd, hc, hcs⟩ := isWord_shape hw
  rw [hd] at h
  have := tokens_word h hc hcs hr
  rw [← hd, string_eta] at this
  rw [this]
  have hlen : w.length = cs.length + 1 := by
    show w.data.length = _
    rw [hd]
    rfl
  rw [hlen]

/-- A numeric literal in front of the scanner, followed by a character that is
neither a digit nor a dot, is the next token. -/
theorem tokens_isNumber {l : Lexer} (v : String) {r : List Char} (hv : isNumber v = true)
    (h : l.rest = v.data ++ r) (hr : ∀ x ∈ r.head?, isdigit x = false ∧ x ≠ '.') :
    ∃ t, (t.type = TokenType.INT ∨ t.type = TokenType.FLOAT) ∧ t.lexeme = v
      ∧ tokens l = t :: tokens (l.skip v.length) := by
  obtain ⟨d, ds, hd, hc, hds⟩ := isNumber_shape hv
  have hlen : v.length = ds.length + 1 := by
    show v.data.length = _
    rw [hd]
    rfl
  rcases hds with hds | ⟨d1, d2, rfl, hd1, hd2⟩
  · rw [hd] at h
    refine ⟨⟨TokenType.INT, v⟩, Or.inl rfl, rfl, ?_⟩
    have := tokens_int h hc hds hr
    rw [← hd, string_eta] at this
    rw [this, hlen]
  · rw [hd] at h
    refine ⟨⟨TokenType.FLOAT, v⟩, Or.inr rfl, rfl, ?_⟩
    have h' : l.rest = d :: d1 ++ '.' :: (d2 ++ r) := by
      rw [h]
      simp only [List.cons_append, List.append_assoc]
    have := tokens_float h' hc hd1 hd2 (fun x hx => (hr x hx).1)
    have e : (⟨d :: d1 ++ '.' :: d2⟩ : String) = v := by
      rw [← string_eta v, hd]
      simp only [List.cons_append]
    rw [e] at this
    rw [this, hlen]
    simp only [List.length_cons, List.length_append]
    rw [show d1.length + 1 + 1 + d2.length = d1.length + (d2.length + 1) + 1 by omega]

end Lexer

end Compiler

namespace Compiler

namespace Lexer

/-! ## The tokens of a declaration -/

/-- A type keyword, one space and an identifier in front of the scanner. -/
theorem tokens_type_name (T n : String) (hT : T = "int" ∨ T = "float")
    (hn : isIdentifier n = true) {l : Lexer} {r : List Char}
    (h : l.rest = T.data ++ ' ' :: (n.data ++ r)) (hr : ∀ x ∈ r.head?, isIdChar x = false) :
    ∃ ty, isType ty = true ∧ ((l.skip T.length).advance.skip n.length).rest = r
      ∧ tokens l = ty :: ⟨TokenType.IDENTIFIER, n⟩
          :: tokens ((l.skip T.length).advance.skip n.length) := by
  unfold isIdentifier at hn
  simp only [Bool.and_eq_true, decide_eq_true_eq] at hn
  have hTw : isWord T = true := by rcases hT with rfl | rfl <;> decide
  have hTt : isType (wordToken T) = true := by rcases hT with rfl | rfl <;> decide
  have h1 := tokens_isWord T hTw h (by intro x hx; cases hx; decide)
  have r1 : (l.skip T.length).rest = ' ' :: (n.data ++ r) := skip_rest_append h
  have h2 := tokens_space r1 (by decide)
  have r2 : (l.skip T.length).advance.rest = n.data ++ r := (rest_cons r1).2.2
  have h3 := tokens_isWord n hn.1 r2 hr
  have r3 : ((l.skip T.length).advance.skip n.length).rest = r := skip_rest_append r2
  refine ⟨wordToken T, hTt, r3, ?_⟩
  rw [h1, h2, h3, wordToken_identifier hn.2]

/-- A primary operand in front of the scanner, followed by `;`. -/
theorem tokens_primary (v : String) (hv : isIdentifier v = true ∨ isNumber v = true)
    {l : Lexer} {r : List Char} (h : l.rest = v.data ++ ';' :: r) :
    ∃ t, isPrimary t = true ∧ t.lexeme = v ∧ (l.skip v.length).rest = ';' :: r
      ∧ tokens l = t :: tokens (l.skip v.length) := by
  have hrest : (l.skip v.length).rest = ';' :: r := skip_rest_append h
  rcases hv with hv | hv
  · unfold isIdentifier at hv
    simp only [Bool.and_eq_true, decide_eq_true_eq] at hv
    refine ⟨⟨TokenType.IDENTIFIER, v⟩, rfl, rfl, hrest, ?_⟩
    rw [tokens_isWord v hv.1 h (by intro x hx; cases hx; decide), wordToken_identifier hv.2]
  · obtain ⟨t, ht, hl, htok⟩ := tokens_isNumber v hv h (by intro x hx; cases hx; decide)
    refine ⟨t, ?_, hl, hrest, htok⟩
    rw [Parser.isPrimary_iff]
    exact Or.inr ht

end Lexer

/-- The tokens of the source `T n = v;`. -/
theorem tokens_declInit_source (T n v : String) (hT : T = "int" ∨ T = "float")
    (hn : isIdentifier n = true) (hv : isIdentifier v = true ∨ isNumber v = true) :
    ∃ ty t, isType ty = true ∧ isPrimary t = true ∧ t.lexeme = v
      ∧ (Lexer.new (T ++ " " ++ n ++ " = " ++ v ++ ";")).tokens
          = [ty, ⟨TokenType.IDENTIFIER, n⟩, assignTok, t, semicolon] := by
  have h0 : (Lexer.new (T ++ " " ++ n ++ " = " ++ v ++ ";")).rest
      = T.data ++ ' ' :: (n.data ++ ' ' :: '=' :: ' ' :: (v.data ++ [';'])) := by
    show (T ++ " " ++ n ++ " = " ++ v ++ ";").data.drop 0 = _
    simp only [List.drop_zero, String.data_append, List.append_assoc]
    rfl
  obtain ⟨ty, hty, r3, htok⟩ := Lexer.tokens_type_name T n hT hn h0
    (by intro x hx; cases hx; decide)
  have h4 := Lexer.tokens_space r3 (by decide)
  have r4 := (Lexer.rest_cons r3).2.2
  have h5 := Lexer.tokens_char r4 (by decide) (by decide) (by decide)
  have r5 := (Lexer.rest_cons r4).2.2
  have h6 := Lexer.tokens_space r5 (by decide)
  have r6 := (Lexer.rest_cons r5).2.2
  obtain ⟨t, ht, hl, r7, h7⟩ := Lexer.tokens_primary v hv r6
  have h8 := Lexer.tokens_char r7 (by decide) (by decide) (by decide)
  have r8 := (Lexer.rest_cons r7).2.2
  have h9 := Lexer.tokens_nil r8
  refine ⟨ty, t, hty, ht, hl, ?_⟩
  rw [htok, h4, h5, h6, h7, h8, h9]
  rfl

/-- The tokens of the source `T n;`. -/
theorem tokens_decl_source (T n : String) (hT : T = "int" ∨ T = "float")
    (hn : isIdentifier n = true) :
    ∃ ty, isType ty = true
      ∧ (Lexer.new (T ++ " " ++ n ++ ";")).tokens
          = [ty, ⟨TokenType.IDENTIFIER, n⟩, semicolon] := by
  have h0 : (Lexer.new (T ++ " " ++ n ++ ";")).rest = T.data ++ ' ' :: (n.data ++ [';']) := by
    show (T ++ " " ++ n ++ ";").data.drop 0 = _
    simp only [List.drop_zero, String.data_append, List.append_assoc]
    rfl
  obtain ⟨ty, hty, r3, htok⟩ := Lexer.tokens_type_name T n hT hn h0
    (by intro x hx; cases hx; decide)
  have h8 := Lexer.tokens_char r3 (by decide) (by decide) (by decide)
  have r8 := (Lexer.rest_cons r3).2.2
  have h9 := Lexer.tokens_nil r8
  refine ⟨ty, hty, ?_⟩
  rw [htok, h8, h9]
  rfl

end Compiler

namespace Compiler

namespace Parser

/-! ## Every rule only adds to the two streams -/

/-- The top-level loop first translates the well-formed statements that the
source starts with, and goes on from there. -/
theorem parse_after_statements (ss : List Stmt) : ∀ (f : Nat) (p q : Parser) (rest : List Token),
    wfStmts ss = true → p.Reads (renderStmts ss ++ rest) → stmtsClosedBy ss rest →
    parse f p = some q →
    ∃ f1 q1, parse f1 q1 = some q ∧ Emits p q1 (linesStmts ss) rest := by
  induction ss with
  | nil =>
    intro f p q rest _ hr _ h
    exact ⟨f, p, h, emits_refl hr⟩
  | cons s ss ih =>
    intro f p q rest hwf hr hcl h
    cases f with
    | zero => rw [parse] at h; cases h
    | succ f =>
      rw [parse_succ] at h
      simp only [wfStmts, Bool.and_eq_true] at hwf
      rw [renderStmts, List.append_assoc] at hr
      obtain ⟨t, ts, hts, hst⟩ := s.render_head hwf.1
      have t0 : p.current_token = t := by
        have := hr.1
        rw [hts] at this
        exact this
      obtain ⟨n1, n2, -, -, -⟩ := startsStmt_type hst
      rw [t0, if_pos ⟨n1, n2⟩] at h
      obtain ⟨q1, hq1, h⟩ := Option.bind_eq_some.mp h
      have hs : s.closedBy (renderStmts ss ++ rest) := by
        cases ss with
        | nil => exact hcl
        | cons s2 ss2 =>
          intro _
          simp only [wfStmts, Bool.and_eq_true] at hwf
          obtain ⟨t2, ts2, hts2, hst2⟩ := s2.render_head hwf.2.1
          rw [renderStmts, hts2]
          exact (startsStmt_type hst2).2.2.2.2
      have hcl2 : stmtsClosedBy ss rest := by
        cases ss with
        | nil => trivial
        | cons s2 ss2 => exact hcl
      have h1 := (rules_sound (f + 1)).2.2.2.2 s p q1 _ hwf.1 hr hs hq1
      obtain ⟨f1, q2, hq2, h2⟩ := ih f q1 q rest hwf.2 h1.1 hcl2 h
      refine ⟨f1, q2, hq2, ?_⟩
      have := h1.append h2
      rw [linesStmts]
      exact this

/-- The expression rule on any tokens: what it leaves to read, and that it
writes no diagnostic. -/
theorem parseExpression_reads (p : Parser) (ts : List Token) (hr : p.Reads ts) :
    (parseExpression p).Reads (afterExpression ts) ∧ (parseExpression p).cerr = p.cerr := by
  have t0 : p.current_token = ts.headD endToken := hr.1
  unfold parseExpression afterExpression
  simp only []
  by_cases hp : isPrimary (ts.headD endToken) = true
  · have hp' := (isPrimary_iff _).mp hp
    rw [t0, if_pos hp', if_pos hp]
    have r1 : (p.emit ("load " ++ (ts.headD endToken).lexeme ++ " into eax")).advance.Reads
        ts.tail := reads_advance (reads_emit _ hr)
    have t1 := r1.1
    rw [t1]
    by_cases ho : isOperator (ts.tail.headD endToken) = true
    · rw [if_pos ho]
      have r3 := reads_advance (reads_advance r1)
      unfold isOperator at ho
      simp only [Bool.or_eq_true, decide_eq_true_eq] at ho
      rcases ho with (ho | ho) | ho <;>
        simp only [ho, reduceCtorEq, ↓reduceIte] <;>
        exact ⟨reads_advance (reads_emit _ (reads_advance r1)),
          by simp only [advance_cerr, emit_cerr]⟩
    · rw [if_neg ho]
      simp only [Bool.not_eq_true] at ho
      obtain ⟨n1, n2, n3⟩ := isOperator_false _ ho
      rw [if_neg n1, if_neg n2, if_neg n3]
      exact ⟨r1, by simp only [advance_cerr, emit_cerr]⟩
  · have hp' : ¬ ((ts.headD endToken).type = TokenType.IDENTIFIER
        ∨ (ts.headD endToken).type = TokenType.INT
        ∨ (ts.headD endToken).type = TokenType.FLOAT) := fun h => hp ((isPrimary_iff _).mpr h)
    rw [t0, if_neg hp', if_neg hp, t0]
    by_cases ho : isOperator (ts.headD endToken) = true
    · rw [if_pos ho]
      unfold isOperator at ho
      simp only [Bool.or_eq_true, decide_eq_true_eq] at ho
      rcases ho with (ho | ho) | ho <;>
        simp only [ho, reduceCtorEq, ↓reduceIte] <;>
        exact ⟨reads_advance (reads_emit _ (reads_advance hr)),
          by simp only [advance_cerr, emit_cerr]⟩
    · rw [if_neg ho]
      simp only [Bool.not_eq_true] at ho
      obtain ⟨n1, n2, n3⟩ := isOperator_false _ ho
      rw [if_neg n1, if_neg n2, if_neg n3]
      exact ⟨hr, rfl⟩

end Parser

end Compiler

namespace Compiler

namespace Parser

/-! ## The diagnostics of the top-level rules -/

theorem unexpectedToken_cerr (p : Parser) :
    p.unexpectedToken.cerr = p.cerr
      ++ ["Syntax error: Unexpected token \x27" ++ p.current_token.lexeme ++ "\x27"] := by
  unfold unexpectedToken
  rw [advance_cerr, report_cerr]

end Parser

end Compiler

namespace Compiler

/-! ## Lengths of rendered statements -/

theorem renderStmts_append (a b : List Stmt) :
    renderStmts (a ++ b) = renderStmts a ++ renderStmts b := by
  induction a with
  | nil => rfl
  | cons s a ih => rw [List.cons_append, renderStmts, renderStmts, ih, List.append_assoc]

theorem linesStmts_append (a b : List Stmt) :
    linesStmts (a ++ b) = linesStmts a ++ linesStmts b := by
  induction a with
  | nil => rfl
  | cons s a ih => rw [List.cons_append, linesStmts, linesStmts, ih, List.append_assoc]

theorem wfStmts_append (a b : List Stmt) (ha : wfStmts a = true) (hb : wfStmts b = true) :
    wfStmts (a ++ b) = true := by
  induction a with
  | nil => exact hb
  | cons s a ih =>
    rw [wfStmts, Bool.and_eq_true] at ha
    rw [List.cons_append, wfStmts, Bool.and_eq_true]
    exact ⟨ha.1, ih ha.2⟩

/-- The translation of a source whose tokens are well-formed statements, one of
which is singled out: the lines of the statements before it, its own lines and
the lines of the statements after it. -/
theorem translate_statement (src : String) (pre post : List Stmt) (s : Stmt)
    (hpre : wfStmts pre = true) (hs : s.wf = true) (hpost : wfStmts post = true)
    (htoks : (Lexer.new src).tokens = renderStmts pre ++ s.render ++ renderStmts post) :
    ∃ q, translate src = some q
      ∧ q.output = linesStmts pre ++ s.lines ++ linesStmts post ∧ q.cerr = [] := by
  have hwf : wfStmts (pre ++ s :: post) = true :=
    wfStmts_append pre (s :: post) hpre (by rw [wfStmts, hs, hpost]; rfl)
  obtain ⟨q, hq, hout, herr, -⟩ := translate_sound src (pre ++ s :: post) [] hwf
    (by rw [htoks, renderStmts_append, renderStmts, List.append_nil, List.append_assoc])
    (Or.inl rfl)
  refine ⟨q, hq, ?_, herr⟩
  rw [hout, linesStmts_append, linesStmts, List.append_assoc]

namespace Lexer

theorem calls_pos_mono (l : Lexer) {m n : Nat} (h : m ≤ n) :
    (calls m l).current_pos ≤ (calls n l).current_pos := by
  induction h with
  | refl => exact Nat.le_refl _
  | step _ ih =>
    rw [calls_succ]
    exact Nat.le_trans ih (getNextToken_pos_ge _)

theorem string_data_append3 (a b c : String) :
    (a ++ b ++ c).data = a.data ++ (b.data ++ c.data) := by
  simp only [String.data_append, List.append_assoc]

end Lexer

end Compiler

namespace Compiler

/-! ## Words -/

theorem wordToken_eq_spec (w : String) : Lexer.wordToken w = ⟨specWordKind w, w⟩ := by
  unfold Lexer.wordToken specWordKind
  split_ifs with h1 h2 h3 h4 h5 h6
  · rw [h1]
  · rw [h2]
  · rw [h3]
  · rw [h4]
  · rw [h5]
  · rw [h6]
  · rfl

namespace Parser

/-! ## The expression rule on any tokens -/

theorem afterExpression_eq (ts : List Token) :
    afterExpression ts
      = if isOperator ((afterPrimary ts).headD endToken) = true then (afterPrimary ts).tail.tail
        else afterPrimary ts := rfl

theorem operatorLines_of_not_operator {t : Token} (h : isOperator t = false) (s : String) :
    operatorLines t s = [] := by
  obtain ⟨n1, n2, n3⟩ := isOperator_false t h
  unfold operatorLines
  rw [if_neg n1, if_neg n2, if_neg n3]

/-- The lines that the expression rule writes, on any tokens. -/
theorem parseExpression_output (p : Parser) (ts : List Token) (hr : p.Reads ts) :
    (parseExpression p).output = p.output ++ expressionLines ts := by
  have t0 : p.current_token = ts.headD endToken := hr.1
  unfold parseExpression expressionLines loadLines afterPrimary
  simp only []
  by_cases hp : isPrimary (ts.headD endToken) = true
  · have hp' := (isPrimary_iff _).mp hp
    rw [t0, if_pos hp', if_pos hp, if_pos hp]
    have r1 : (p.emit ("load " ++ (ts.headD endToken).lexeme ++ " into eax")).advance.Reads
        ts.tail := reads_advance (reads_emit _ hr)
    have t1 := r1.1
    have t2 := (reads_advance r1).1
    rw [t1, t2]
    unfold operatorLines
    by_cases h1 : (ts.tail.headD endToken).type = TokenType.GREATER_THAN
    · rw [if_pos h1, if_pos h1]
      simp only [advance_output, emit_output, List.append_assoc]
    rw [if_neg h1, if_neg h1]
    by_cases h2 : (ts.tail.headD endToken).type = TokenType.MINUS
    · rw [if_pos h2, if_pos h2]
      simp only [advance_output, emit_output, List.append_assoc]
    rw [if_neg h2, if_neg h2]
    by_cases h3 : (ts.tail.headD endToken).type = TokenType.PLUS
    · rw [if_pos h3, if_pos h3]
      simp only [advance_output, emit_output, List.append_assoc]
    rw [if_neg h3, if_neg h3]
    simp only [advance_output, emit_output, List.append_nil]
  · have hp' : ¬ ((ts.headD endToken).type = TokenType.IDENTIFIER
        ∨ (ts.headD endToken).type = TokenType.INT
        ∨ (ts.headD endToken).type = TokenType.FLOAT) := fun h => hp ((isPrimary_iff _).mpr h)
    rw [t0, if_neg hp', if_neg hp, if_neg hp, t0]
    have t2 := (reads_advance hr).1
    rw [t2]
    unfold operatorLines
    by_cases h1 : (ts.headD endToken).type = TokenType.GREATER_THAN
    · rw [if_pos h1, if_pos h1]
      simp only [advance_output, emit_output, List.nil_append]
    rw [if_neg h1, if_neg h1]
    by_cases h2 : (ts.headD endToken).type = TokenType.MINUS
    · rw [if_pos h2, if_pos h2]
      simp only [advance_output, emit_output, List.nil_append]
    rw [if_neg h2, if_neg h2]
    by_cases h3 : (ts.headD endToken).type = TokenType.PLUS
    · rw [if_pos h3, if_pos h3]
      simp only [advance_output, emit_output, List.nil_append]
    rw [if_neg h3, if_neg h3]
    simp only [List.nil_append, List.append_nil]

/-- The optional `;` at the end of a rule: it is consumed when it is the
lookahead. -/
theorem semicolon_step (q : Parser) (ts : List Token) (h : q.Reads ts) :
    (if q.current_token.type = TokenType.SEMICOLON then q.advance else q).output = q.output
      ∧ (if q.current_token.type = TokenType.SEMICOLON then q.advance else q).cerr = q.cerr
      ∧ (if q.current_token.type = TokenType.SEMICOLON then q.advance else q).Reads
          (if (ts.headD endToken).type = TokenType.SEMICOLON then ts.tail else ts) := by
  have t0 : q.current_token = ts.headD endToken := h.1
  rw [t0]
  by_cases hs : (ts.headD endToken).type = TokenType.SEMICOLON
  · rw [if_pos hs, if_pos hs]
    exact ⟨advance_output q, advance_cerr q, reads_advance h⟩
  · rw [if_neg hs, if_neg hs]
    exact ⟨rfl, rfl, h⟩

/-- The `)` expected by `parsePrintStatement` (lines 235-239): consumed when it
is the lookahead, reported and left unread otherwise. -/
theorem print_paren_step (q : Parser) (ts : List Token) (h : q.Reads ts) :
    (if q.current_token.type ≠ TokenType.RPAREN then
        q.report "Syntax error: Expected \x27)\x27 after print statement"
      else q.advance).output = q.output
    ∧ ((ts.headD endToken).type = TokenType.RPAREN →
        (if q.current_token.type ≠ TokenType.RPAREN then
            q.report "Syntax error: Expected \x27)\x27 after print statement"
          else q.advance).cerr = q.cerr
        ∧ (if q.current_token.type ≠ TokenType.RPAREN then
            q.report "Syntax error: Expected \x27)\x27 after print statement"
          else q.advance).Reads ts.tail)
    ∧ ((ts.headD endToken).type ≠ TokenType.RPAREN →
        (if q.current_token.type ≠ TokenType.RPAREN then
            q.report "Syntax error: Expected \x27)\x27 after print statement"
          else q.advance).cerr
            = q.cerr ++ ["Syntax error: Expected \x27)\x27 after print statement"]
        ∧ (if q.current_token.type ≠ TokenType.RPAREN then
            q.report "Syntax error: Expected \x27)\x27 after print statement"
          else q.advance).Reads ts) := by
  have t0 : q.current_token = ts.headD endToken := h.1
  rw [t0]
  by_cases hp : (ts.headD endToken).type = TokenType.RPAREN
  · rw [if_neg (fun hn => hn hp)]
    exact ⟨advance_output q, fun _ => ⟨advance_cerr q, reads_advance h⟩, fun hn => absurd hp hn⟩
  · rw [if_pos hp]
    exact ⟨report_output _ _, fun hn => absurd hn hp,
      fun _ => ⟨report_cerr _ _, reads_report _ h⟩⟩

end Parser

end Compiler

namespace Compiler

namespace Parser

/-! ## More fuel changes nothing -/

theorem bind_mono {f g : Parser → Option Parser} {x y : Option Parser} {q : Parser}
    (hx : ∀ a, x = some a → y = some a) (hg : ∀ a b, f a = some b → g a = some b)
    (h : x.bind f = some q) : y.bind g = some q := by
  obtain ⟨a, ha, hb⟩ := Option.bind_eq_some.mp h
  rw [hx a ha]
  exact hg a q hb

/-- A rule that returns with fuel `f` returns the same state with fuel `f + 1`. -/
theorem rules_fuel_succ (f : Nat) :
    (∀ p q, parseIfStatement f p = some q → parseIfStatement (f + 1) p = some q)
    ∧ (∀ p q, parseWhileLoop f p = some q → parseWhileLoop (f + 1) p = some q)
    ∧ (∀ p q, parseBlock f p = some q → parseBlock (f + 1) p = some q)
    ∧ (∀ p q, blockLoop f p = some q → blockLoop (f + 1) p = some q)
    ∧ (∀ p q, parseStatement f p = some q → parseStatement (f + 1) p = some q) := by
  induction f with
  | zero =>
    refine ⟨?_, ?_, ?_, ?_, ?_⟩
    · intro p q h; rw [parseIfStatement] at h; cases h
    · intro p q h; rw [parseWhileLoop] at h; cases h
    · intro p q h; rw [parseBlock] at h; cases h
    · intro p q h; rw [blockLoop] at h; cases h
    · intro p q h; rw [parseStatement] at h; cases h
  | succ f ih =>
    obtain ⟨hI, hW, hB, hL, hS⟩ := ih
    refine ⟨?_, ?_, ?_, ?_, ?_⟩
    · intro p q h
      rw [parseIfStatement] at h ⊢
      by_cases h1 : p.advance.current_token.type = TokenType.LPAREN
      · rw [if_pos h1] at h ⊢
        by_cases h2 : (parseExpression p.advance.advance).current_token.type = TokenType.RPAREN
        · rw [if_pos h2] at h ⊢
          refine bind_mono (hB _) ?_ h
          intro a b hab
          by_cases h3 : a.current_token.type = TokenType.ELSE
          · rw [if_pos h3] at hab ⊢
            exact hB _ _ hab
          · rw [if_neg h3] at hab ⊢
            exact hab
        · rw [if_neg h2] at h ⊢
          exact h
      · rw [if_neg h1] at h ⊢
        exact h
    · intro p q h
      rw [parseWhileLoop] at h ⊢
      by_cases h1 : (p.advance.emit "label:").current_token.type = TokenType.LPAREN
      · rw [if_pos h1] at h ⊢
        by_cases h2 : (parseExpression (p.advance.emit "label:").advance).current_token.type
            = TokenType.RPAREN
        · rw [if_pos h2] at h ⊢
          exact bind_mono (hB _) (fun a b hab => hab) h
        · rw [if_neg h2] at h ⊢
          exact h
      · rw [if_neg h1] at h ⊢
        exact h
    · intro p q h
      rw [parseBlock] at h ⊢
      by_cases h1 : p.current_token.type = TokenType.LBRACE
      · rw [if_pos h1] at h ⊢
        exact bind_mono (hL _) (fun a b hab => hab) h
      · rw [if_neg h1] at h ⊢
        exact hS _ _ h
    · intro p q h
      rw [blockLoop] at h ⊢
      by_cases hc : p.current_token.type ≠ TokenType.RBRACE
          ∧ p.current_token.type ≠ TokenType.END
      · rw [if_pos hc] at h ⊢
        refine bind_mono ?_ hL h
        intro a ha
        by_cases h1 : p.current_token.type = TokenType.ERROR
        · rw [if_pos h1] at ha ⊢
          exact ha
        · rw [if_neg h1] at ha ⊢
          exact hS _ _ ha
      · rw [if_neg hc] at h ⊢
        exact h
    · intro p q h
      rw [parseStatement] at h ⊢
      by_cases h0 : p.current_token.type = TokenType.END
      · rw [if_pos h0] at h ⊢; exact h
      rw [if_neg h0] at h ⊢
      by_cases h1 : p.current_token.type = TokenType.ERROR
      · rw [if_pos h1] at h ⊢; exact h
      rw [if_neg h1] at h ⊢
      by_cases h2 : p.current_token.type = TokenType.INT ∨ p.current_token.type = TokenType.FLOAT
      · rw [if_pos h2] at h ⊢; exact h
      rw [if_neg h2] at h ⊢
      by_cases h3 : p.current_token.type = TokenType.IDENTIFIER
      · rw [if_pos h3] at h ⊢; exact h
      rw [if_neg h3] at h ⊢
      by_cases h4 : p.current_token.type = TokenType.IF
      · rw [if_pos h4] at h ⊢; exact hI _ _ h
      rw [if_neg h4] at h ⊢
      by_cases h5 : p.current_token.type = TokenType.WHILE
      · rw [if_pos h5] at h ⊢; exact hW _ _ h
      rw [if_neg h5] at h ⊢
      exact h

theorem parse_fuel_succ (f : Nat) : ∀ p q, parse f p = some q → parse (f + 1) p = some q := by
  induction f with
  | zero => intro p q h; rw [parse] at h; cases h
  | succ f ih =>
    intro p q h
    rw [parse_succ] at h ⊢
    by_cases hc : p.current_token.type ≠ TokenType.END
        ∧ p.current_token.type ≠ TokenType.ERROR
    · rw [if_pos hc] at h ⊢
      exact bind_mono ((rules_fuel_succ (f + 1)).2.2.2.2 p) ih h
    · rw [if_neg hc] at h ⊢
      exact h

/-- The result of the top-level loop does not depend on the fuel, once there
is enough of it. -/
theorem parse_fuel_le {f f' : Nat} (hle : f ≤ f') {p q : Parser} (h : parse f p = some q) :
    parse f' p = some q := by
  induction hle with
  | refl => exact h
  | step _ ih => exact parse_fuel_succ _ _ _ ih

/-! ## The call rule on any arguments -/

/-- The call rule discards the tokens up to the first `)`, writes `call` and
the name, and consumes a `;` met next. -/
theorem parseFunctionCall_first_paren (name : Token) (args : List Token) (p : Parser)
    (rest : List Token)
    (hargs : ∀ t ∈ args, t.type ≠ TokenType.RPAREN ∧ t.type ≠ TokenType.END)
    (hr : p.Reads (name :: lparen :: (args ++ rparen :: rest))) :
    (parseAssignmentOrFunctionCall p).output = p.output ++ ["call " ++ name.lexeme]
      ∧ (parseAssignmentOrFunctionCall p).cerr = p.cerr
      ∧ (parseAssignmentOrFunctionCall p).Reads
          (if (rest.headD endToken).type = TokenType.SEMICOLON then rest.tail else rest) := by
  have r1 := reads_advance_cons hr
  have r2 := reads_advance_cons r1
  have t0 : p.current_token = name := hr.1
  have t1 : p.advance.current_token = lparen := r1.1
  have hlen := reads_length_le r2
  obtain ⟨hR, hO, hC⟩ := skipArguments_sound args
    (p.advance.advance.lexer.input.length - p.advance.advance.lexer.current_pos + 1)
    p.advance.advance rest
    (by rw [List.length_append] at hlen; omega) hargs r2
  have t3 : (skipArguments
    (p.advance.advance.lexer.input.length - p.advance.advance.lexer.current_pos + 1)
    p.advance.advance).current_token = rparen := hR.1
  have r4 := reads_advance_cons hR
  have t4 : (skipArguments
    (p.advance.advance.lexer.input.length - p.advance.advance.lexer.current_pos + 1)
    p.advance.advance).advance.current_token = rest.headD endToken := r4.1
  have r4e := reads_emit ("call " ++ name.lexeme) r4
  by_cases hsemi : (rest.headD endToken).type = TokenType.SEMICOLON
  · have r5 := reads_advance r4e
    simp only [parseAssignmentOrFunctionCall, t0, t1, t3, t4, hsemi, lparen, rparen,
      reduceCtorEq, ↓reduceIte, emit_current_token]
    exact ⟨by simp only [advance_output, emit_output, hO, List.append_nil],
      by simp only [advance_cerr, emit_cerr, hC], r5⟩
  · simp only [parseAssignmentOrFunctionCall, t0, t1, t3, t4, hsemi, lparen, rparen,
      reduceCtorEq, ↓reduceIte, emit_current_token]
    exact ⟨by simp only [advance_output, emit_output, hO, List.append_nil],
      by simp only [advance_cerr, emit_cerr, hC], r4e⟩

end Parser

end Compiler

namespace Compiler

/-- Statements followed by a token that is not `else` leave no `else` to take. -/
theorem stmtsClosedBy_of_head (ss : List Stmt) (rest : List Token)
    (h : (rest.headD endToken).type ≠ TokenType.ELSE) : stmtsClosedBy ss rest := by
  induction ss with
  | nil => trivial
  | cons s ss ih =>
    cases ss with
    | nil => exact fun _ => h
    | cons s2 ss2 => exact ih

namespace Parser

/-! ## An `ERROR` token inside a block -/

/-- Skipping an unexpected token: one diagnostic, nothing written, one token
consumed. -/
theorem unexpectedToken_reads {p : Parser} {c : Token} {ts : List Token}
    (hr : p.Reads (c :: ts)) :
    p.unexpectedToken.Reads ts ∧ p.unexpectedToken.output = p.output
      ∧ p.unexpectedToken.cerr
        = p.cerr ++ ["Syntax error: Unexpected token \x27" ++ c.lexeme ++ "\x27"] := by
  have t0 : p.current_token = c := hr.1
  refine ⟨?_, ?_, ?_⟩
  · unfold unexpectedToken
    exact reads_advance_cons (reads_report _ hr)
  · unfold unexpectedToken
    rw [advance_output, report_output]
  · rw [unexpectedToken_cerr, t0]

/-- The loop of a block over well-formed statements that are followed by
anything: it goes on, after them, from the state that has their lines. -/
theorem blockLoop_after_statements (ss : List Stmt) :
    ∀ (f : Nat) (p q : Parser) (rest : List Token),
    wfStmts ss = true → p.Reads (renderStmts ss ++ rest) → stmtsClosedBy ss rest →
    blockLoop f p = some q →
    ∃ f1 q1, blockLoop f1 q1 = some q ∧ Emits p q1 (linesStmts ss) rest := by
  induction ss with
  | nil =>
    intro f p q rest _ hr _ h
    exact ⟨f, p, h, emits_refl hr⟩
  | cons s ss ih =>
    intro f p q rest hwf hr hcl h
    cases f with
    | zero => rw [blockLoop] at h; cases h
    | succ f =>
      rw [blockLoop] at h
      simp only [wfStmts, Bool.and_eq_true] at hwf
      rw [renderStmts, List.append_assoc] at hr
      obtain ⟨t, ts, hts, hst⟩ := s.render_head hwf.1
      have t0 : p.current_token = t := by
        have := hr.1
        rw [hts] at this
        exact this
      obtain ⟨n1, n2, n3, -, -⟩ := startsStmt_type hst
      rw [t0, if_pos ⟨n3, n1⟩, if_neg n2] at h
      obtain ⟨q1, hq1, h⟩ := Option.bind_eq_some.mp h
      have hs : s.closedBy (renderStmts ss ++ rest) := by
        cases ss with
        | nil => exact hcl
        | cons s2 ss2 =>
          intro _
          simp only [wfStmts, Bool.and_eq_true] at hwf
          obtain ⟨t2, ts2, hts2, hst2⟩ := s2.render_head hwf.2.1
          rw [renderStmts, hts2]
          exact (startsStmt_type hst2).2.2.2.2
      have hcl2 : stmtsClosedBy ss rest := by
        cases ss with
        | nil => trivial
        | cons s2 ss2 => exact hcl
      have h1 := (rules_sound f).2.2.2.2 s p q1 _ hwf.1 hr hs hq1
      obtain ⟨f1, q2, hq2, h2⟩ := ih f q1 q rest hwf.2 h1.1 hcl2 h
      refine ⟨f1, q2, hq2, ?_⟩
      have := h1.append h2
      rw [linesStmts]
      exact this

/-- What follows an item inside a block is never an `else`. -/
theorem head_renderItems_ne_else (items : List Item) (hwf : wfItems items = true)
    (rest : List Token) :
    ((renderItems items ++ rbrace :: rest).headD endToken).type ≠ TokenType.ELSE := by
  cases items with
  | nil => exact fun h => TokenType.noConfusion h
  | cons i items =>
    simp only [wfItems, Bool.and_eq_true] at hwf
    cases i with
    | stmt s =>
      obtain ⟨t0, ts, hts, hst⟩ := s.render_head hwf.1
      rw [renderItems, Item.render, hts]
      exact (startsStmt_type hst).2.2.2.2
    | error c =>
      have hc : c.type = TokenType.ERROR := by simpa [Item.wf] using hwf.1
      rw [renderItems, Item.render]
      show c.type ≠ TokenType.ELSE
      rw [hc]
      exact fun h => TokenType.noConfusion h

/-- One turn of the loop of a block on an `ERROR` token: the token is reported
and skipped, and the loop goes on. -/
theorem blockLoop_error_step (f : Nat) (p : Parser) (c : Token) (ts : List Token)
    (hr : p.Reads (c :: ts)) (hc : c.type = TokenType.ERROR) :
    blockLoop (f + 1) p = blockLoop f p.unexpectedToken := by
  have t0 : p.current_token = c := hr.1
  rw [blockLoop, t0, hc, if_pos ⟨by decide, by decide⟩, if_pos rfl, Option.some_bind]

/-- The loop of a block over any items up to the closing brace: the lines of
the statements, and one diagnostic for each `ERROR` token. -/
theorem blockLoop_items (items : List Item) : ∀ (f : Nat) (p q : Parser) (rest : List Token),
    wfItems items = true → p.Reads (renderItems items ++ rbrace :: rest) →
    blockLoop f p = some q →
    q.Reads (rbrace :: rest) ∧ q.output = p.output ++ linesItems items
      ∧ q.cerr = p.cerr ++ diagnosticsItems items := by
  induction items with
  | nil =>
    intro f p q rest _ hr h
    have e := (rules_sound f).2.2.2.1 [] p q rest rfl hr h
    exact ⟨e.1, by rw [e.2.1]; rfl, by rw [e.2.2]; exact (List.append_nil _).symm⟩
  | cons i items ih =>
    intro f p q rest hwf hr h
    simp only [wfItems, Bool.and_eq_true] at hwf
    cases f with
    | zero => rw [blockLoop] at h; cases h
    | succ f =>
      cases i with
      | stmt s =>
        rw [renderItems, Item.render, List.append_assoc] at hr
        obtain ⟨t, ts, hts, hst⟩ := s.render_head hwf.1
        have t0 : p.current_token = t := by
          have := hr.1
          rw [hts] at this
          exact this
        obtain ⟨n1, n2, n3, -, -⟩ := startsStmt_type hst
        rw [blockLoop, t0, if_pos ⟨n3, n1⟩, if_neg n2] at h
        obtain ⟨q1, hq1, h⟩ := Option.bind_eq_some.mp h
        have h1 := (rules_sound f).2.2.2.2 s p q1 _ hwf.1 hr
          (fun _ => head_renderItems_ne_else items hwf.2 rest) hq1
        obtain ⟨i1, i2, i3⟩ := ih f q1 q rest hwf.2 h1.1 h
        refine ⟨i1, ?_, ?_⟩
        · rw [i2, h1.2.1, linesItems, Item.lines, List.append_assoc]
        · rw [i3, h1.2.2, diagnosticsItems, Item.diagnostics, List.nil_append]
      | error c =>
        have hc : c.type = TokenType.ERROR := by simpa [Item.wf] using hwf.1
        rw [renderItems, Item.render, List.singleton_append] at hr
        rw [blockLoop_error_step f p c _ hr hc] at h
        obtain ⟨u1, u2, u3⟩ := unexpectedToken_reads hr
        obtain ⟨i1, i2, i3⟩ := ih f p.unexpectedToken q rest hwf.2 u1 h
        refine ⟨i1, ?_, ?_⟩
        · rw [i2, u2, linesItems, Item.lines, List.nil_append]
        · rw [i3, u3, diagnosticsItems, Item.diagnostics, List.append_assoc]

/-- The block rule on a braced block of any items. -/
theorem parseBlock_items (items : List Item) (f : Nat) (p q : Parser)
    (rest : List Token) (hwf : wfItems items = true)
    (hr : p.Reads (lbrace :: (renderItems items ++ rbrace :: rest)))
    (h : parseBlock f p = some q) :
    q.Reads rest ∧ q.output = p.output ++ linesItems items
      ∧ q.cerr = p.cerr ++ diagnosticsItems items := by
  cases f with
  | zero => rw [parseBlock] at h; cases h
  | succ f =>
    rw [parseBlock] at h
    have t0 : p.current_token = lbrace := hr.1
    simp only [t0, lbrace, ↓reduceIte] at h
    obtain ⟨q1, hq1, h⟩ := Option.bind_eq_some.mp h
    obtain ⟨b1, b2, b3⟩ := blockLoop_items items f p.advance q1 rest hwf
      (reads_advance_cons hr) hq1
    have t1 : q1.current_token = rbrace := b1.1
    simp only [t1, rbrace, ↓reduceIte] at h
    rw [← Option.some.inj h]
    exact ⟨reads_advance_cons b1, by rw [advance_output, b2, advance_output],
      by rw [advance_cerr, b3, advance_cerr]⟩

/-- The `if` rule whose block is braced and holds any items, when no `else`
follows the block. -/
theorem parseIfStatement_items (e : Expr) (items : List Item) (f : Nat)
    (p q : Parser) (rest : List Token) (he : e.wf = true) (hwf : wfItems items = true)
    (hrest : (rest.headD endToken).type ≠ TokenType.ELSE)
    (hr : p.Reads (ifTok :: lparen :: (e.render ++ rparen :: lbrace
      :: (renderItems items ++ rbrace :: rest))))
    (h : parseIfStatement f p = some q) :
    q.Reads rest
      ∧ q.output = p.output ++ (e.lines ++ ["if eax != 0 jump label"] ++ linesItems items)
      ∧ q.cerr = p.cerr ++ diagnosticsItems items := by
  cases f with
  | zero => rw [parseIfStatement] at h; cases h
  | succ f =>
    have r1 := reads_advance_cons hr
    have r2 := reads_advance_cons r1
    have t1 : p.advance.current_token = lparen := r1.1
    obtain ⟨hR, hO, hC⟩ := parseExpression_sound e p.advance.advance _ he r2 rfl
    have t3 : (parseExpression p.advance.advance).current_token = rparen := hR.1
    have r4 := reads_emit "if eax != 0 jump label" (reads_advance_cons hR)
    rw [parseIfStatement] at h
    simp only [t1, t3, lparen, rparen, ↓reduceIte] at h
    obtain ⟨q3, hq3, h⟩ := Option.bind_eq_some.mp h
    obtain ⟨b1, b2, b3⟩ := parseBlock_items items f _ q3 rest hwf r4 hq3
    have t5 : q3.current_token = rest.headD endToken := b1.1
    rw [t5, if_neg hrest] at h
    rw [← Option.some.inj h]
    exact ⟨b1, by simp only [b2, emit_output, advance_output, hO, List.append_assoc],
      by simp only [b3, emit_cerr, advance_cerr, hC]⟩

end Parser

end Compiler

namespace Compiler

/-! ## The lexemes make up the input -/

theorem withoutWhitespace_cons_space {c : Char} (r : List Char) (h : isspace c = true) :
    withoutWhitespace (c :: r) = withoutWhitespace r := by
  unfold withoutWhitespace
  rw [List.filter_cons_of_neg (by rw [h]; decide)]

/-- Characters that are not whitespace stay in front. -/
theorem withoutWhitespace_append {a : List Char} (r : List Char)
    (h : ∀ x ∈ a, isspace x = false) :
    withoutWhitespace (a ++ r) = a ++ withoutWhitespace r := by
  unfold withoutWhitespace
  rw [List.filter_append]
  congr 1
  rw [List.filter_eq_self]
  intro x hx
  rw [h x hx]
  rfl

theorem idChar_not_space {c : Char} (h : isIdChar c = true) : isspace c = false := by
  cases hs : isspace c with
  | false => rfl
  | true =>
    rcases isspace_cases hs with rfl | rfl | rfl | rfl | rfl | rfl <;>
      exact absurd h (by decide)

theorem head_dropWhile {α : Type} (p : α → Bool) (l : List α) :
    ∀ x ∈ (l.dropWhile p).head?, p x = false := by
  induction l with
  | nil => intro x hx; cases hx
  | cons a l ih =>
    intro x hx
    cases hp : p a with
    | true => rw [List.dropWhile_cons_of_pos hp] at hx; exact ih x hx
    | false =>
      rw [List.dropWhile_cons_of_neg (by rw [hp]; decide)] at hx
      simp only [List.head?_cons, Option.mem_def, Option.some.injEq] at hx
      rw [← hx]; exact hp

theorem length_dropWhile_le {α : Type} (p : α → Bool) (l : List α) :
    (l.dropWhile p).length ≤ l.length := by
  have h := congrArg List.length (List.takeWhile_append_dropWhile p l)
  rw [List.length_append] at h
  omega

namespace Lexer

theorem charToken_lexeme (c : Char) : (charToken c).lexeme.data = [c] := by
  unfold charToken
  by_cases h1 : c = '+'
  · rw [if_pos h1, h1]
  rw [if_neg h1]
  by_cases h2 : c = '-'
  · rw [if_pos h2, h2]
  rw [if_neg h2]
  by_cases h3 : c = '*'
  · rw [if_pos h3, h3]
  rw [if_neg h3]
  by_cases h4 : c = '/'
  · rw [if_pos h4, h4]
  rw [if_neg h4]
  by_cases h5 : c = '='
  · rw [if_pos h5, h5]
  rw [if_neg h5]
  by_cases h6 : c = ';'
  · rw [if_pos h6, h6]
  rw [if_neg h6]
  by_cases h7 : c = '('
  · rw [if_pos h7, h7]
  rw [if_neg h7]
  by_cases h8 : c = ')'
  · rw [if_pos h8, h8]
  rw [if_neg h8]
  by_cases h9 : c = '\x7b'
  · rw [if_pos h9, h9]
  rw [if_neg h9]
  by_cases h10 : c = '\x7d'
  · rw [if_pos h10, h10]
  rw [if_neg h10]
  by_cases h11 : c = '>'
  · rw [if_pos h11, h11]
  rw [if_neg h11]
  rfl

/-- The lexemes of the tokens yet to come are the unread characters without
the whitespace, and none of them is empty. -/
theorem tokens_lexemes (n : Nat) : ∀ l : Lexer, l.rest.length ≤ n →
    (concatLexemes (tokens l)).data = withoutWhitespace l.rest
      ∧ ∀ t ∈ tokens l, t.lexeme.data ≠ [] := by
  induction n with
  | zero =>
    intro l hl
    have h : l.rest = [] := List.length_eq_zero.mp (Nat.le_zero.mp hl)
    rw [tokens_nil h, h]
    exact ⟨rfl, fun t ht => by cases ht⟩
  | succ n ih =>
    intro l hl
    cases h : l.rest with
    | nil =>
      rw [tokens_nil h]
      exact ⟨rfl, fun t ht => by cases ht⟩
    | cons c r =>
      rw [h] at hl
      have hr : r.length ≤ n := by
        rw [List.length_cons] at hl; omega
      have step : ∀ (t : Token) (l1 : Lexer) (a r1 : List Char), tokens l = t :: tokens l1 →
          c :: r = a ++ r1 → l1.rest = r1 → t.lexeme.data = a → a ≠ [] →
          (∀ x ∈ a, isspace x = false) →
          (concatLexemes (tokens l)).data = withoutWhitespace (c :: r)
            ∧ ∀ t ∈ tokens l, t.lexeme.data ≠ [] := by
        intro t l1 a r1 ht hsplit hl1 hlex hne hns
        have hlen : l1.rest.length ≤ n := by
          have h1 := congrArg List.length hsplit
          rw [List.length_append, List.length_cons] at h1
          have h2 : 0 < a.length := List.length_pos.mpr hne
          rw [hl1]; omega
        obtain ⟨i1, i2⟩ := ih l1 hlen
        rw [ht, hsplit]
        constructor
        · rw [concatLexemes, String.data_append, i1, hlex, hl1, withoutWhitespace_append _ hns]
        · intro t2 ht2
          rcases List.mem_cons.mp ht2 with rfl | h3
          · rw [hlex]; exact hne
          · exact i2 t2 h3
      by_cases hs : isspace c = true
      · rw [tokens_space h hs, withoutWhitespace_cons_space r hs]
        have hi := ih l.advance (by rw [(rest_cons h).2.2]; exact hr)
        rw [(rest_cons h).2.2] at hi
        exact hi
      have hs' : isspace c = false := by
        cases hc : isspace c with
        | false => rfl
        | true => exact absurd hc hs
      by_cases hd : isdigit c = true
      · have hsplit1 : r = r.takeWhile isdigit ++ r.dropWhile isdigit :=
          (List.takeWhile_append_dropWhile isdigit r).symm
        have hd1 : ∀ x ∈ r.takeWhile isdigit, isdigit x = true :=
          fun x hx => List.mem_takeWhile_imp hx
        have hh1 := head_dropWhile isdigit r
        cases hr1 : r.dropWhile isdigit with
        | nil =>
          rw [hr1, List.append_nil] at hsplit1
          have hrest : l.rest = c :: (r.takeWhile isdigit) ++ [] := by
            rw [h, List.append_nil, ← hsplit1]
          refine step _ _ (c :: r) [] (tokens_int hrest hd hd1 (fun x hx => by cases hx))
            (List.append_nil _).symm ?_ ?_ (List.cons_ne_nil _ _) ?_
          · exact skip_rest_append hrest
          · show c :: r.takeWhile isdigit = c :: r
            rw [← hsplit1]
          · intro x hx
            rcases List.mem_cons.mp hx with rfl | h3
            · exact hs'
            · rw [hsplit1] at h3; exact digit_not_space (hd1 x h3)
        | cons y r2 =>
          rw [hr1] at hsplit1 hh1
          have hy : isdigit y = false := hh1 y rfl
          by_cases hdot : y = '.'
          · have hsplit2 : r2 = r2.takeWhile isdigit ++ r2.dropWhile isdigit :=
              (List.takeWhile_append_dropWhile isdigit r2).symm
            have hd2 : ∀ x ∈ r2.takeWhile isdigit, isdigit x = true :=
              fun x hx => List.mem_takeWhile_imp hx
            have hrest : l.rest = c :: (r.takeWhile isdigit)
                ++ '.' :: (r2.takeWhile isdigit ++ r2.dropWhile isdigit) := by
              rw [h, ← hsplit2, ← hdot, List.cons_append, ← hsplit1]
            refine step _ _ (c :: (r.takeWhile isdigit) ++ '.' :: r2.takeWhile isdigit)
              (r2.dropWhile isdigit)
              (tokens_float hrest hd hd1 hd2 (head_dropWhile isdigit r2)) ?_
              (rest_after_float hrest) rfl (by simp) ?_
            · rw [← h, hrest]
              simp only [List.cons_append, List.append_assoc]
            · intro x hx
              simp only [List.cons_append, List.mem_cons, List.mem_append] at hx
              rcases hx with rfl | h3 | rfl | h3
              · exact hs'
              · exact digit_not_space (hd1 x h3)
              · decide
              · exact digit_not_space (hd2 x h3)
          · have hrest : l.rest = c :: (r.takeWhile isdigit) ++ y :: r2 := by
              rw [h, List.cons_append, ← hsplit1]
            refine step _ _ (c :: r.takeWhile isdigit) (y :: r2)
              (tokens_int hrest hd hd1 (fun x hx => by
                simp only [List.head?_cons, Option.mem_def, Option.some.injEq] at hx
                rw [← hx]; exact ⟨hy, hdot⟩))
              ?_ (skip_rest_append hrest) rfl (List.cons_ne_nil _ _) ?_
            · rw [← h, hrest]
            · intro x hx
              rcases List.mem_cons.mp hx with rfl | h3
              · exact hs'
              · exact digit_not_space (hd1 x h3)
      have hd' : isdigit c = false := by
        cases hc : isdigit c with
        | false => rfl
        | true => exact absurd hc hd
      by_cases ha : isalpha c = true
      · have hsplit1 : r = r.takeWhile isIdChar ++ r.dropWhile isIdChar :=
          (List.takeWhile_append_dropWhile isIdChar r).symm
        have hc1 : ∀ x ∈ r.takeWhile isIdChar, isIdChar x = true :=
          fun x hx => List.mem_takeWhile_imp hx
        have hrest : l.rest = c :: (r.takeWhile isIdChar) ++ r.dropWhile isIdChar := by
          rw [h, List.cons_append, ← hsplit1]
        refine step _ _ (c :: r.takeWhile isIdChar) (r.dropWhile isIdChar)
          (tokens_word hrest ha hc1 (head_dropWhile isIdChar r)) ?_
          (skip_rest_append hrest) (by rw [wordToken_lexeme]) (List.cons_ne_nil _ _) ?_
        · rw [← h, hrest]
        · intro x hx
          rcases List.mem_cons.mp hx with rfl | h3
          · exact hs'
          · exact idChar_not_space (hc1 x h3)
      have ha' : isalpha c = false := by
        cases hc : isalpha c with
        | false => rfl
        | true => exact absurd hc ha
      refine step _ _ [c] r (tokens_char h hs' hd' ha') rfl (rest_cons h).2.2
        (charToken_lexeme c) (List.cons_ne_nil _ _) ?_
      intro x hx
      rw [List.mem_singleton.mp hx]
      exact hs'

end Lexer

end Compiler

namespace Compiler

/-! ## Tokens that stand for each other -/

theorem alike_isType {t t' : Token} (h : alike t t') : isType t = isType t' := by
  rcases h with rfl | ⟨a, b⟩
  · rfl
  · rw [a, b]

theorem alike_eq {t t' : Token} (h : alike t t') (hn : isType t = false) : t = t' := by
  rcases h with h | ⟨a, _⟩
  · exact h
  · rw [a] at hn; cases hn

theorem alike_type_iff {t t' : Token} (h : alike t t') (K : TokenType)
    (h1 : K ≠ TokenType.INT) (h2 : K ≠ TokenType.FLOAT) : t.type = K ↔ t'.type = K := by
  rcases h with rfl | ⟨a, b⟩
  · rfl
  · constructor
    · intro hk
      rcases (isType_iff t).mp a with e | e
      · rw [e] at hk; exact absurd hk.symm h1
      · rw [e] at hk; exact absurd hk.symm h2
    · intro hk
      rcases (isType_iff t').mp b with e | e
      · rw [e] at hk; exact absurd hk.symm h1
      · rw [e] at hk; exact absurd hk.symm h2

theorem alike_type2_iff {t t' : Token} (h : alike t t') :
    (t.type = TokenType.INT ∨ t.type = TokenType.FLOAT)
      ↔ (t'.type = TokenType.INT ∨ t'.type = TokenType.FLOAT) := by
  rw [← isType_iff, ← isType_iff, alike_isType h]

theorem alike_primary_iff {t t' : Token} (h : alike t t') :
    (t.type = TokenType.IDENTIFIER ∨ t.type = TokenType.INT ∨ t.type = TokenType.FLOAT)
      ↔ (t'.type = TokenType.IDENTIFIER ∨ t'.type = TokenType.INT
          ∨ t'.type = TokenType.FLOAT) :=
  or_congr (alike_type_iff h _ (by decide) (by decide)) (alike_type2_iff h)

theorem isType_false_of_type {t : Token} {K : TokenType} (hk : t.type = K)
    (h1 : K ≠ TokenType.INT) (h2 : K ≠ TokenType.FLOAT) : isType t = false := by
  cases hT : isType t with
  | false => rfl
  | true =>
    rcases (isType_iff t).mp hT with e | e
    · rw [e] at hk; exact absurd hk.symm h1
    · rw [e] at hk; exact absurd hk.symm h2

theorem alike_headD {ts ts' : List Token} (h : List.Forall₂ alike ts ts') :
    alike (ts.headD endToken) (ts'.headD endToken) := by
  cases h with
  | nil => exact Or.inl rfl
  | cons a _ => exact a

theorem alike_tail {ts ts' : List Token} (h : List.Forall₂ alike ts ts') :
    List.Forall₂ alike ts.tail ts'.tail := by
  cases h with
  | nil => exact List.Forall₂.nil
  | cons _ b => exact b

theorem alike_head_pair {l l' : List Token} (h : List.Forall₂ alike l l') :
    l.headD endToken = l'.headD endToken
      ∨ (l[0]? = some (l.headD endToken) ∧ l'[0]? = some (l'.headD endToken)
          ∧ isType (l.headD endToken) = true ∧ isType (l'.headD endToken) = true) := by
  cases h with
  | nil => exact Or.inl rfl
  | cons a _ =>
    rcases a with a | ⟨a1, a2⟩
    · exact Or.inl a
    · exact Or.inr ⟨by simp, by simp, a1, a2⟩

namespace Parser

/-! ## Every step of the parser keeps two such states together -/

variable {all all' : List Token}

theorem Sim.tok {p p' : Parser} (h : Sim all all' p p') :
    alike p.current_token p'.current_token := by
  obtain ⟨n, r, r', ht, -, -⟩ := h
  rw [r.1, r'.1]
  exact alike_headD (List.forall₂_drop n ht)

/-- The lookaheads of two related states are the same token, or the tokens of
kind `INT` or `FLOAT` at one position of the two streams. -/
theorem Sim.pair {p p' : Parser} (h : Sim all all' p p') :
    p.current_token = p'.current_token
      ∨ ∃ j : Nat, all[j]? = some p.current_token ∧ all'[j]? = some p'.current_token
          ∧ isType p.current_token = true ∧ isType p'.current_token = true := by
  obtain ⟨n, r, r', ht, -, -⟩ := h
  rw [r.1, r'.1]
  rcases alike_head_pair (List.forall₂_drop n ht) with e | ⟨e1, e2, e3, e4⟩
  · exact Or.inl e
  · rw [List.getElem?_drop, Nat.add_zero] at e1 e2
    exact Or.inr ⟨n, e1, e2, e3, e4⟩

theorem Sim.load_line {p p' : Parser} (h : Sim all all' p p') :
    lineAlike all all' ("load " ++ p.current_token.lexeme ++ " into eax")
      ("load " ++ p'.current_token.lexeme ++ " into eax") := by
  rcases h.pair with e | ⟨j, a1, a2, a3, a4⟩
  · rw [e]; exact Or.inl rfl
  · exact Or.inr ⟨j, _, _, a1, a2, a3, a4, Or.inl ⟨rfl, rfl⟩⟩

theorem Sim.operand_line (op : Op) {p p' : Parser} (h : Sim all all' p p') :
    lineAlike all all' (op.line p.current_token.lexeme) (op.line p'.current_token.lexeme) := by
  rcases h.pair with e | ⟨j, a1, a2, a3, a4⟩
  · rw [e]; exact Or.inl rfl
  · exact Or.inr ⟨j, _, _, a1, a2, a3, a4, Or.inr ⟨op, rfl, rfl⟩⟩

theorem Sim.kind_iff {p p' : Parser} (h : Sim all all' p p') (K : TokenType)
    (h1 : K ≠ TokenType.INT) (h2 : K ≠ TokenType.FLOAT) :
    p.current_token.type = K ↔ p'.current_token.type = K :=
  alike_type_iff h.tok K h1 h2

theorem Sim.token_eq {p p' : Parser} (h : Sim all all' p p') {K : TokenType}
    (hk : p.current_token.type = K) (h1 : K ≠ TokenType.INT) (h2 : K ≠ TokenType.FLOAT) :
    p.current_token = p'.current_token :=
  alike_eq h.tok (isType_false_of_type hk h1 h2)

theorem sim_advance {p p' : Parser} (h : Sim all all' p p') :
    Sim all all' p.advance p'.advance := by
  obtain ⟨n, r, r', ht, ho, hc⟩ := h
  refine ⟨n + 1, ?_, ?_, ht, by rw [advance_output, advance_output]; exact ho,
    by rw [advance_cerr, advance_cerr]; exact hc⟩
  · rw [← List.tail_drop]; exact reads_advance r
  · rw [← List.tail_drop]; exact reads_advance r'

theorem sim_emit {p p' : Parser} (h : Sim all all' p p') {a b : String}
    (hl : lineAlike all all' a b) : Sim all all' (p.emit a) (p'.emit b) := by
  obtain ⟨n, r, r', ht, ho, hc⟩ := h
  exact ⟨n, reads_emit a r, reads_emit b r', ht,
    by rw [emit_output, emit_output]
       exact List.rel_append ho (List.Forall₂.cons hl List.Forall₂.nil),
    by rw [emit_cerr, emit_cerr]; exact hc⟩

theorem sim_report {p p' : Parser} (h : Sim all all' p p') (m : String) :
    Sim all all' (p.report m) (p'.report m) := by
  obtain ⟨n, r, r', ht, ho, hc⟩ := h
  exact ⟨n, reads_report m r, reads_report m r', ht,
    by rw [report_output, report_output]; exact ho,
    by rw [report_cerr, report_cerr, hc]⟩

theorem sim_ite {c c' : Prop} [Decidable c] [Decidable c'] {a b a' b' : Parser}
    (hc : c ↔ c') (ha : c → Sim all all' a a') (hb : ¬c → Sim all all' b b') :
    Sim all all' (if c then a else b) (if c' then a' else b') := by
  by_cases h : c
  · rw [if_pos h, if_pos (hc.mp h)]; exact ha h
  · rw [if_neg h, if_neg (fun h' => h (hc.mpr h'))]; exact hb h

theorem optSim_some {a b : Parser} (h : Sim all all' a b) :
    OptSim all all' (some a) (some b) := h

theorem optSim_none : OptSim all all' none none := trivial

theorem optSim_ite {c c' : Prop} [Decidable c] [Decidable c'] {a b a' b' : Option Parser}
    (hc : c ↔ c') (ha : c → OptSim all all' a a') (hb : ¬c → OptSim all all' b b') :
    OptSim all all' (if c then a else b) (if c' then a' else b') := by
  by_cases h : c
  · rw [if_pos h, if_pos (hc.mp h)]; exact ha h
  · rw [if_neg h, if_neg (fun h' => h (hc.mpr h'))]; exact hb h

theorem optSim_bind {x x' : Option Parser} {g g' : Parser → Option Parser}
    (hx : OptSim all all' x x')
    (hg : ∀ q q', Sim all all' q q' → OptSim all all' (g q) (g' q')) :
    OptSim all all' (x.bind g) (x'.bind g') := by
  cases x with
  | none =>
    cases x' with
    | none => exact trivial
    | some b => exact absurd hx (fun h => h)
  | some a =>
    cases x' with
    | none => exact absurd hx (fun h => h)
    | some b => exact hg a b hx

theorem sim_semicolon {q q' : Parser} (h : Sim all all' q q') :
    Sim all all' (if q.current_token.type = TokenType.SEMICOLON then q.advance else q)
      (if q'.current_token.type = TokenType.SEMICOLON then q'.advance else q') :=
  sim_ite (h.kind_iff _ (by decide) (by decide)) (fun _ => sim_advance h) (fun _ => h)

theorem sim_operator {p p' : Parser} (h : Sim all all' p p') :
    Sim all all'
      (if p.current_token.type = TokenType.GREATER_THAN then
        (p.advance.emit ("compare eax with " ++ p.advance.current_token.lexeme)).advance
      else if p.current_token.type = TokenType.MINUS then
        (p.advance.emit ("substract eax with " ++ p.advance.current_token.lexeme)).advance
      else if p.current_token.type = TokenType.PLUS then
        (p.advance.emit ("Add eax with " ++ p.advance.current_token.lexeme)).advance
      else p)
      (if p'.current_token.type = TokenType.GREATER_THAN then
        (p'.advance.emit ("compare eax with " ++ p'.advance.current_token.lexeme)).advance
      else if p'.current_token.type = TokenType.MINUS then
        (p'.advance.emit ("substract eax with " ++ p'.advance.current_token.lexeme)).advance
      else if p'.current_token.type = TokenType.PLUS then
        (p'.advance.emit ("Add eax with " ++ p'.advance.current_token.lexeme)).advance
      else p') := by
  have h1 := sim_advance h
  refine sim_ite (h.kind_iff _ (by decide) (by decide))
    (fun _ => sim_advance (sim_emit h1 (h1.operand_line Op.gt))) (fun _ => ?_)
  refine sim_ite (h.kind_iff _ (by decide) (by decide))
    (fun _ => sim_advance (sim_emit h1 (h1.operand_line Op.minus))) (fun _ => ?_)
  exact sim_ite (h.kind_iff _ (by decide) (by decide))
    (fun _ => sim_advance (sim_emit h1 (h1.operand_line Op.plus))) (fun _ => h)

theorem sim_parseExpression {p p' : Parser} (h : Sim all all' p p') :
    Sim all all' (parseExpression p) (parseExpression p') := by
  unfold parseExpression
  exact sim_operator (sim_ite (alike_primary_iff h.tok)
    (fun _ => sim_advance (sim_emit h h.load_line)) (fun _ => h))

end Parser

end Compiler

namespace Compiler

/-- A test that does not tell apart tokens that stand for each other drops
the same number of tokens from two streams of such tokens. -/
theorem alike_dropWhile (c : Token → Bool) (hc : ∀ t t', alike t t' → c t = c t') :
    ∀ {ts ts' : List Token}, List.Forall₂ alike ts ts' →
      ∃ k, ts.dropWhile c = ts.drop k ∧ ts'.dropWhile c = ts'.drop k := by
  intro ts ts' h
  induction h with
  | nil => exact ⟨0, rfl, rfl⟩
  | cons a b ih =>
    rename_i t t' l l'
    cases hct : c t with
    | true =>
      obtain ⟨k, e1, e2⟩ := ih
      refine ⟨k + 1, ?_, ?_⟩
      · rw [List.dropWhile_cons_of_pos hct, List.drop_succ_cons]; exact e1
      · rw [List.dropWhile_cons_of_pos (by rw [← hc t t' a, hct]), List.drop_succ_cons]
        exact e2
    | false =>
      refine ⟨0, ?_, ?_⟩
      · rw [List.dropWhile_cons_of_neg (by rw [hct]; decide), List.drop_zero]
      · rw [List.dropWhile_cons_of_neg (by rw [← hc t t' a, hct]; decide), List.drop_zero]

namespace Parser

/-! ## The rules without recursion -/

variable {all all' : List Token}

theorem sim_parseVariableDeclaration {p p' : Parser} (h : Sim all all' p p') :
    Sim all all' (parseVariableDeclaration p) (parseVariableDeclaration p') := by
  have h1 := sim_advance h
  have h2 := sim_advance h1
  unfold parseVariableDeclaration
  refine sim_ite (h1.kind_iff _ (by decide) (by decide)) (fun hid => ?_)
    (fun _ => sim_report h1 _)
  have e : p.advance.current_token = p'.advance.current_token :=
    h1.token_eq hid (by decide) (by decide)
  rw [← e]
  exact sim_semicolon (sim_ite (h2.kind_iff _ (by decide) (by decide))
    (fun _ => sim_emit (sim_parseExpression (sim_advance h2)) (Or.inl rfl))
    (fun _ => sim_ite (h2.kind_iff _ (by decide) (by decide))
      (fun _ => sim_emit h2 (Or.inl rfl)) (fun _ => h2)))

/-- The loop that discards the arguments of a call, on any tokens: it stops on
the first `)` or at the end, and writes nothing. -/
theorem skipArguments_reads (ts : List Token) : ∀ (f : Nat) (p : Parser), p.Reads ts →
    ts.length ≤ f →
    (skipArguments f p).Reads
        (ts.dropWhile fun t => t.type ≠ TokenType.RPAREN ∧ t.type ≠ TokenType.END)
      ∧ (skipArguments f p).output = p.output ∧ (skipArguments f p).cerr = p.cerr := by
  induction ts with
  | nil =>
    intro f p hr _
    have t0 : p.current_token = endToken := hr.1
    cases f with
    | zero => rw [skipArguments]; exact ⟨hr, rfl, rfl⟩
    | succ f =>
      rw [skipArguments, t0, if_neg (fun hc => hc.2 rfl)]
      exact ⟨hr, rfl, rfl⟩
  | cons t ts ih =>
    intro f p hr hf
    have t0 : p.current_token = t := hr.1
    cases f with
    | zero => simp only [List.length_cons] at hf; omega
    | succ f =>
      rw [skipArguments, t0]
      by_cases hc : t.type ≠ TokenType.RPAREN ∧ t.type ≠ TokenType.END
      · rw [if_pos hc, List.dropWhile_cons_of_pos (by simpa using hc)]
        obtain ⟨i1, i2, i3⟩ := ih f p.advance (reads_advance_cons hr)
          (by simp only [List.length_cons] at hf; omega)
        exact ⟨i1, by rw [i2, advance_output], by rw [i3, advance_cerr]⟩
      · rw [if_neg hc, List.dropWhile_cons_of_neg (by simpa using hc)]
        exact ⟨hr, rfl, rfl⟩

theorem sim_skipArguments {p p' : Parser} (h : Sim all all' p p') :
    Sim all all' (skipArguments (p.lexer.input.length - p.lexer.current_pos + 1) p)
      (skipArguments (p'.lexer.input.length - p'.lexer.current_pos + 1) p') := by
  obtain ⟨n, r, r', ht, ho, hc⟩ := h
  obtain ⟨a1, a2, a3⟩ := skipArguments_reads _ _ p r (reads_length_le r)
  obtain ⟨b1, b2, b3⟩ := skipArguments_reads _ _ p' r' (reads_length_le r')
  obtain ⟨k, e1, e2⟩ := alike_dropWhile
    (fun t => t.type ≠ TokenType.RPAREN ∧ t.type ≠ TokenType.END) (by
      intro t t' hal
      have k1 := alike_type_iff hal TokenType.RPAREN (by decide) (by decide)
      have k2 := alike_type_iff hal TokenType.END (by decide) (by decide)
      simp only [ne_eq, k1, k2]) (List.forall₂_drop n ht)
  rw [e1, List.drop_drop] at a1
  rw [e2, List.drop_drop] at b1
  exact ⟨n + k, a1, b1, ht, by rw [a2, b2]; exact ho, by rw [a3, b3]; exact hc⟩

theorem sim_parseAssignmentOrFunctionCall {p p' : Parser} (h : Sim all all' p p')
    (hid : p.current_token.type = TokenType.IDENTIFIER) :
    Sim all all' (parseAssignmentOrFunctionCall p) (parseAssignmentOrFunctionCall p') := by
  have h1 := sim_advance h
  have h2 := sim_advance h1
  have h3 := sim_skipArguments h2
  have e : p.current_token = p'.current_token := h.token_eq hid (by decide) (by decide)
  unfold parseAssignmentOrFunctionCall
  rw [← e]
  refine sim_ite (h1.kind_iff _ (by decide) (by decide))
    (fun _ => sim_semicolon (sim_emit (sim_parseExpression h2) (Or.inl rfl))) (fun _ => ?_)
  refine sim_ite (h1.kind_iff _ (by decide) (by decide)) (fun _ => ?_)
    (fun _ => sim_report h1 _)
  exact sim_semicolon (sim_emit (sim_ite (h3.kind_iff _ (by decide) (by decide))
    (fun _ => sim_advance h3) (fun _ => h3)) (Or.inl rfl))

theorem sim_parsePrintStatement {p p' : Parser} (h : Sim all all' p p') :
    Sim all all' (parsePrintStatement p) (parsePrintStatement p') := by
  have h1 := sim_advance h
  have h2 : Sim all all' ((parseExpression p.advance.advance).emit "print eax")
      ((parseExpression p'.advance.advance).emit "print eax") :=
    sim_emit (sim_parseExpression (sim_advance h1)) (Or.inl rfl)
  unfold parsePrintStatement
  refine sim_ite (not_congr (h1.kind_iff _ (by decide) (by decide)))
    (fun _ => sim_report h1 _) (fun _ => ?_)
  exact sim_semicolon (sim_ite (not_congr (h2.kind_iff _ (by decide) (by decide)))
    (fun _ => sim_report h2 _) (fun _ => sim_advance h2))

theorem sim_unexpectedToken {p p' : Parser} (h : Sim all all' p p')
    (hn : isType p.current_token = false) : Sim all all' p.unexpectedToken p'.unexpectedToken := by
  have e : p.current_token = p'.current_token := alike_eq h.tok hn
  unfold unexpectedToken
  rw [← e]
  exact sim_advance (sim_report h _)

end Parser

end Compiler

namespace Compiler

namespace Parser

/-! ## The rules with recursion -/

variable {all all' : List Token}

/-- The dispatch of `parseStatement` on two states related by `Sim`. -/
theorem sim_dispatch {p p' : Parser} {x y x' y' : Option Parser} (h : Sim all all' p p')
    (hx : OptSim all all' x x') (hy : OptSim all all' y y') :
    OptSim all all'
      (if p.current_token.type = TokenType.INT ∨ p.current_token.type = TokenType.FLOAT then
        some (parseVariableDeclaration p)
      else if p.current_token.type = TokenType.IDENTIFIER then
        some (parseAssignmentOrFunctionCall p)
      else if p.current_token.type = TokenType.IF then x
      else if p.current_token.type = TokenType.WHILE then y
      else if p.current_token.type = TokenType.PRINT then some (parsePrintStatement p)
      else some p.unexpectedToken)
      (if p'.current_token.type = TokenType.INT ∨ p'.current_token.type = TokenType.FLOAT then
        some (parseVariableDeclaration p')
      else if p'.current_token.type = TokenType.IDENTIFIER then
        some (parseAssignmentOrFunctionCall p')
      else if p'.current_token.type = TokenType.IF then x'
      else if p'.current_token.type = TokenType.WHILE then y'
      else if p'.current_token.type = TokenType.PRINT then some (parsePrintStatement p')
      else some p'.unexpectedToken) := by
  refine optSim_ite (alike_type2_iff h.tok)
    (fun _ => optSim_some (sim_parseVariableDeclaration h)) (fun hn => ?_)
  refine optSim_ite (h.kind_iff _ (by decide) (by decide))
    (fun hid => optSim_some (sim_parseAssignmentOrFunctionCall h hid)) (fun _ => ?_)
  refine optSim_ite (h.kind_iff _ (by decide) (by decide)) (fun _ => hx) (fun _ => ?_)
  refine optSim_ite (h.kind_iff _ (by decide) (by decide)) (fun _ => hy) (fun _ => ?_)
  refine optSim_ite (h.kind_iff _ (by decide) (by decide))
    (fun _ => optSim_some (sim_parsePrintStatement h)) (fun _ => ?_)
  refine optSim_some (sim_unexpectedToken h ?_)
  cases hT : isType p.current_token with
  | false => rfl
  | true => exact absurd ((isType_iff _).mp hT) hn

/-- The `if` rule after its first token and after its condition, on states
related by `Sim`. -/
theorem ifSim_body {f : Nat}
    (hB : ∀ p p', Sim all all' p p' → OptSim all all' (parseBlock f p) (parseBlock f p'))
    {a a' e e' : Parser} (h1 : Sim all all' a a') (h2 : Sim all all' e e') :
    OptSim all all'
      (if a.current_token.type = TokenType.LPAREN then
        if e.current_token.type = TokenType.RPAREN then
          (parseBlock f (e.advance.emit "if eax != 0 jump label")).bind fun p3 =>
            if p3.current_token.type = TokenType.ELSE then
              parseBlock f (p3.advance.emit "label:")
            else some p3
        else
          some (e.report "Syntax error: Expected \x27)\x27 after condition in if statement")
      else some (a.report "Syntax error: Expected \x27(\x27 after \x27if\x27"))
      (if a'.current_token.type = TokenType.LPAREN then
        if e'.current_token.type = TokenType.RPAREN then
          (parseBlock f (e'.advance.emit "if eax != 0 jump label")).bind fun p3 =>
            if p3.current_token.type = TokenType.ELSE then
              parseBlock f (p3.advance.emit "label:")
            else some p3
        else
          some (e'.report "Syntax error: Expected \x27)\x27 after condition in if statement")
      else some (a'.report "Syntax error: Expected \x27(\x27 after \x27if\x27")) := by
  refine optSim_ite (h1.kind_iff _ (by decide) (by decide)) (fun _ => ?_) (fun _ => ?_)
  · refine optSim_ite (h2.kind_iff _ (by decide) (by decide)) (fun _ => ?_) (fun _ => ?_)
    · refine optSim_bind (hB _ _ (sim_emit (sim_advance h2) (Or.inl rfl))) ?_
      intro q q' hq
      refine optSim_ite (hq.kind_iff _ (by decide) (by decide)) (fun _ => ?_) (fun _ => ?_)
      · exact hB _ _ (sim_emit (sim_advance hq) (Or.inl rfl))
      · exact optSim_some hq
    · exact optSim_some (sim_report h2 _)
  · exact optSim_some (sim_report h1 _)

theorem ifSim_succ {f : Nat}
    (hB : ∀ p p', Sim all all' p p' → OptSim all all' (parseBlock f p) (parseBlock f p')) :
    ∀ p p', Sim all all' p p' → OptSim all all' (parseIfStatement (f + 1) p) (parseIfStatement (f + 1) p') := by
  intro p p' h
  have h1 := sim_advance h
  have h2 := sim_parseExpression (sim_advance h1)
  rw [parseIfStatement, parseIfStatement]
  exact ifSim_body hB h1 h2

/-- The `while` rule after its first token and after its condition, on states
related by `Sim`. -/
theorem whileSim_body {f : Nat}
    (hB : ∀ p p', Sim all all' p p' → OptSim all all' (parseBlock f p) (parseBlock f p'))
    {a a' e e' : Parser} (h1 : Sim all all' a a') (h2 : Sim all all' e e') :
    OptSim all all'
      (if a.current_token.type = TokenType.LPAREN then
        if e.current_token.type = TokenType.RPAREN then
          (parseBlock f (e.advance.emit "if eax == 0 jump end_label")).bind fun p3 =>
            some ((p3.emit "jump label").emit "end_label:")
        else
          some (e.report
            "Syntax error: Expected \x27)\x27 after condition in while statement")
      else some (a.report "Syntax error: Expected \x27(\x27 after \x27while\x27"))
      (if a'.current_token.type = TokenType.LPAREN then
        if e'.current_token.type = TokenType.RPAREN then
          (parseBlock f (e'.advance.emit "if eax == 0 jump end_label")).bind fun p3 =>
            some ((p3.emit "jump label").emit "end_label:")
        else
          some (e'.report
            "Syntax error: Expected \x27)\x27 after condition in while statement")
      else some (a'.report "Syntax error: Expected \x27(\x27 after \x27while\x27")) := by
  refine optSim_ite (h1.kind_iff _ (by decide) (by decide)) (fun _ => ?_) (fun _ => ?_)
  · refine optSim_ite (h2.kind_iff _ (by decide) (by decide)) (fun _ => ?_) (fun _ => ?_)
    · refine optSim_bind (hB _ _ (sim_emit (sim_advance h2) (Or.inl rfl))) ?_
      intro q q' hq
      exact optSim_some (sim_emit (sim_emit hq (Or.inl rfl)) (Or.inl rfl))
    · exact optSim_some (sim_report h2 _)
  · exact optSim_some (sim_report h1 _)

theorem whileSim_succ {f : Nat}
    (hB : ∀ p p', Sim all all' p p' → OptSim all all' (parseBlock f p) (parseBlock f p')) :
    ∀ p p', Sim all all' p p' → OptSim all all' (parseWhileLoop (f + 1) p) (parseWhileLoop (f + 1) p') := by
  intro p p' h
  have h1 : Sim all all' (p.advance.emit "label:") (p'.advance.emit "label:") :=
    sim_emit (sim_advance h) (Or.inl rfl)
  have h2 := sim_parseExpression (sim_advance h1)
  rw [parseWhileLoop, parseWhileLoop]
  exact whileSim_body hB h1 h2

theorem blockSim_succ {f : Nat}
    (hL : ∀ p p', Sim all all' p p' → OptSim all all' (blockLoop f p) (blockLoop f p'))
    (hS : ∀ p p', Sim all all' p p' → OptSim all all' (parseStatement f p) (parseStatement f p')) :
    ∀ p p', Sim all all' p p' → OptSim all all' (parseBlock (f + 1) p) (parseBlock (f + 1) p') := by
  intro p p' h
  rw [parseBlock, parseBlock]
  refine optSim_ite (h.kind_iff _ (by decide) (by decide)) (fun _ => ?_) (fun _ => ?_)
  · refine optSim_bind (hL _ _ (sim_advance h)) ?_
    intro q q' hq
    refine optSim_ite (hq.kind_iff _ (by decide) (by decide)) (fun _ => ?_) (fun _ => ?_)
    · exact optSim_some (sim_advance hq)
    · exact optSim_some (sim_report hq _)
  · exact hS _ _ h

theorem loopSim_succ {f : Nat}
    (hL : ∀ p p', Sim all all' p p' → OptSim all all' (blockLoop f p) (blockLoop f p'))
    (hS : ∀ p p', Sim all all' p p' → OptSim all all' (parseStatement f p) (parseStatement f p')) :
    ∀ p p', Sim all all' p p' → OptSim all all' (blockLoop (f + 1) p) (blockLoop (f + 1) p') := by
  intro p p' h
  rw [blockLoop, blockLoop]
  refine optSim_ite (and_congr (not_congr (h.kind_iff _ (by decide) (by decide)))
    (not_congr (h.kind_iff _ (by decide) (by decide)))) (fun _ => ?_) (fun _ => ?_)
  · refine optSim_bind ?_ hL
    refine optSim_ite (h.kind_iff _ (by decide) (by decide)) (fun he => ?_) (fun _ => ?_)
    · exact optSim_some (sim_unexpectedToken h
        (isType_false_of_type he (by decide) (by decide)))
    · exact hS _ _ h
  · exact optSim_some h

theorem stmtSim_succ {f : Nat}
    (hI : ∀ p p', Sim all all' p p' → OptSim all all' (parseIfStatement f p) (parseIfStatement f p'))
    (hW : ∀ p p', Sim all all' p p' → OptSim all all' (parseWhileLoop f p) (parseWhileLoop f p')) :
    ∀ p p', Sim all all' p p' → OptSim all all' (parseStatement (f + 1) p) (parseStatement (f + 1) p') := by
  intro p p' h
  rw [parseStatement, parseStatement]
  refine optSim_ite (h.kind_iff _ (by decide) (by decide)) (fun _ => ?_) (fun _ => ?_)
  · exact optSim_some h
  · refine optSim_ite (h.kind_iff _ (by decide) (by decide)) (fun he => ?_) (fun _ => ?_)
    · exact optSim_some (sim_unexpectedToken h
        (isType_false_of_type he (by decide) (by decide)))
    · exact sim_dispatch h (hI _ _ h) (hW _ _ h)

/-- With the same fuel, every statement rule keeps two states related by `Sim`
together: both run out of fuel, or both return and the states returned are
related. -/
theorem rules_sim (f : Nat) :
    (∀ p p', Sim all all' p p' → OptSim all all' (parseIfStatement f p) (parseIfStatement f p'))
    ∧ (∀ p p', Sim all all' p p' → OptSim all all' (parseWhileLoop f p) (parseWhileLoop f p'))
    ∧ (∀ p p', Sim all all' p p' → OptSim all all' (parseBlock f p) (parseBlock f p'))
    ∧ (∀ p p', Sim all all' p p' → OptSim all all' (blockLoop f p) (blockLoop f p'))
    ∧ (∀ p p', Sim all all' p p' → OptSim all all' (parseStatement f p) (parseStatement f p')) := by
  induction f with
  | zero =>
    refine ⟨?_, ?_, ?_, ?_, ?_⟩
    · intro p p' _; rw [parseIfStatement, parseIfStatement]; exact optSim_none
    · intro p p' _; rw [parseWhileLoop, parseWhileLoop]; exact optSim_none
    · intro p p' _; rw [parseBlock, parseBlock]; exact optSim_none
    · intro p p' _; rw [blockLoop, blockLoop]; exact optSim_none
    · intro p p' _; rw [parseStatement, parseStatement]; exact optSim_none
  | succ f ih =>
    obtain ⟨hI, hW, hB, hL, hS⟩ := ih
    exact ⟨ifSim_succ hB, whileSim_succ hB, blockSim_succ hL hS, loopSim_succ hL hS,
      stmtSim_succ hI hW⟩

/-- With the same fuel, the top-level loop keeps two states related by `Sim`
together. -/
theorem parse_sim (f : Nat) : ∀ p p', Sim all all' p p' → OptSim all all' (parse f p) (parse f p') := by
  induction f with
  | zero => intro p p' _; rw [parse, parse]; exact optSim_none
  | succ f ih =>
    intro p p' h
    rw [parse_succ, parse_succ]
    refine optSim_ite (and_congr (not_congr (h.kind_iff _ (by decide) (by decide)))
      (not_congr (h.kind_iff _ (by decide) (by decide)))) (fun _ => ?_) (fun _ => ?_)
    · exact optSim_bind ((rules_sim (f + 1)).2.2.2.2 p p' h) ih
    · exact optSim_some h

/-- The statement rule is the dispatch of `parseStatement`. -/
theorem parseStatement_rule (f : Nat) (p : Parser) :
    parseStatement (f + 1) p = run p.rule f p := by
  rw [parseStatement]
  unfold rule
  by_cases c1 : p.current_token.type = TokenType.END
  · rw [if_pos c1, if_pos c1]; rfl
  rw [if_neg c1, if_neg c1]
  by_cases c2 : p.current_token.type = TokenType.ERROR
  · rw [if_pos c2, if_pos c2]; rfl
  rw [if_neg c2, if_neg c2]
  by_cases c3 : p.current_token.type = TokenType.INT ∨ p.current_token.type = TokenType.FLOAT
  · rw [if_pos c3, if_pos c3]; rfl
  rw [if_neg c3, if_neg c3]
  by_cases c4 : p.current_token.type = TokenType.IDENTIFIER
  · rw [if_pos c4, if_pos c4]; rfl
  rw [if_neg c4, if_neg c4]
  by_cases c5 : p.current_token.type = TokenType.IF
  · rw [if_pos c5, if_pos c5]; rfl
  rw [if_neg c5, if_neg c5]
  by_cases c6 : p.current_token.type = TokenType.WHILE
  · rw [if_pos c6, if_pos c6]; rfl
  rw [if_neg c6, if_neg c6]
  by_cases c7 : p.current_token.type = TokenType.PRINT
  · rw [if_pos c7, if_pos c7]; rfl
  rw [if_neg c7, if_neg c7]
  rfl

/-- Two states related by `Sim` take the same rule. -/
theorem rule_sim {p p' : Parser} (h : Sim all all' p p') : p.rule = p'.rule := by
  have k := fun K h1 h2 => h.kind_iff K h1 h2
  have k2 := alike_type2_iff h.tok
  unfold rule
  by_cases c1 : p.current_token.type = TokenType.END
  · rw [if_pos c1, if_pos ((k _ (by decide) (by decide)).mp c1)]
  rw [if_neg c1, if_neg (fun c => c1 ((k _ (by decide) (by decide)).mpr c))]
  by_cases c2 : p.current_token.type = TokenType.ERROR
  · rw [if_pos c2, if_pos ((k _ (by decide) (by decide)).mp c2)]
  rw [if_neg c2, if_neg (fun c => c2 ((k _ (by decide) (by decide)).mpr c))]
  by_cases c3 : p.current_token.type = TokenType.INT ∨ p.current_token.type = TokenType.FLOAT
  · rw [if_pos c3, if_pos (k2.mp c3)]
  rw [if_neg c3, if_neg (fun c => c3 (k2.mpr c))]
  by_cases c4 : p.current_token.type = TokenType.IDENTIFIER
  · rw [if_pos c4, if_pos ((k _ (by decide) (by decide)).mp c4)]
  rw [if_neg c4, if_neg (fun c => c4 ((k _ (by decide) (by decide)).mpr c))]
  by_cases c5 : p.current_token.type = TokenType.IF
  · rw [if_pos c5, if_pos ((k _ (by decide) (by decide)).mp c5)]
  rw [if_neg c5, if_neg (fun c => c5 ((k _ (by decide) (by decide)).mpr c))]
  by_cases c6 : p.current_token.type = TokenType.WHILE
  · rw [if_pos c6, if_pos ((k _ (by decide) (by decide)).mp c6)]
  rw [if_neg c6, if_neg (fun c => c6 ((k _ (by decide) (by decide)).mpr c))]
  by_cases c7 : p.current_token.type = TokenType.PRINT
  · rw [if_pos c7, if_pos ((k _ (by decide) (by decide)).mp c7)]
  rw [if_neg c7, if_neg (fun c => c7 ((k _ (by decide) (by decide)).mpr c))]

/-- With the same fuel, the top-level loop takes the same rules from two states
related by `Sim`. -/
theorem rulesTaken_sim (f : Nat) : ∀ p p', Sim all all' p p' → rulesTaken f p = rulesTaken f p' := by
  induction f with
  | zero => intro p p' _; rw [rulesTaken, rulesTaken]
  | succ f ih =>
    intro p p' h
    rw [rulesTaken, rulesTaken]
    have hg := and_congr (not_congr (h.kind_iff TokenType.END (by decide) (by decide)))
      (not_congr (h.kind_iff TokenType.ERROR (by decide) (by decide)))
    by_cases hc : p.current_token.type ≠ TokenType.END
        ∧ p.current_token.type ≠ TokenType.ERROR
    · rw [if_pos hc, if_pos (hg.mp hc), rule_sim h]
      congr 1
      have hs := (rules_sim (f + 1)).2.2.2.2 p p' h
      cases h1 : parseStatement (f + 1) p with
      | none =>
        cases h2 : parseStatement (f + 1) p' with
        | none => rfl
        | some b => rw [h1, h2] at hs; exact absurd hs (fun x => x)
      | some a =>
        cases h2 : parseStatement (f + 1) p' with
        | none => rw [h1, h2] at hs; exact absurd hs (fun x => x)
        | some b =>
          rw [h1, h2] at hs
          exact ih a b hs
    · rw [if_neg hc, if_neg (fun c => hc (hg.mpr c))]

/-- The rules taken do not depend on the fuel, once the loop returns. -/
theorem rulesTaken_fuel_succ (f : Nat) : ∀ p q, parse f p = some q →
    rulesTaken (f + 1) p = rulesTaken f p := by
  induction f with
  | zero => intro p q h; rw [parse] at h; cases h
  | succ f ih =>
    intro p q h
    rw [parse_succ] at h
    rw [rulesTaken, rulesTaken]
    by_cases hc : p.current_token.type ≠ TokenType.END
        ∧ p.current_token.type ≠ TokenType.ERROR
    · rw [if_pos hc] at h
      rw [if_pos hc, if_pos hc]
      obtain ⟨q1, hq1, h⟩ := Option.bind_eq_some.mp h
      rw [hq1, (rules_fuel_succ (f + 1)).2.2.2.2 p q1 hq1]
      exact congrArg _ (ih q1 q h)
    · rw [if_neg hc, if_neg hc]

theorem rulesTaken_fuel_le {f f' : Nat} (hle : f ≤ f') {p q : Parser}
    (h : parse f p = some q) : rulesTaken f' p = rulesTaken f p := by
  induction hle with
  | refl => rfl
  | step hle ih =>
    rename_i m
    rw [rulesTaken_fuel_succ m p q (parse_fuel_le hle h), ih]

end Parser

/-- Lines related by `lineAlike` are the same lines when the first translation
prints no replaced token. -/
theorem lineAlike_eq (ts ts' : List Token) : ∀ {o o' : List String},
    List.Forall₂ (lineAlike ts ts') o o' →
    (∀ a ∈ o, ∀ (j : Nat) (t t' : Token), ts[j]? = some t → ts'[j]? = some t' → t ≠ t' →
      a ≠ "load " ++ t.lexeme ++ " into eax" ∧ ∀ op : Op, a ≠ op.line t.lexeme) →
    o = o' := by
  intro o o' h
  induction h with
  | nil => intro _; rfl
  | @cons x y l l' a _ ih =>
    intro hn
    have hl := ih (fun a ha => hn a (List.mem_cons_of_mem _ ha))
    have hx : x = y := by
      rcases a with e | ⟨j, t, t', a1, a2, -, -, a5⟩
      · exact e
      · by_cases htt : t = t'
        · rcases a5 with ⟨b1, b2⟩ | ⟨op, b1, b2⟩
          · rw [b1, b2, htt]
          · rw [b1, b2, htt]
        · have := hn x (List.mem_cons_self _ _) j t t' a1 a2 htt
          rcases a5 with ⟨b1, _⟩ | ⟨op, b1, _⟩
          · exact absurd b1 this.1
          · exact absurd b1 (this.2 op)
    rw [hx, hl]

end Compiler

namespace Compiler

namespace Parser

/-! ## The parser follows the run on the tokens -/

end Parser

end Compiler

namespace Compiler

namespace Parser

end Parser

end Compiler

namespace Compiler

end Compiler

namespace Compiler

/-! ## The claims -/

/-- C1: for a type keyword `T` (`int` or `float`), an identifier `n` and a
primary operand `v` (an identifier or a numeric literal), the translation of
the source `T n = v;` writes exactly the two lines `load v into eax` and
`mov n, eax`, in that order, and no diagnostic. -/
theorem declaration_with_initializer (T n v : String) (hT : T = "int" ∨ T = "float")
    (hn : isIdentifier n = true) (hv : isIdentifier v = true ∨ isNumber v = true) :
    ∃ q, translate (T ++ " " ++ n ++ " = " ++ v ++ ";") = some q
      ∧ q.output = ["load " ++ v ++ " into eax", "mov " ++ n ++ ", eax"]
      ∧ q.cerr = [] := by
  obtain ⟨ty, t, hty, ht, hl, htoks⟩ := tokens_declInit_source T n v hT hn hv
  obtain ⟨q, hq, hout, herr, -⟩ := translate_sound (T ++ " " ++ n ++ " = " ++ v ++ ";")
    [Stmt.declInit ty ⟨TokenType.IDENTIFIER, n⟩ (Expr.prim t)] []
    (by simp only [wfStmts, Stmt.wf, Expr.wf, hty, ht, decide_True, Bool.and_self])
    (by rw [htoks]; rfl) (Or.inl rfl)
  refine ⟨q, hq, ?_, herr⟩
  rw [hout]
  simp only [linesStmts, Stmt.lines, Expr.lines, hl, List.append_nil, List.singleton_append]

/-- The case of C1 given in the specification: `int x = 10;`. -/
theorem declaration_with_initializer_witness :
    ("int" = "int" ∨ "int" = "float") ∧ isIdentifier "x" = true
      ∧ (isIdentifier "10" = true ∨ isNumber "10" = true)
      ∧ ∃ q, translate ("int" ++ " " ++ "x" ++ " = " ++ "10" ++ ";") = some q
        ∧ q.output = ["load " ++ "10" ++ " into eax", "mov " ++ "x" ++ ", eax"]
        ∧ q.cerr = [] :=
  ⟨Or.inl rfl, by decide, Or.inr (by decide),
    declaration_with_initializer "int" "x" "10" (Or.inl rfl) (by decide) (Or.inr (by decide))⟩

/-- C2: for a type keyword `T` (`int` or `float`) and an identifier `n`, the
translation of the source `T n;` writes exactly the one line `var n` and no
diagnostic. -/
theorem bare_declaration (T n : String) (hT : T = "int" ∨ T = "float")
    (hn : isIdentifier n = true) :
    ∃ q, translate (T ++ " " ++ n ++ ";") = some q
      ∧ q.output = ["var " ++ n] ∧ q.cerr = [] := by
  obtain ⟨ty, hty, htoks⟩ := tokens_decl_source T n hT hn
  obtain ⟨q, hq, hout, herr, -⟩ := translate_sound (T ++ " " ++ n ++ ";")
    [Stmt.decl ty ⟨TokenType.IDENTIFIER, n⟩] []
    (by simp only [wfStmts, Stmt.wf, hty, decide_True, Bool.and_self])
    (by rw [htoks]; rfl) (Or.inl rfl)
  refine ⟨q, hq, ?_, herr⟩
  rw [hout]
  simp only [linesStmts, Stmt.lines, List.append_nil]

/-- The case of C2 given in the specification: `float y;`. -/
theorem bare_declaration_witness :
    ("float" = "int" ∨ "float" = "float") ∧ isIdentifier "y" = true
      ∧ ∃ q, translate ("float" ++ " " ++ "y" ++ ";") = some q
        ∧ q.output = ["var " ++ "y"] ∧ q.cerr = [] :=
  ⟨Or.inr rfl, by decide, bare_declaration "float" "y" (Or.inr rfl) (by decide)⟩

/-- C3: in a source whose tokens are well-formed statements, a statement
`while ( E ) B`, with `E` a well-formed expression and `B` a braced block of
well-formed statements, contributes exactly the lines `label:`, the lines of
`E`, `if eax == 0 jump end_label`, the lines of `B`, `jump label`,
`end_label:`, in this order, between the lines of the statements before it and
after it, and no diagnostic is written; the source
`while (x > 0) { x = x - 1; }` gives `label:` first, a body ending in
`mov x, eax`, then `jump label` and `end_label:`. -/
theorem while_statement (src : String) (pre post : List Stmt) (e : Expr) (ss : List Stmt)
    (hpre : wfStmts pre = true) (hpost : wfStmts post = true) (he : e.wf = true)
    (hss : wfStmts ss = true)
    (htoks : (Lexer.new src).tokens
      = renderStmts pre ++ (Stmt.whileLoop e (Block.braced ss)).render ++ renderStmts post) :
    (∃ q, translate src = some q
      ∧ q.output = linesStmts pre
          ++ (["label:"] ++ e.lines ++ ["if eax == 0 jump end_label"] ++ linesStmts ss
            ++ ["jump label", "end_label:"])
          ++ linesStmts post
      ∧ q.cerr = [])
    ∧ (translate "while (x > 0) \x7b x = x - 1; \x7d").map (fun q => (q.output, q.cerr))
        = some (["label:", "load x into eax", "compare eax with 0",
            "if eax == 0 jump end_label", "load x into eax", "substract eax with 1",
            "mov x, eax", "jump label", "end_label:"], []) := by
  refine ⟨?_, by decide⟩
  obtain ⟨q, hq, hout, herr⟩ := translate_statement src pre post
    (Stmt.whileLoop e (Block.braced ss)) hpre
    (by simp only [Stmt.wf, Block.wf, he, hss, Bool.and_self]) hpost htoks
  refine ⟨q, hq, ?_, herr⟩
  rw [hout]
  simp only [Stmt.lines, Block.lines]

/-- The loop of the specification as an instance of C3. -/
theorem while_statement_witness :
    wfStmts [] = true
      ∧ (Expr.bin ⟨TokenType.IDENTIFIER, "x"⟩ Op.gt ⟨TokenType.INT, "0"⟩).wf = true
      ∧ wfStmts [Stmt.assign ⟨TokenType.IDENTIFIER, "x"⟩
          (Expr.bin ⟨TokenType.IDENTIFIER, "x"⟩ Op.minus ⟨TokenType.INT, "1"⟩)] = true
      ∧ (Lexer.new "while (x > 0) \x7b x = x - 1; \x7d").tokens
          = renderStmts []
            ++ (Stmt.whileLoop (Expr.bin ⟨TokenType.IDENTIFIER, "x"⟩ Op.gt ⟨TokenType.INT, "0"⟩)
              (Block.braced [Stmt.assign ⟨TokenType.IDENTIFIER, "x"⟩
                (Expr.bin ⟨TokenType.IDENTIFIER, "x"⟩ Op.minus ⟨TokenType.INT, "1"⟩)])).render
            ++ renderStmts []
      ∧ ∃ q, translate "while (x > 0) \x7b x = x - 1; \x7d" = some q
        ∧ q.output = linesStmts []
            ++ (["label:"]
              ++ (Expr.bin ⟨TokenType.IDENTIFIER, "x"⟩ Op.gt ⟨TokenType.INT, "0"⟩).lines
              ++ ["if eax == 0 jump end_label"]
              ++ linesStmts [Stmt.assign ⟨TokenType.IDENTIFIER, "x"⟩
                  (Expr.bin ⟨TokenType.IDENTIFIER, "x"⟩ Op.minus ⟨TokenType.INT, "1"⟩)]
              ++ ["jump label", "end_label:"])
            ++ linesStmts []
        ∧ q.cerr = [] :=
  ⟨rfl, by decide, by decide, by decide,
    (while_statement "while (x > 0) \x7b x = x - 1; \x7d" [] []
      (Expr.bin ⟨TokenType.IDENTIFIER, "x"⟩ Op.gt ⟨TokenType.INT, "0"⟩)
      [Stmt.assign ⟨TokenType.IDENTIFIER, "x"⟩
        (Expr.bin ⟨TokenType.IDENTIFIER, "x"⟩ Op.minus ⟨TokenType.INT, "1"⟩)]
      rfl rfl (by decide) (by decide) (by decide)).1⟩

/-- C4: in a source whose tokens are well-formed statements, a statement
`if ( E ) B1`, with `E` and `B1` well-formed, contributes exactly the lines of
`E`, `if eax != 0 jump label` and the lines of `B1`, with no `label:` line
after them; a statement `if ( E ) B1 else B2` contributes these lines, then
`label:` and the lines of `B2`; no diagnostic is written. The source of the
specification
`int x = 10; int y = 20; if (x > y) { print(x); } else { print(y); }` gives
`compare eax with y`, `if eax != 0 jump label`, one `label:` line and a
`print eax` line on each side of it. -/
theorem if_statement (src1 src2 : String) (pre post : List Stmt) (e : Expr) (b1 b2 : Block)
    (hpre : wfStmts pre = true) (hpost : wfStmts post = true) (he : e.wf = true)
    (hb1 : b1.wf = true) (hb2 : b2.wf = true)
    (h1 : (Lexer.new src1).tokens
      = renderStmts pre ++ (Stmt.ifThen e b1).render ++ renderStmts post) :
    (∃ q, translate src1 = some q
      ∧ q.output = linesStmts pre
          ++ (e.lines ++ ["if eax != 0 jump label"] ++ b1.lines) ++ linesStmts post
      ∧ q.cerr = [])
    ∧ (b1.isOpen = false →
        (Lexer.new src2).tokens
          = renderStmts pre ++ (Stmt.ifElse e b1 b2).render ++ renderStmts post →
        ∃ q, translate src2 = some q
          ∧ q.output = linesStmts pre
              ++ (e.lines ++ ["if eax != 0 jump label"] ++ b1.lines ++ ["label:"] ++ b2.lines)
              ++ linesStmts post
          ∧ q.cerr = [])
    ∧ (translate
          "int x = 10; int y = 20; if (x > y) \x7b print(x); \x7d else \x7b print(y); \x7d").map
        (fun q => (q.output, q.cerr))
        = some (["load 10 into eax", "mov x, eax", "load 20 into eax", "mov y, eax",
            "load x into eax", "compare eax with y", "if eax != 0 jump label",
            "load x into eax", "print eax", "label:", "load y into eax", "print eax"], []) := by
  refine ⟨?_, ?_, by decide⟩
  · obtain ⟨q, hq, hout, herr⟩ := translate_statement src1 pre post (Stmt.ifThen e b1) hpre
      (by simp only [Stmt.wf, he, hb1, Bool.and_self]) hpost h1
    refine ⟨q, hq, ?_, herr⟩
    rw [hout]
    simp only [Stmt.lines]
  · intro hcl h2
    obtain ⟨q, hq, hout, herr⟩ := translate_statement src2 pre post (Stmt.ifElse e b1 b2) hpre
      (by simp only [Stmt.wf, he, hb1, hb2, hcl, Bool.not_false, Bool.and_self]) hpost h2
    refine ⟨q, hq, ?_, herr⟩
    rw [hout]
    simp only [Stmt.lines]

/-- An `if` without `else`, between two declarations, as an instance of C4. -/
theorem if_statement_witness :
    wfStmts [Stmt.decl ⟨TokenType.INT, "int"⟩ ⟨TokenType.IDENTIFIER, "x"⟩] = true
      ∧ wfStmts [Stmt.decl ⟨TokenType.FLOAT, "float"⟩ ⟨TokenType.IDENTIFIER, "z"⟩] = true
      ∧ (Expr.bin ⟨TokenType.IDENTIFIER, "x"⟩ Op.gt ⟨TokenType.IDENTIFIER, "y"⟩).wf = true
      ∧ (Block.braced [Stmt.print (Expr.prim ⟨TokenType.IDENTIFIER, "x"⟩)]).wf = true
      ∧ (Block.braced [Stmt.print (Expr.prim ⟨TokenType.IDENTIFIER, "y"⟩)]).wf = true
      ∧ (Lexer.new "int x; if (x > y) \x7b print(x); \x7d float z;").tokens
          = renderStmts [Stmt.decl ⟨TokenType.INT, "int"⟩ ⟨TokenType.IDENTIFIER, "x"⟩]
            ++ (Stmt.ifThen
                (Expr.bin ⟨TokenType.IDENTIFIER, "x"⟩ Op.gt ⟨TokenType.IDENTIFIER, "y"⟩)
                (Block.braced [Stmt.print (Expr.prim ⟨TokenType.IDENTIFIER, "x"⟩)])).render
            ++ renderStmts [Stmt.decl ⟨TokenType.FLOAT, "float"⟩ ⟨TokenType.IDENTIFIER, "z"⟩]
      ∧ ∃ q, translate "int x; if (x > y) \x7b print(x); \x7d float z;" = some q
        ∧ q.output
            = linesStmts [Stmt.decl ⟨TokenType.INT, "int"⟩ ⟨TokenType.IDENTIFIER, "x"⟩]
              ++ ((Expr.bin ⟨TokenType.IDENTIFIER, "x"⟩ Op.gt ⟨TokenType.IDENTIFIER, "y"⟩).lines
                ++ ["if eax != 0 jump label"]
                ++ (Block.braced [Stmt.print (Expr.prim ⟨TokenType.IDENTIFIER, "x"⟩)]).lines)
              ++ linesStmts [Stmt.decl ⟨TokenType.FLOAT, "float"⟩ ⟨TokenType.IDENTIFIER, "z"⟩]
        ∧ q.cerr = [] :=
  ⟨by decide, by decide, by decide, by decide, by decide, by decide,
    (if_statement "int x; if (x > y) \x7b print(x); \x7d float z;" ""
      [Stmt.decl ⟨TokenType.INT, "int"⟩ ⟨TokenType.IDENTIFIER, "x"⟩]
      [Stmt.decl ⟨TokenType.FLOAT, "float"⟩ ⟨TokenType.IDENTIFIER, "z"⟩]
      (Expr.bin ⟨TokenType.IDENTIFIER, "x"⟩ Op.gt ⟨TokenType.IDENTIFIER, "y"⟩)
      (Block.braced [Stmt.print (Expr.prim ⟨TokenType.IDENTIFIER, "x"⟩)])
      (Block.braced [Stmt.print (Expr.prim ⟨TokenType.IDENTIFIER, "y"⟩)])
      (by decide) (by decide) (by decide) (by decide) (by decide) (by decide)).1⟩

/-- C5, what the code writes: the operator line is `compare eax with L` for
`>`, but `substract eax with L` for `-` and `Add eax with L` for `+`, not the
`subtract eax with L` and `add eax with L` of the output contract. -/
theorem operator_lines_written :
    (translate "x = x - 1;").map (fun q => q.output)
        = some ["load x into eax", "substract eax with 1", "mov x, eax"]
      ∧ (translate "x = x + 1;").map (fun q => q.output)
        = some ["load x into eax", "Add eax with 1", "mov x, eax"]
      ∧ (translate "x = x > 1;").map (fun q => q.output)
        = some ["load x into eax", "compare eax with 1", "mov x, eax"]
      ∧ (∀ L : String, Op.minus.line L ≠ "subtract eax with " ++ L)
      ∧ (∀ L : String, Op.plus.line L ≠ "add eax with " ++ L) := by
  refine ⟨by decide, by decide, by decide, ?_, ?_⟩
  · intro L h
    have := congrArg (fun s : String => s.data.getD 3 ' ') h
    simp only [Op.line, String.data_append] at this
    change ('s' : Char) = 't' at this
    exact absurd this (by decide)
  · intro L h
    have := congrArg (fun s : String => s.data.getD 0 ' ') h
    simp only [Op.line, String.data_append] at this
    change ('A' : Char) = 'a' at this
    exact absurd this (by decide)

end Compiler

namespace Compiler

/-- C6 fails as stated: for the source `int x = 10 # ;` the diagnostic stream
stays empty, nothing is reported for `#`; and in `x = 1; # y = 2;` the
statement after `#` is not translated. -/
theorem error_character_not_reported :
    (translate "int x = 10 # ;").map (fun q => (q.output, q.cerr))
        = some (["load 10 into eax", "mov x, eax"], [])
      ∧ (translate "x = 1; # y = 2;").map (fun q => (q.output, q.cerr))
        = some (["load 1 into eax", "mov x, eax"], []) := by
  constructor <;> decide

/-- C6 amended: when the tokens of the source are a sequence of well-formed
statements followed by an `ERROR` token `c` and anything else, the translation
writes exactly the lines of these statements, writes no diagnostic and stops
with `c` as its lookahead. For `int x = 10 # ;` the lines are
`load 10 into eax`, `mov x, eax`, the diagnostic stream is empty and the
lookahead at the end is the token of `#`. -/
theorem error_token_stops_translation (src : String) (ss : List Stmt) (c : Token)
    (rest : List Token) (hwf : wfStmts ss = true) (hc : c.type = TokenType.ERROR)
    (htoks : (Lexer.new src).tokens = renderStmts ss ++ c :: rest) :
    (∃ q, translate src = some q ∧ q.output = linesStmts ss ∧ q.cerr = []
      ∧ q.current_token = c)
    ∧ (translate "int x = 10 # ;").map (fun q => (q.output, q.cerr, q.current_token))
        = some (["load 10 into eax", "mov x, eax"], [], ⟨TokenType.ERROR, "#"⟩) := by
  refine ⟨?_, by decide⟩
  obtain ⟨q, hq, hout, herr, hr⟩ := translate_sound src ss (c :: rest) hwf htoks (Or.inr hc)
  exact ⟨q, hq, hout, herr, hr.1⟩

/-- An instance of the amended C6: `x = 1; # y = 2;`. -/
theorem error_token_stops_translation_witness :
    wfStmts [Stmt.assign ⟨TokenType.IDENTIFIER, "x"⟩ (Expr.prim ⟨TokenType.INT, "1"⟩)] = true
      ∧ (⟨TokenType.ERROR, "#"⟩ : Token).type = TokenType.ERROR
      ∧ (Lexer.new "x = 1; # y = 2;").tokens
          = renderStmts [Stmt.assign ⟨TokenType.IDENTIFIER, "x"⟩
                (Expr.prim ⟨TokenType.INT, "1"⟩)]
              ++ ⟨TokenType.ERROR, "#"⟩ :: [⟨TokenType.IDENTIFIER, "y"⟩, assignTok,
                  ⟨TokenType.INT, "2"⟩, semicolon]
      ∧ ∃ q, translate "x = 1; # y = 2;" = some q
        ∧ q.output = linesStmts [Stmt.assign ⟨TokenType.IDENTIFIER, "x"⟩
            (Expr.prim ⟨TokenType.INT, "1"⟩)]
        ∧ q.cerr = [] ∧ q.current_token = ⟨TokenType.ERROR, "#"⟩ :=
  ⟨by decide, rfl, by decide,
    (error_token_stops_translation "x = 1; # y = 2;"
      [Stmt.assign ⟨TokenType.IDENTIFIER, "x"⟩ (Expr.prim ⟨TokenType.INT, "1"⟩)]
      ⟨TokenType.ERROR, "#"⟩
      [⟨TokenType.IDENTIFIER, "y"⟩, assignTok, ⟨TokenType.INT, "2"⟩, semicolon]
      (by decide) rfl (by decide)).1⟩

/-- C8: for every input string, repeated calls of `getNextToken` return
finitely many tokens other than `END`, at most one per character that is not
whitespace, then `END`; every later call returns `END` with the empty lexeme
and leaves the cursor where it is. -/
theorem scanner_reaches_END (s : String) :
    ∃ k, k ≤ (s.data.filter fun c => !isspace c).length
      ∧ (∀ i, i < k → (Lexer.nthToken i (Lexer.new s)).type ≠ TokenType.END)
      ∧ (∀ i, k ≤ i → Lexer.nthToken i (Lexer.new s) = ⟨TokenType.END, ""⟩)
      ∧ (∀ i, k < i → (Lexer.calls (i + 1) (Lexer.new s)).current_pos
            = (Lexer.calls i (Lexer.new s)).current_pos) := by
  have := Lexer.tokens_then_END _ (Lexer.new s) (Nat.le_refl _)
  rw [show Lexer.nonSpaceFrom (Lexer.new s).input (Lexer.new s).current_pos
      = (s.data.filter fun c => !isspace c).length from Lexer.nonSpaceFrom_zero _] at this
  exact this

/-- C9: a call of `getNextToken` with the cursor strictly before the end of
the input leaves it strictly greater and not past the end; with the cursor at
the end or beyond, the call leaves it unchanged; so the cursor never decreases
over any sequence of calls. -/
theorem cursor_progress (l : Lexer) :
    (l.current_pos < l.input.length →
        l.current_pos < (Lexer.getNextToken l).2.current_pos
          ∧ (Lexer.getNextToken l).2.current_pos ≤ l.input.length)
      ∧ (l.input.length ≤ l.current_pos → (Lexer.getNextToken l).2.current_pos = l.current_pos)
      ∧ (∀ m n, m ≤ n → (Lexer.calls m l).current_pos ≤ (Lexer.calls n l).current_pos) := by
  refine ⟨fun h => ⟨Lexer.getNextToken_pos_gt l h, Lexer.getNextToken_pos_le l (Nat.le_of_lt h)⟩,
    fun h => ?_, fun m n h => Lexer.calls_pos_mono l h⟩
  rw [Lexer.getNextToken_at_end l h]

/-- An instance of C9: on `ab cd` the first call moves the cursor from 0 to 2. -/
theorem cursor_progress_witness :
    (Lexer.new "ab cd").current_pos < (Lexer.new "ab cd").input.length
      ∧ (Lexer.new "ab cd").current_pos
          < (Lexer.getNextToken (Lexer.new "ab cd")).2.current_pos
      ∧ (Lexer.getNextToken (Lexer.new "ab cd")).2.current_pos
          ≤ (Lexer.new "ab cd").input.length :=
  ⟨by decide, ((cursor_progress (Lexer.new "ab cd")).1 (by decide)).1,
    ((cursor_progress (Lexer.new "ab cd")).1 (by decide)).2⟩

/-- C10: a non-empty string of digits `d1` is scanned as the single token
`INT` with lexeme `d1`; `d1.d2`, with `d2` a string of digits, as the single
token `FLOAT` with lexeme `d1.d2`; and `d1.d2.` followed by any text `t` as
`FLOAT` with lexeme `d1.d2`, then `ERROR` with lexeme `.`: the second dot is
not part of the literal. -/
theorem number_classification (d1 d2 t : String) (hne : d1 ≠ "") (h1 : isDigits d1 = true)
    (h2 : isDigits d2 = true) :
    (Lexer.new d1).tokens = [⟨TokenType.INT, d1⟩]
      ∧ (Lexer.new (d1 ++ "." ++ d2)).tokens = [⟨TokenType.FLOAT, d1 ++ "." ++ d2⟩]
      ∧ ∃ more, (Lexer.new (d1 ++ "." ++ d2 ++ "." ++ t)).tokens
          = ⟨TokenType.FLOAT, d1 ++ "." ++ d2⟩ :: ⟨TokenType.ERROR, "."⟩ :: more := by
  obtain ⟨c, cs, hd, hc, hcs⟩ := isDigits_shape h1 hne
  have hd2 := isDigits_all h2
  have hlex : (⟨c :: cs ++ '.' :: d2.data⟩ : String) = d1 ++ "." ++ d2 := by
    rw [← Lexer.string_eta (d1 ++ "." ++ d2), Lexer.string_data_append3, hd]
    rfl
  refine ⟨?_, ?_, ?_⟩
  · have r0 : (Lexer.new d1).rest = c :: cs ++ [] := by
      show d1.data.drop 0 = _
      rw [List.drop_zero, hd, List.append_nil]
    have e1 := Lexer.tokens_int r0 hc hcs (by intro x hx; cases hx)
    have e2 : ((Lexer.new d1).skip (cs.length + 1)).tokens = [] :=
      Lexer.tokens_nil (Lexer.skip_rest_append r0)
    rw [e1, e2, ← hd]
  · have r0 : (Lexer.new (d1 ++ "." ++ d2)).rest = c :: cs ++ '.' :: (d2.data ++ []) := by
      show (d1 ++ "." ++ d2).data.drop 0 = _
      rw [List.drop_zero, Lexer.string_data_append3, hd, List.append_nil]
      rfl
    have e1 := Lexer.tokens_float r0 hc hcs hd2 (by intro x hx; cases hx)
    have e2 := Lexer.tokens_nil (Lexer.rest_after_float r0)
    rw [e1, e2, hlex]
  · have r0 : (Lexer.new (d1 ++ "." ++ d2 ++ "." ++ t)).rest
        = c :: cs ++ '.' :: (d2.data ++ '.' :: t.data) := by
      show (d1 ++ "." ++ d2 ++ "." ++ t).data.drop 0 = _
      simp only [List.drop_zero, String.data_append, List.append_assoc, hd]
      rfl
    have e1 := Lexer.tokens_float r0 hc hcs hd2 (by intro x hx; cases hx; decide)
    have r1 := Lexer.rest_after_float r0
    have e2 := Lexer.tokens_char r1 (by decide) (by decide) (by decide)
    rw [e1, e2, hlex]
    exact ⟨_, rfl⟩

/-- The cases of C10 given in the specification: `12`, `1.5` and `1.5.6`. -/
theorem number_classification_witness :
    ("12" : String) ≠ "" ∧ isDigits "12" = true ∧ isDigits "5" = true
      ∧ ("1" : String) ≠ "" ∧ isDigits "1" = true
      ∧ (Lexer.new "12").tokens = [⟨TokenType.INT, "12"⟩]
      ∧ (Lexer.new ("1" ++ "." ++ "5")).tokens = [⟨TokenType.FLOAT, "1" ++ "." ++ "5"⟩]
      ∧ ∃ more, (Lexer.new ("1" ++ "." ++ "5" ++ "." ++ "6")).tokens
          = ⟨TokenType.FLOAT, "1" ++ "." ++ "5"⟩ :: ⟨TokenType.ERROR, "."⟩ :: more :=
  ⟨by decide, by decide, by decide, by decide, by decide,
    (number_classification "12" "5" "6" (by decide) (by decide) (by decide)).1,
    (number_classification "1" "5" "6" (by decide) (by decide) (by decide)).2.1,
    (number_classification "1" "5" "6" (by decide) (by decide) (by decide)).2.2⟩

end Compiler

namespace Compiler

/-- C11: a word `w` (a letter followed by letters, digits and `_`) is scanned as
exactly one token whose lexeme is all of `w`; its kind is the keyword kind when
`w` is one of `if`, `else`, `while`, `print`, `int`, `float` and `IDENTIFIER`
otherwise. In particular `ifx` is the single token `IDENTIFIER(ifx)`. -/
theorem maximal_munch_words (w : String) (hw : isWord w = true) :
    (Lexer.new w).tokens = [⟨specWordKind w, w⟩]
      ∧ (Lexer.new "ifx").tokens = [⟨TokenType.IDENTIFIER, "ifx"⟩] := by
  refine ⟨?_, by decide⟩
  have r0 : (Lexer.new w).rest = w.data ++ [] := by
    show w.data.drop 0 = _
    rw [List.drop_zero, List.append_nil]
  have e1 := Lexer.tokens_isWord w hw r0 (by intro x hx; cases hx)
  have e2 := Lexer.tokens_nil (Lexer.skip_rest_append r0)
  rw [e1, wordToken_eq_spec]
  exact congrArg _ e2

/-- The words `ifx` and `while` as instances of C11. -/
theorem maximal_munch_words_witness :
    isWord "ifx" = true ∧ isWord "while" = true
      ∧ (Lexer.new "ifx").tokens = [⟨specWordKind "ifx", "ifx"⟩]
      ∧ (Lexer.new "while").tokens = [⟨specWordKind "while", "while"⟩] :=
  ⟨by decide, by decide, (maximal_munch_words "ifx" (by decide)).1,
    (maximal_munch_words "while" (by decide)).1⟩

/-- C19: when the token after the type keyword `ty` (the lookahead on which
the rule is called) is not an identifier, `parseVariableDeclaration` writes no
instruction line, writes the one diagnostic `Expected identifier after type`,
and consumes only `ty`: the token that is not an identifier is the lookahead
on return. -/
theorem declaration_without_identifier (p : Parser) (ty : Token) (rest : List Token)
    (hr : p.Reads (ty :: rest))
    (hn : (rest.headD endToken).type ≠ TokenType.IDENTIFIER) :
    (Parser.parseVariableDeclaration p).output = p.output
      ∧ (Parser.parseVariableDeclaration p).cerr
          = p.cerr ++ ["Syntax error: Expected identifier after type"]
      ∧ (Parser.parseVariableDeclaration p).Reads rest
      ∧ (Parser.parseVariableDeclaration p).current_token = rest.headD endToken := by
  have r1 : p.advance.Reads rest := Parser.reads_advance_cons hr
  have t1 : p.advance.current_token = rest.headD endToken := r1.1
  have e : Parser.parseVariableDeclaration p
      = p.advance.report "Syntax error: Expected identifier after type" := by
    unfold Parser.parseVariableDeclaration
    simp only []
    rw [t1, if_neg hn]
  rw [e]
  exact ⟨Parser.report_output _ _, Parser.report_cerr _ _, Parser.reads_report _ r1,
    by rw [Parser.report_current_token]; exact t1⟩

/-- An instance of C19: the declaration rule on `int = 2;`. -/
theorem declaration_without_identifier_witness :
    (Parser.new (Lexer.new "int = 2;")).Reads
          (⟨TokenType.INT, "int"⟩ :: [assignTok, ⟨TokenType.INT, "2"⟩, semicolon])
      ∧ (([assignTok, ⟨TokenType.INT, "2"⟩, semicolon] : List Token).headD endToken).type
          ≠ TokenType.IDENTIFIER
      ∧ (Parser.parseVariableDeclaration (Parser.new (Lexer.new "int = 2;"))).output
          = (Parser.new (Lexer.new "int = 2;")).output
      ∧ (Parser.parseVariableDeclaration (Parser.new (Lexer.new "int = 2;"))).cerr
          = (Parser.new (Lexer.new "int = 2;")).cerr
            ++ ["Syntax error: Expected identifier after type"] :=
  ⟨⟨by decide, by decide⟩, by decide,
    (declaration_without_identifier (Parser.new (Lexer.new "int = 2;")) ⟨TokenType.INT, "int"⟩
      [assignTok, ⟨TokenType.INT, "2"⟩, semicolon] ⟨by decide, by decide⟩ (by decide)).1,
    (declaration_without_identifier (Parser.new (Lexer.new "int = 2;")) ⟨TokenType.INT, "int"⟩
      [assignTok, ⟨TokenType.INT, "2"⟩, semicolon] ⟨by decide, by decide⟩ (by decide)).2.1⟩

end Compiler

namespace Compiler

/-- C14: `parsePrintStatement`, called on the lookahead `t0` followed by the
tokens `ts`. When the first of `ts` is not `(`, it writes no line, writes one
diagnostic and leaves all of `ts` to read. When it is `(`, it writes the lines
of the expression and then `print eax`, whether or not a `)` follows the
expression; a `)` is consumed without diagnostic; a token that is not `)` gets
one diagnostic and stays unread; in both cases a `;` met next is consumed. -/
theorem print_statement (p : Parser) (t0 : Token) (ts : List Token)
    (hr : p.Reads (t0 :: ts)) :
    ((ts.headD endToken).type ≠ TokenType.LPAREN →
        (Parser.parsePrintStatement p).output = p.output
          ∧ (Parser.parsePrintStatement p).cerr
              = p.cerr ++ ["Syntax error: Expected \x27(\x27 after \x27print\x27"]
          ∧ (Parser.parsePrintStatement p).Reads ts)
    ∧ ((ts.headD endToken).type = TokenType.LPAREN →
        (Parser.parsePrintStatement p).output
            = p.output ++ expressionLines ts.tail ++ ["print eax"]
          ∧ (((afterExpression ts.tail).headD endToken).type = TokenType.RPAREN →
              (Parser.parsePrintStatement p).cerr = p.cerr
                ∧ (Parser.parsePrintStatement p).Reads
                    (if ((afterExpression ts.tail).tail.headD endToken).type
                        = TokenType.SEMICOLON
                      then (afterExpression ts.tail).tail.tail
                      else (afterExpression ts.tail).tail))
          ∧ (((afterExpression ts.tail).headD endToken).type ≠ TokenType.RPAREN →
              (Parser.parsePrintStatement p).cerr
                  = p.cerr ++ ["Syntax error: Expected \x27)\x27 after print statement"]
                ∧ (Parser.parsePrintStatement p).Reads
                    (if ((afterExpression ts.tail).headD endToken).type = TokenType.SEMICOLON
                      then (afterExpression ts.tail).tail
                      else afterExpression ts.tail))) := by
  have r1 : p.advance.Reads ts := Parser.reads_advance_cons hr
  have t1 : p.advance.current_token = ts.headD endToken := r1.1
  constructor
  · intro hn
    have e : Parser.parsePrintStatement p
        = p.advance.report "Syntax error: Expected \x27(\x27 after \x27print\x27" := by
      unfold Parser.parsePrintStatement
      simp only []
      rw [t1, if_pos hn]
    rw [e]
    exact ⟨Parser.report_output _ _, Parser.report_cerr _ _, Parser.reads_report _ r1⟩
  · intro hl
    have r2 : p.advance.advance.Reads ts.tail := Parser.reads_advance r1
    have r3 := Parser.parseExpression_reads p.advance.advance ts.tail r2
    have o3 := Parser.parseExpression_output p.advance.advance ts.tail r2
    have r4 : ((Parser.parseExpression p.advance.advance).emit "print eax").Reads
        (afterExpression ts.tail) := Parser.reads_emit _ r3.1
    have t4 : ((Parser.parseExpression p.advance.advance).emit "print eax").current_token
        = (afterExpression ts.tail).headD endToken := r4.1
    have o4 : ((Parser.parseExpression p.advance.advance).emit "print eax").output
        = p.output ++ expressionLines ts.tail ++ ["print eax"] := by
      rw [Parser.emit_output, o3, Parser.advance_output, Parser.advance_output]
    have c4 : ((Parser.parseExpression p.advance.advance).emit "print eax").cerr = p.cerr := by
      rw [Parser.emit_cerr, r3.2, Parser.advance_cerr, Parser.advance_cerr]
    have e : Parser.parsePrintStatement p
        = if (if ((Parser.parseExpression p.advance.advance).emit "print eax").current_token.type
              ≠ TokenType.RPAREN then
            ((Parser.parseExpression p.advance.advance).emit "print eax").report
              "Syntax error: Expected \x27)\x27 after print statement"
            else ((Parser.parseExpression p.advance.advance).emit
              "print eax").advance).current_token.type = TokenType.SEMICOLON
          then (if ((Parser.parseExpression p.advance.advance).emit
              "print eax").current_token.type ≠ TokenType.RPAREN then
            ((Parser.parseExpression p.advance.advance).emit "print eax").report
              "Syntax error: Expected \x27)\x27 after print statement"
            else ((Parser.parseExpression p.advance.advance).emit "print eax").advance).advance
          else (if ((Parser.parseExpression p.advance.advance).emit
              "print eax").current_token.type ≠ TokenType.RPAREN then
            ((Parser.parseExpression p.advance.advance).emit "print eax").report
              "Syntax error: Expected \x27)\x27 after print statement"
            else ((Parser.parseExpression p.advance.advance).emit "print eax").advance) := by
      unfold Parser.parsePrintStatement
      simp only []
      rw [t1, if_neg (fun hn => hn hl)]
    have hp := Parser.print_paren_step _ _ r4
    rw [e]
    refine ⟨?_, ?_, ?_⟩
    · by_cases hrp : ((afterExpression ts.tail).headD endToken).type = TokenType.RPAREN
      · have hs := Parser.semicolon_step _ _ (hp.2.1 hrp).2
        rw [hs.1, hp.1, o4]
      · have hs := Parser.semicolon_step _ _ (hp.2.2 hrp).2
        rw [hs.1, hp.1, o4]
    · intro hrp
      have hs := Parser.semicolon_step _ _ (hp.2.1 hrp).2
      exact ⟨by rw [hs.2.1, (hp.2.1 hrp).1, c4], hs.2.2⟩
    · intro hrp
      have hs := Parser.semicolon_step _ _ (hp.2.2 hrp).2
      exact ⟨by rw [hs.2.1, (hp.2.2 hrp).1, c4], hs.2.2⟩

/-- An instance of C14: the print rule on `print x;`, where `(` is missing. -/
theorem print_statement_witness :
    (Parser.new (Lexer.new "print x;")).Reads
        (printTok :: [⟨TokenType.IDENTIFIER, "x"⟩, semicolon])
      ∧ (([⟨TokenType.IDENTIFIER, "x"⟩, semicolon] : List Token).headD endToken).type
          ≠ TokenType.LPAREN
      ∧ (Parser.parsePrintStatement (Parser.new (Lexer.new "print x;"))).output
          = (Parser.new (Lexer.new "print x;")).output
      ∧ (Parser.parsePrintStatement (Parser.new (Lexer.new "print x;"))).cerr
          = (Parser.new (Lexer.new "print x;")).cerr
            ++ ["Syntax error: Expected \x27(\x27 after \x27print\x27"]
      ∧ (Parser.parsePrintStatement (Parser.new (Lexer.new "print x;"))).Reads
          [⟨TokenType.IDENTIFIER, "x"⟩, semicolon] :=
  ⟨⟨by decide, by decide⟩, by decide,
    (print_statement (Parser.new (Lexer.new "print x;")) printTok
      [⟨TokenType.IDENTIFIER, "x"⟩, semicolon] ⟨by decide, by decide⟩).1 (by decide)⟩

end Compiler

namespace Compiler

/-- C17: in `parseExpression`, the token `t` after an operator token `o` (the
first of `rest`, or `END` with the empty lexeme when nothing is left) is taken
as the right-hand operand whatever its kind: the operator line is the verb of
`o` followed by exactly the lexeme of `t`, and `t` is consumed. This holds
after a primary `a` and without one. In `if (x > ) print(x);` the `)` is the
operand, so the `if` rule reports a missing `)`. -/
theorem operand_taken_unconditionally (p : Parser) (o : Token) (rest : List Token)
    (ho : isOperator o = true) :
    (∃ verb : String, ∀ L : String, operatorLines o L = [verb ++ L])
      ∧ (∀ a : Token, isPrimary a = true → p.Reads (a :: o :: rest) →
          (Parser.parseExpression p).output
              = p.output ++ ["load " ++ a.lexeme ++ " into eax"]
                ++ operatorLines o (rest.headD endToken).lexeme
            ∧ (Parser.parseExpression p).Reads rest.tail
            ∧ (Parser.parseExpression p).cerr = p.cerr)
      ∧ (p.Reads (o :: rest) →
          (Parser.parseExpression p).output
              = p.output ++ operatorLines o (rest.headD endToken).lexeme
            ∧ (Parser.parseExpression p).Reads rest.tail
            ∧ (Parser.parseExpression p).cerr = p.cerr)
      ∧ (translate "if (x > ) print(x);").map (fun q => (q.output, q.cerr))
          = some (["load x into eax", "compare eax with )", "load x into eax", "print eax"],
              ["Syntax error: Expected \x27)\x27 after condition in if statement"]) := by
  have hnp : isPrimary o = false := by
    unfold isOperator at ho
    simp only [Bool.or_eq_true, decide_eq_true_eq] at ho
    unfold isPrimary
    rcases ho with (h | h) | h <;> rw [h] <;> rfl
  refine ⟨?_, ?_, ?_, by decide⟩
  · unfold isOperator at ho
    simp only [Bool.or_eq_true, decide_eq_true_eq] at ho
    unfold operatorLines
    rcases ho with (h | h) | h
    · exact ⟨"compare eax with ", fun L => by rw [if_pos h]⟩
    · exact ⟨"substract eax with ", fun L => by rw [h]; rfl⟩
    · exact ⟨"Add eax with ", fun L => by rw [h]; rfl⟩
  · intro a ha hr
    have hout := Parser.parseExpression_output p _ hr
    have hrd := Parser.parseExpression_reads p _ hr
    have e1 : afterPrimary (a :: o :: rest) = o :: rest := by
      unfold afterPrimary
      rw [List.headD_cons, if_pos ha, List.tail_cons]
    have e2 : afterExpression (a :: o :: rest) = rest.tail := by
      rw [Parser.afterExpression_eq, e1, List.headD_cons, if_pos ho, List.tail_cons]
    have e3 : expressionLines (a :: o :: rest)
        = ["load " ++ a.lexeme ++ " into eax"]
          ++ operatorLines o (rest.headD endToken).lexeme := by
      unfold expressionLines loadLines
      rw [e1, List.headD_cons, if_pos ha, List.headD_cons, List.tail_cons]
    rw [e2] at hrd
    rw [e3, ← List.append_assoc] at hout
    exact ⟨hout, hrd.1, hrd.2⟩
  · intro hr
    have hout := Parser.parseExpression_output p _ hr
    have hrd := Parser.parseExpression_reads p _ hr
    have e1 : afterPrimary (o :: rest) = o :: rest := by
      unfold afterPrimary
      rw [List.headD_cons, hnp, if_neg (by decide)]
    have e2 : afterExpression (o :: rest) = rest.tail := by
      rw [Parser.afterExpression_eq, e1, List.headD_cons, if_pos ho, List.tail_cons]
    have e3 : expressionLines (o :: rest)
        = operatorLines o (rest.headD endToken).lexeme := by
      unfold expressionLines loadLines
      rw [e1, List.headD_cons, hnp, if_neg (by decide), List.tail_cons, List.nil_append]
    rw [e2] at hrd
    rw [e3] at hout
    exact ⟨hout, hrd.1, hrd.2⟩

/-- An instance of C17: the expression `x > )` of `if (x > ) print(x);`, whose
operand is the token `)`. -/
theorem operand_taken_unconditionally_witness :
    isOperator ⟨TokenType.GREATER_THAN, ">"⟩ = true
      ∧ isPrimary ⟨TokenType.IDENTIFIER, "x"⟩ = true
      ∧ (Parser.new (Lexer.new "x > ) print")).Reads
          (⟨TokenType.IDENTIFIER, "x"⟩ :: ⟨TokenType.GREATER_THAN, ">"⟩ :: [rparen, printTok])
      ∧ (Parser.parseExpression (Parser.new (Lexer.new "x > ) print"))).output
          = (Parser.new (Lexer.new "x > ) print")).output ++ ["load " ++ "x" ++ " into eax"]
            ++ operatorLines ⟨TokenType.GREATER_THAN, ">"⟩
                (([rparen, printTok] : List Token).headD endToken).lexeme
      ∧ (Parser.parseExpression (Parser.new (Lexer.new "x > ) print"))).Reads
          ([rparen, printTok] : List Token).tail :=
  ⟨by decide, by decide, ⟨by decide, by decide⟩,
    ((operand_taken_unconditionally (Parser.new (Lexer.new "x > ) print"))
      ⟨TokenType.GREATER_THAN, ">"⟩ [rparen, printTok] (by decide)).2.1
        ⟨TokenType.IDENTIFIER, "x"⟩ (by decide) ⟨by decide, by decide⟩).1,
    ((operand_taken_unconditionally (Parser.new (Lexer.new "x > ) print"))
      ⟨TokenType.GREATER_THAN, ">"⟩ [rparen, printTok] (by decide)).2.1
        ⟨TokenType.IDENTIFIER, "x"⟩ (by decide) ⟨by decide, by decide⟩).2.1⟩

/-- C18: one call of `parseExpression`, on any tokens `ts`, consumes at most
three tokens and writes at most two lines: at most one `load` line, then at
most one operator line; it writes no diagnostic; and a `*` or `/` met after
the optional primary is not consumed and gives no line. For `x = a + b + c;`
the assignment writes `load a into eax`, the operator line of `b` and
`mov x, eax`, and no other instruction line is written. -/
theorem one_operator_expression (p : Parser) (ts : List Token) (hr : p.Reads ts) :
    (∃ k, k ≤ 3 ∧ (Parser.parseExpression p).Reads (ts.drop k))
      ∧ (Parser.parseExpression p).output
          = p.output ++ (loadLines (ts.headD endToken)
            ++ operatorLines ((afterPrimary ts).headD endToken)
                ((afterPrimary ts).tail.headD endToken).lexeme)
      ∧ (loadLines (ts.headD endToken)).length ≤ 1
      ∧ (operatorLines ((afterPrimary ts).headD endToken)
            ((afterPrimary ts).tail.headD endToken).lexeme).length ≤ 1
      ∧ (Parser.parseExpression p).cerr = p.cerr
      ∧ ((((afterPrimary ts).headD endToken).type = TokenType.MUL
            ∨ ((afterPrimary ts).headD endToken).type = TokenType.DIV) →
          (Parser.parseExpression p).Reads (afterPrimary ts)
            ∧ (Parser.parseExpression p).output = p.output ++ loadLines (ts.headD endToken))
      ∧ (translate "x = a + b + c;").map (fun q => q.output)
          = some ["load a into eax", "Add eax with b", "mov x, eax"] := by
  have hout := Parser.parseExpression_output p ts hr
  have hrd := Parser.parseExpression_reads p ts hr
  have hap : afterPrimary ts = ts.drop 0 ∨ afterPrimary ts = ts.drop 1 := by
    unfold afterPrimary
    by_cases h : isPrimary (ts.headD endToken) = true
    · right; rw [if_pos h, List.drop_one]
    · left; rw [if_neg h, List.drop_zero]
  refine ⟨?_, hout, ?_, ?_, hrd.2, ?_, by decide⟩
  · rw [Parser.afterExpression_eq] at hrd
    by_cases ho : isOperator ((afterPrimary ts).headD endToken) = true
    · rw [if_pos ho] at hrd
      rcases hap with h | h
      · refine ⟨2, by omega, ?_⟩
        have := hrd.1
        rw [h, List.drop_zero, ← List.drop_one, ← List.drop_one, List.drop_drop] at this
        exact this
      · refine ⟨3, by omega, ?_⟩
        have := hrd.1
        rw [h, ← List.drop_one, ← List.drop_one, List.drop_drop, List.drop_drop] at this
        exact this
    · rw [if_neg ho] at hrd
      rcases hap with h | h
      · exact ⟨0, by omega, by rw [← h]; exact hrd.1⟩
      · exact ⟨1, by omega, by rw [← h]; exact hrd.1⟩
  · unfold loadLines
    split <;> simp
  · unfold operatorLines
    split_ifs <;> simp
  · intro hmd
    have hno : isOperator ((afterPrimary ts).headD endToken) = false := by
      unfold isOperator
      rcases hmd with h | h <;> rw [h] <;> rfl
    rw [Parser.afterExpression_eq, hno, if_neg (by decide)] at hrd
    refine ⟨hrd.1, ?_⟩
    rw [hout]
    unfold expressionLines
    rw [Parser.operatorLines_of_not_operator hno, List.append_nil]

/-- An instance of C18: the expression rule on `a + b + c;` consumes three
tokens. -/
theorem one_operator_expression_witness :
    (Parser.new (Lexer.new "a + b + c;")).Reads
        [⟨TokenType.IDENTIFIER, "a"⟩, ⟨TokenType.PLUS, "+"⟩, ⟨TokenType.IDENTIFIER, "b"⟩,
          ⟨TokenType.PLUS, "+"⟩, ⟨TokenType.IDENTIFIER, "c"⟩, semicolon]
      ∧ (Parser.parseExpression (Parser.new (Lexer.new "a + b + c;"))).output
          = (Parser.new (Lexer.new "a + b + c;")).output
            ++ (loadLines (([⟨TokenType.IDENTIFIER, "a"⟩, ⟨TokenType.PLUS, "+"⟩,
                  ⟨TokenType.IDENTIFIER, "b"⟩, ⟨TokenType.PLUS, "+"⟩,
                  ⟨TokenType.IDENTIFIER, "c"⟩, semicolon] : List Token).headD endToken)
              ++ operatorLines ((afterPrimary [⟨TokenType.IDENTIFIER, "a"⟩,
                  ⟨TokenType.PLUS, "+"⟩, ⟨TokenType.IDENTIFIER, "b"⟩, ⟨TokenType.PLUS, "+"⟩,
                  ⟨TokenType.IDENTIFIER, "c"⟩, semicolon]).headD endToken)
                ((afterPrimary [⟨TokenType.IDENTIFIER, "a"⟩,
                  ⟨TokenType.PLUS, "+"⟩, ⟨TokenType.IDENTIFIER, "b"⟩, ⟨TokenType.PLUS, "+"⟩,
                  ⟨TokenType.IDENTIFIER, "c"⟩, semicolon]).tail.headD endToken).lexeme) :=
  ⟨⟨by decide, by decide⟩,
    (one_operator_expression (Parser.new (Lexer.new "a + b + c;"))
      [⟨TokenType.IDENTIFIER, "a"⟩, ⟨TokenType.PLUS, "+"⟩, ⟨TokenType.IDENTIFIER, "b"⟩,
        ⟨TokenType.PLUS, "+"⟩, ⟨TokenType.IDENTIFIER, "c"⟩, semicolon]
      ⟨by decide, by decide⟩).2.1⟩

end Compiler

namespace Compiler

/-! ## C15: function calls -/

/-- C15, counterexample: the source `f((a));` is a call whose arguments `(a)`
are balanced, but the text is not discarded up to the matching `)`: the first
`)` ends the call, and the `)` and `;` left over are each reported as an
unexpected token. -/
theorem call_nested_parentheses_reported :
    (Lexer.new "f((a));").tokens
        = ⟨TokenType.IDENTIFIER, "f"⟩ :: lparen
            :: ([lparen, ⟨TokenType.IDENTIFIER, "a"⟩, rparen] ++ [rparen, semicolon])
      ∧ balanced [lparen, ⟨TokenType.IDENTIFIER, "a"⟩, rparen] = true
      ∧ (translate "f((a));").map (fun q => (q.output, q.cerr))
        = some (["call f"],
            ["Syntax error: Unexpected token \x27)\x27",
             "Syntax error: Unexpected token \x27;\x27"]) := by
  decide

/-- C15, amended: for every identifier `f` and every token sequence `ts` that
holds no `)`, translating `f ( ts ) ;` discards all of `ts`, emits exactly the
line `call f` and reports no diagnostic; and from any state the call rule
discards the tokens up to the first `)`, writes `call f`, reports nothing and
consumes a `;` that comes next. -/
theorem call_discards_to_first_paren (src : String) (name : Token) (ts : List Token)
    (hn : name.type = TokenType.IDENTIFIER)
    (hts : ∀ t ∈ ts, t.type ≠ TokenType.RPAREN)
    (htoks : (Lexer.new src).tokens = name :: lparen :: (ts ++ [rparen, semicolon])) :
    (∃ q, translate src = some q ∧ q.output = ["call " ++ name.lexeme] ∧ q.cerr = []
        ∧ q.current_token.type = TokenType.END)
      ∧ ∀ (p : Parser) (rest : List Token),
          p.Reads (name :: lparen :: (ts ++ rparen :: rest)) →
          (Parser.parseAssignmentOrFunctionCall p).output = p.output ++ ["call " ++ name.lexeme]
            ∧ (Parser.parseAssignmentOrFunctionCall p).cerr = p.cerr
            ∧ (Parser.parseAssignmentOrFunctionCall p).Reads
                (if (rest.headD endToken).type = TokenType.SEMICOLON then rest.tail
                  else rest) := by
  have hargs : ∀ t ∈ ts, t.type ≠ TokenType.RPAREN ∧ t.type ≠ TokenType.END := by
    intro t ht
    refine ⟨hts t ht, ?_⟩
    apply Lexer.tokens_not_END (Lexer.new src).input.length (Lexer.new src) (Nat.sub_le _ _)
    rw [htoks]
    exact List.mem_cons_of_mem _ (List.mem_cons_of_mem _ (List.mem_append_left _ ht))
  constructor
  · have hwf : wfStmts [Stmt.call name ts] = true := by
      simp only [wfStmts, Stmt.wf, Bool.and_true, Bool.and_eq_true, decide_eq_true_eq,
        List.all_eq_true]
      exact ⟨hn, fun t ht => by
        simp only [ne_eq, decide_not, Bool.and_eq_true, Bool.not_eq_eq_eq_not, Bool.not_true,
          decide_eq_false_iff_not]
        exact hargs t ht⟩
    obtain ⟨q, hq, hout, herr, hreads⟩ := translate_sound src [Stmt.call name ts] [] hwf
      (by rw [htoks]; simp only [renderStmts, Stmt.render, List.append_nil, List.cons_append,
            List.nil_append])
      (Or.inl rfl)
    refine ⟨q, hq, ?_, herr, ?_⟩
    · rw [hout]; simp only [linesStmts, Stmt.lines, List.append_nil]
    · rw [hreads.1]; rfl
  · intro p rest hr
    exact Parser.parseFunctionCall_first_paren name ts p rest hargs hr

theorem call_discards_to_first_paren_witness :
    (∃ q, translate "f(a 1);" = some q ∧ q.output = ["call " ++ "f"] ∧ q.cerr = []
        ∧ q.current_token.type = TokenType.END)
      ∧ ∀ (p : Parser) (rest : List Token),
          p.Reads (⟨TokenType.IDENTIFIER, "f"⟩ :: lparen
            :: ([⟨TokenType.IDENTIFIER, "a"⟩, ⟨TokenType.INT, "1"⟩] ++ rparen :: rest)) →
          (Parser.parseAssignmentOrFunctionCall p).output = p.output ++ ["call " ++ "f"]
            ∧ (Parser.parseAssignmentOrFunctionCall p).cerr = p.cerr
            ∧ (Parser.parseAssignmentOrFunctionCall p).Reads
                (if (rest.headD endToken).type = TokenType.SEMICOLON then rest.tail
                  else rest) :=
  call_discards_to_first_paren "f(a 1);" ⟨TokenType.IDENTIFIER, "f"⟩
    [⟨TokenType.IDENTIFIER, "a"⟩, ⟨TokenType.INT, "1"⟩] rfl (by decide) (by decide)

/-! ## C13: termination -/

/-- C13: translation returns for every input, with the lookahead on `END` or
on an `ERROR` token, and with the same final state whatever fuel beyond the
bound is given; a statement, a block and the skipping of an unexpected token
each return having consumed at least one token when the lookahead is not
`END`, which is what one iteration of the top-level loop or of the loop of a
block runs. -/
theorem translation_always_returns (src : String) :
    (∃ q, translate src = some q
        ∧ (q.current_token.type = TokenType.END ∨ q.current_token.type = TokenType.ERROR)
        ∧ ∀ f, parseFuel src.length ≤ f →
            Parser.parse f (Parser.new (Lexer.new src)) = some q)
      ∧ (∀ p : Parser, p.current_token.type ≠ TokenType.END →
          ∃ q, Parser.parseStatement (3 * p.measure + 1) p = some q ∧ q.measure < p.measure)
      ∧ (∀ p : Parser, p.current_token.type ≠ TokenType.END →
          ∃ q, Parser.parseBlock (3 * p.measure + 2) p = some q ∧ q.measure < p.measure)
      ∧ (∀ p : Parser, p.current_token.type ≠ TokenType.END →
          p.unexpectedToken.measure < p.measure) := by
  refine ⟨?_, ?_, ?_, ?_⟩
  · obtain ⟨q, hq, -, hstop⟩ := translate_terminates src
    exact ⟨q, hq, hstop, fun f hf => Parser.parse_fuel_le hf hq⟩
  · intro p hp
    obtain ⟨q, hq, -, hlt⟩ := (Parser.rules_terminate (3 * p.measure + 1)).2.2.2.2 p (le_refl _)
    exact ⟨q, hq, hlt hp⟩
  · intro p hp
    obtain ⟨q, hq, -, hlt⟩ := (Parser.rules_terminate (3 * p.measure + 2)).2.2.1 p (le_refl _)
    exact ⟨q, hq, hlt hp⟩
  · intro p hp
    exact Parser.measure_lt_of_extends_advance (Parser.extends_unexpectedToken p) hp

theorem translation_always_returns_witness :
    ∃ q, translate input_code = some q
      ∧ (q.current_token.type = TokenType.END ∨ q.current_token.type = TokenType.ERROR)
      ∧ ∀ f, parseFuel input_code.length ≤ f →
          Parser.parse f (Parser.new (Lexer.new input_code)) = some q :=
  (translation_always_returns input_code).1

end Compiler

namespace Compiler

/-! ## C16: an invalid character inside a block -/

/-- C16: an `ERROR` token met by the loop of a braced block is reported as an
unexpected token and skipped, exactly that token, and the block goes on. From
any state whose lookahead is an `ERROR` token `c`, one turn of the loop writes
the one diagnostic `Syntax error: Unexpected token` with the lexeme of `c`,
writes no line, consumes `c` only, and continues as the loop does on the tokens
after `c`, whatever they are. So, for a block `{ items }` whose items are
well-formed statements and `ERROR` tokens in any number and any order (two
`ERROR` tokens in a row, or one just before `}`, included): from any state the
block rule returns after the closing brace with the lines of the statements
and one diagnostic for each `ERROR` token, in order; and in a source whose
tokens are well-formed statements around a statement `if ( E ) { items }`, the
statements after the block are translated and the diagnostic stream holds
exactly these diagnostics. The source `if (x) { # print(x); } print(y);` gives
`load x into eax`, `if eax != 0 jump label`, `load x into eax`, `print eax`,
`load y into eax`, `print eax` and the diagnostic for `#`; the source
`if (x) { # # print(x); # } print(y);` gives the same lines and three
diagnostics. -/
theorem error_token_in_block (src : String) (pre post : List Stmt) (e : Expr)
    (items : List Item) (hpre : wfStmts pre = true) (hpost : wfStmts post = true)
    (he : e.wf = true) (hitems : wfItems items = true)
    (htoks : (Lexer.new src).tokens
      = renderStmts pre
        ++ ([ifTok, lparen] ++ e.render ++ [rparen, lbrace] ++ renderItems items ++ [rbrace])
        ++ renderStmts post) :
    (∃ q, translate src = some q
      ∧ q.output = linesStmts pre
          ++ (e.lines ++ ["if eax != 0 jump label"] ++ linesItems items)
          ++ linesStmts post
      ∧ q.cerr = diagnosticsItems items
      ∧ q.current_token.type = TokenType.END)
    ∧ (∀ (p : Parser) (rest : List Token) (f : Nat),
        p.Reads (lbrace :: (renderItems items ++ rbrace :: rest)) →
        3 * p.measure + 2 ≤ f →
        ∃ q, Parser.parseBlock f p = some q ∧ q.Reads rest
          ∧ q.output = p.output ++ linesItems items
          ∧ q.cerr = p.cerr ++ diagnosticsItems items)
    ∧ (∀ (p : Parser) (c : Token) (ts : List Token) (f : Nat),
        p.Reads (c :: ts) → c.type = TokenType.ERROR →
        Parser.blockLoop (f + 1) p = Parser.blockLoop f p.unexpectedToken
          ∧ p.unexpectedToken.Reads ts
          ∧ p.unexpectedToken.output = p.output
          ∧ p.unexpectedToken.cerr
              = p.cerr ++ ["Syntax error: Unexpected token \x27" ++ c.lexeme ++ "\x27"])
    ∧ (translate "if (x) \x7b # print(x); \x7d print(y);").map (fun q => (q.output, q.cerr))
        = some (["load x into eax", "if eax != 0 jump label", "load x into eax", "print eax",
            "load y into eax", "print eax"], ["Syntax error: Unexpected token \x27#\x27"])
    ∧ (translate "if (x) \x7b # # print(x); # \x7d print(y);").map
          (fun q => (q.output, q.cerr))
        = some (["load x into eax", "if eax != 0 jump label", "load x into eax", "print eax",
            "load y into eax", "print eax"],
          ["Syntax error: Unexpected token \x27#\x27",
           "Syntax error: Unexpected token \x27#\x27",
           "Syntax error: Unexpected token \x27#\x27"]) := by
  refine ⟨?_, ?_, ?_, by decide, by decide⟩
  · obtain ⟨q, hq, -, -⟩ := translate_terminates src
    refine ⟨q, hq, ?_⟩
    have hr : (Parser.new (Lexer.new src)).Reads (renderStmts pre
        ++ (ifTok :: lparen :: (e.render ++ rparen :: lbrace
          :: (renderItems items ++ rbrace :: renderStmts post)))) := by
      have := Parser.reads_new (Lexer.new src)
      rw [htoks] at this
      simpa only [List.append_assoc, List.cons_append, List.nil_append] using this
    unfold translate at hq
    obtain ⟨f1, q1, h1, e1⟩ := Parser.parse_after_statements pre _ _ q _ hpre hr
      (stmtsClosedBy_of_head pre _ (fun h => TokenType.noConfusion h)) hq
    cases f1 with
    | zero => rw [Parser.parse] at h1; cases h1
    | succ f1 =>
      rw [Parser.parse_succ] at h1
      have t0 : q1.current_token = ifTok := e1.1.1
      rw [t0, if_pos ⟨by decide, by decide⟩] at h1
      obtain ⟨q2, hq2, h2⟩ := Option.bind_eq_some.mp h1
      rw [Parser.parseStatement] at hq2
      simp only [t0, ifTok, reduceCtorEq, ↓reduceIte, or_self] at hq2
      have hne : ((renderStmts post).headD endToken).type ≠ TokenType.ELSE := by
        have := head_renderStmts_ne_else post hpost endToken [] (by decide)
        cases hp : renderStmts post with
        | nil => decide
        | cons t ts => rw [hp] at this; exact this
      obtain ⟨b1, b2, b3⟩ := Parser.parseIfStatement_items e items f1 q1 q2 _ he
        hitems hne e1.1 hq2
      have e3 := Parser.parse_sound f1 post q2 q [] hpost
        (by rw [List.append_nil]; exact b1) (Or.inl rfl) h2
      refine ⟨?_, ?_, ?_⟩
      · rw [e3.2.1, b2, e1.2.1]
        show [] ++ linesStmts pre ++ _ ++ linesStmts post = _
        rw [List.nil_append]
      · rw [e3.2.2, b3, e1.2.2]
        rfl
      · rw [e3.1.1]; rfl
  · intro p rest f hr hf
    obtain ⟨q, hq, -, -⟩ := (Parser.rules_terminate f).2.2.1 p hf
    exact ⟨q, hq, Parser.parseBlock_items items f p q rest hitems hr hq⟩
  · intro p c ts f hr hc
    exact ⟨Parser.blockLoop_error_step f p c ts hr hc, Parser.unexpectedToken_reads hr⟩

/-- The source `if (x) { # x = 1; # } print(y);`, whose block holds an `ERROR`
token before a statement and one just before the closing brace, as an instance
of C16. -/
theorem error_token_in_block_witness :
    ∃ q, translate "if (x) \x7b # x = 1; # \x7d print(y);" = some q
      ∧ q.output = linesStmts []
          ++ ((Expr.prim ⟨TokenType.IDENTIFIER, "x"⟩).lines ++ ["if eax != 0 jump label"]
            ++ linesItems [Item.error ⟨TokenType.ERROR, "#"⟩,
                Item.stmt (Stmt.assign ⟨TokenType.IDENTIFIER, "x"⟩
                  (Expr.prim ⟨TokenType.INT, "1"⟩)),
                Item.error ⟨TokenType.ERROR, "#"⟩])
          ++ linesStmts [Stmt.print (Expr.prim ⟨TokenType.IDENTIFIER, "y"⟩)]
      ∧ q.cerr = diagnosticsItems [Item.error ⟨TokenType.ERROR, "#"⟩,
                Item.stmt (Stmt.assign ⟨TokenType.IDENTIFIER, "x"⟩
                  (Expr.prim ⟨TokenType.INT, "1"⟩)),
                Item.error ⟨TokenType.ERROR, "#"⟩]
      ∧ q.current_token.type = TokenType.END :=
  (error_token_in_block "if (x) \x7b # x = 1; # \x7d print(y);" []
    [Stmt.print (Expr.prim ⟨TokenType.IDENTIFIER, "y"⟩)]
    (Expr.prim ⟨TokenType.IDENTIFIER, "x"⟩)
    [Item.error ⟨TokenType.ERROR, "#"⟩,
      Item.stmt (Stmt.assign ⟨TokenType.IDENTIFIER, "x"⟩ (Expr.prim ⟨TokenType.INT, "1"⟩)),
      Item.error ⟨TokenType.ERROR, "#"⟩]
    (by decide) (by decide) (by decide) (by decide) (by decide)).1

end Compiler

namespace Compiler

/-! ## C12: the lexemes and the input -/

/-- C12: for every source text, the lexemes of the tokens returned before
`END`, concatenated in order, are exactly the text with its whitespace
characters removed; every token other than `END` has a non-empty lexeme, and
`END` has the empty lexeme. The text ` int  x = 10 ;` followed by a newline
gives `intx=10;`. -/
theorem lexemes_make_up_input (s : String) :
    concatLexemes (Lexer.new s).tokens = ⟨withoutWhitespace s.data⟩
      ∧ (∀ t ∈ (Lexer.new s).tokens, t.lexeme ≠ "")
      ∧ (∀ l : Lexer, (Lexer.getNextToken l).1.type ≠ TokenType.END →
          (Lexer.getNextToken l).1.lexeme ≠ "")
      ∧ (∀ l : Lexer, (Lexer.getNextToken l).1.type = TokenType.END →
          (Lexer.getNextToken l).1.lexeme = "")
      ∧ concatLexemes (Lexer.new " int  x = 10 ;\n").tokens = "intx=10;" := by
  have key := Lexer.tokens_lexemes (Lexer.new s).rest.length (Lexer.new s) (le_refl _)
  refine ⟨?_, ?_, ?_, ?_, by decide⟩
  · apply String.ext
    rw [key.1]
    rfl
  · intro t ht h
    exact key.2 t ht (by rw [h])
  · intro l hl h
    have hmem : (Lexer.getNextToken l).1 ∈ l.tokens := by
      rw [Lexer.tokens_eq, if_neg hl]
      exact List.mem_cons_self _ _
    exact (Lexer.tokens_lexemes l.rest.length l (le_refl _)).2 _ hmem (by rw [h])
  · intro l hl
    rw [(Lexer.getNextToken_END l hl).1]

end Compiler

namespace Compiler

/-! ## C20: type keywords and numeric literals -/

/-- C20: type keywords and numeric literals are indistinguishable to the
translator. When the tokens of two sources differ only by tokens of kind `INT`
or `FLOAT` standing for each other (a type keyword or a numeric literal each),
both translations return; line by line, the two instruction streams hold the
same line, or the two `load` lines or the two operand lines of the same
operator that print the lexemes of the two tokens of kind `INT` or `FLOAT`
found at one and the same position of the two token streams (the replaced token
and its replacement); so the streams are equal when the first prints no
replaced token. The diagnostics are the same, and the top-level loop takes the
same sequence of statement rules, where the rule of a state is the branch that
`parseStatement` runs; at any depth, from two states that differ in this way
only, the same statement rule is taken and the statement and block rules return
states that again differ in this way only. The source `12 x;` emits exactly
`var x`, as `int x;` does, with no diagnostic; `x = int;` emits
`load int into eax` then `mov x, eax`; `12 a = b;` and `int a = b;` both emit
`load b into eax` then `mov a, eax`. -/
theorem type_keywords_and_literals_alike (src src' : String)
    (hal : List.Forall₂ alike (Lexer.new src).tokens (Lexer.new src').tokens) :
    (∃ q q', translate src = some q ∧ translate src' = some q'
        ∧ List.Forall₂ (lineAlike (Lexer.new src).tokens (Lexer.new src').tokens)
            q.output q'.output
        ∧ ((∀ a ∈ q.output, ∀ (j : Nat) (t t' : Token),
              (Lexer.new src).tokens[j]? = some t → (Lexer.new src').tokens[j]? = some t' →
              t ≠ t' →
              a ≠ "load " ++ t.lexeme ++ " into eax" ∧ ∀ op : Op, a ≠ op.line t.lexeme) →
            q.output = q'.output)
        ∧ q.cerr = q'.cerr
        ∧ alike q.current_token q'.current_token)
      ∧ Parser.rulesTaken (parseFuel src.length) (Parser.new (Lexer.new src))
          = Parser.rulesTaken (parseFuel src'.length) (Parser.new (Lexer.new src'))
      ∧ (∀ (f : Nat) (p : Parser), Parser.parseStatement (f + 1) p = Parser.run p.rule f p)
      ∧ (∀ (all all' : List Token) (f : Nat) (p p' : Parser), Parser.Sim all all' p p' →
          p.rule = p'.rule
            ∧ Parser.OptSim all all' (Parser.parseStatement f p) (Parser.parseStatement f p')
            ∧ Parser.OptSim all all' (Parser.parseBlock f p) (Parser.parseBlock f p'))
      ∧ (translate "12 x;").map (fun q => (q.output, q.cerr)) = some (["var x"], [])
      ∧ (translate "int x;").map (fun q => (q.output, q.cerr)) = some (["var x"], [])
      ∧ (translate "x = int;").map (fun q => (q.output, q.cerr))
          = some (["load int into eax", "mov x, eax"], [])
      ∧ (translate "12 a = b;").map (fun q => (q.output, q.cerr))
          = some (["load b into eax", "mov a, eax"], [])
      ∧ (translate "int a = b;").map (fun q => (q.output, q.cerr))
          = some (["load b into eax", "mov a, eax"], []) := by
  have h0 : Parser.Sim (Lexer.new src).tokens (Lexer.new src').tokens
      (Parser.new (Lexer.new src)) (Parser.new (Lexer.new src')) :=
    ⟨0, Parser.reads_new _, Parser.reads_new _, hal, List.Forall₂.nil, rfl⟩
  obtain ⟨q, hq, -, -⟩ := translate_terminates src
  obtain ⟨q', hq', -, -⟩ := translate_terminates src'
  have hF := Parser.parse_fuel_le
    (le_max_left (parseFuel src.length) (parseFuel src'.length)) hq
  have hF' := Parser.parse_fuel_le
    (le_max_right (parseFuel src.length) (parseFuel src'.length)) hq'
  refine ⟨⟨q, q', hq, hq', ?_⟩, ?_, Parser.parseStatement_rule, ?_, by decide, by decide,
    by decide, by decide, by decide⟩
  · have hs := Parser.parse_sim (max (parseFuel src.length) (parseFuel src'.length)) _ _ h0
    rw [hF, hF'] at hs
    have hs' : Parser.Sim (Lexer.new src).tokens (Lexer.new src').tokens q q' := hs
    have ht := hs'.tok
    obtain ⟨-, -, -, -, ho, hc⟩ := hs'
    exact ⟨ho, lineAlike_eq _ _ ho, hc, ht⟩
  · rw [← Parser.rulesTaken_fuel_le
        (le_max_left (parseFuel src.length) (parseFuel src'.length)) hq,
      ← Parser.rulesTaken_fuel_le
        (le_max_right (parseFuel src.length) (parseFuel src'.length)) hq']
    exact Parser.rulesTaken_sim _ _ _ h0
  · intro all all' f p p' h
    exact ⟨Parser.rule_sim h, (Parser.rules_sim f).2.2.2.2 p p' h,
      (Parser.rules_sim f).2.2.1 p p' h⟩

/-- The sources `x = 12;` and `x = int;`, where the replaced token is printed,
as an instance of C20. -/
theorem type_keywords_and_literals_alike_witness :
    ∃ q q', translate "x = 12;" = some q ∧ translate "x = int;" = some q'
      ∧ List.Forall₂ (lineAlike (Lexer.new "x = 12;").tokens (Lexer.new "x = int;").tokens)
          q.output q'.output
      ∧ ((∀ a ∈ q.output, ∀ (j : Nat) (t t' : Token),
            (Lexer.new "x = 12;").tokens[j]? = some t →
            (Lexer.new "x = int;").tokens[j]? = some t' → t ≠ t' →
            a ≠ "load " ++ t.lexeme ++ " into eax" ∧ ∀ op : Op, a ≠ op.line t.lexeme) →
          q.output = q'.output)
      ∧ q.cerr = q'.cerr
      ∧ alike q.current_token q'.current_token :=
  (type_keywords_and_literals_alike "x = 12;" "x = int;" (by decide)).1

end Compiler

namespace Compiler

/-! ## C7, amended: which syntax errors are reported -/

end Compiler
